import Mathlib

/-!
# Standard-library call effects on data-structure graphs

A shallow embedding of `lib/DSA/StdLibPass.cpp`: the table `recFuncs` of
recognised library functions, `processFunction`, `eraseCallsTo`, and the
graph operations they call, followed by theorems about them.
-/

namespace StdLibPass

/-- The arity `numOps` of the boolean arrays of a `libAction`. -/
def numOps : Nat := 10

/-- The record `libAction`: element 0 of each array describes the return
value, the remaining elements describe the arguments. -/
structure libAction where
  read : List Bool
  write : List Bool
  heap : List Bool
  mergeNodes : List Bool
  collapse : Bool
deriving DecidableEq

def NRET_NARGS : List Bool := [false, false, false, false, false, false, false, false, false, false]
def YRET_NARGS : List Bool := [true, false, false, false, false, false, false, false, false, false]
def NRET_YARGS : List Bool := [false, true, true, true, true, true, true, true, true, true]
def YRET_YARGS : List Bool := [true, true, true, true, true, true, true, true, true, true]
def NRET_NYARGS : List Bool := [false, false, true, true, true, true, true, true, true, true]
def YRET_NYARGS : List Bool := [true, false, true, true, true, true, true, true, true, true]
def NRET_YNARGS : List Bool := [false, true, false, false, false, false, false, false, false, false]
def YRET_YNARGS : List Bool := [true, true, false, false, false, false, false, false, false, false]
def YRET_NNYARGS : List Bool := [true, false, false, true, true, true, true, true, true, true]
def NRET_NNYARGS : List Bool := [false, false, false, true, true, true, true, true, true, true]
def YRET_NNYNARGS : List Bool := [true, false, false, true, false, false, false, false, false, false]
def NRET_NNNYARGS : List Bool := [false, false, false, false, true, true, true, true, true, true]

/-- One element of the table `recFuncs`; the name of the terminating
element is null. -/
structure RecFunc where
  name : Option String
  action : libAction
deriving DecidableEq

/-- The table `recFuncs`, in source order, with its terminating element. -/
def recFuncs : List RecFunc := [
  RecFunc.mk (some "stat") (libAction.mk NRET_YNARGS NRET_NYARGS NRET_NARGS NRET_NARGS false),
  RecFunc.mk (some "fstat") (libAction.mk NRET_YNARGS NRET_NYARGS NRET_NARGS NRET_NARGS false),
  RecFunc.mk (some "lstat") (libAction.mk NRET_YNARGS NRET_NYARGS NRET_NARGS NRET_NARGS false),
  RecFunc.mk (some "getenv") (libAction.mk NRET_YNARGS YRET_NARGS NRET_NARGS NRET_NARGS false),
  RecFunc.mk (some "getrusage") (libAction.mk NRET_YNARGS YRET_NYARGS NRET_NARGS NRET_NARGS false),
  RecFunc.mk (some "getrlimit") (libAction.mk NRET_YNARGS YRET_NYARGS NRET_NARGS NRET_NARGS false),
  RecFunc.mk (some "setrlimit") (libAction.mk NRET_YARGS YRET_NARGS NRET_NARGS NRET_NARGS false),
  RecFunc.mk (some "getcwd") (libAction.mk NRET_NYARGS YRET_YNARGS NRET_NARGS YRET_YNARGS false),
  RecFunc.mk (some "select") (libAction.mk NRET_YARGS YRET_YNARGS NRET_NARGS NRET_NARGS false),
  RecFunc.mk (some "_setjmp") (libAction.mk NRET_YARGS YRET_YARGS NRET_NARGS NRET_NARGS false),
  RecFunc.mk (some "longjmp") (libAction.mk NRET_YARGS NRET_YARGS NRET_NARGS NRET_NARGS false),
  RecFunc.mk (some "remove") (libAction.mk NRET_YARGS NRET_NARGS NRET_NARGS NRET_NARGS false),
  RecFunc.mk (some "rename") (libAction.mk NRET_YARGS NRET_NARGS NRET_NARGS NRET_NARGS false),
  RecFunc.mk (some "unlink") (libAction.mk NRET_YARGS NRET_NARGS NRET_NARGS NRET_NARGS false),
  RecFunc.mk (some "fileno") (libAction.mk NRET_YARGS NRET_NARGS NRET_NARGS NRET_NARGS false),
  RecFunc.mk (some "create") (libAction.mk NRET_YARGS NRET_NARGS NRET_NARGS NRET_NARGS false),
  RecFunc.mk (some "write") (libAction.mk NRET_YARGS NRET_NARGS NRET_NARGS NRET_NARGS false),
  RecFunc.mk (some "read") (libAction.mk NRET_YARGS YRET_YARGS NRET_NARGS NRET_NARGS false),
  RecFunc.mk (some "truncate") (libAction.mk NRET_YARGS NRET_NARGS NRET_NARGS NRET_NARGS false),
  RecFunc.mk (some "open") (libAction.mk NRET_YARGS NRET_NARGS NRET_NARGS NRET_NARGS false),
  RecFunc.mk (some "chdir") (libAction.mk NRET_YARGS NRET_NARGS NRET_NARGS NRET_NARGS false),
  RecFunc.mk (some "mkdir") (libAction.mk NRET_YARGS NRET_NARGS NRET_NARGS NRET_NARGS false),
  RecFunc.mk (some "rmdir") (libAction.mk NRET_YARGS NRET_NARGS NRET_NARGS NRET_NARGS false),
  RecFunc.mk (some "chmod") (libAction.mk NRET_YARGS YRET_NARGS NRET_NARGS NRET_NARGS false),
  RecFunc.mk (some "fchmod") (libAction.mk NRET_YARGS YRET_NARGS NRET_NARGS NRET_NARGS false),
  RecFunc.mk (some "kill") (libAction.mk NRET_YARGS NRET_NARGS NRET_NARGS NRET_NARGS false),
  RecFunc.mk (some "pipe") (libAction.mk NRET_YARGS NRET_NARGS NRET_NARGS NRET_NARGS false),
  RecFunc.mk (some "execl") (libAction.mk NRET_YARGS NRET_NARGS NRET_NARGS NRET_NARGS false),
  RecFunc.mk (some "execlp") (libAction.mk NRET_YARGS NRET_NARGS NRET_NARGS NRET_NARGS false),
  RecFunc.mk (some "execle") (libAction.mk NRET_YARGS NRET_NARGS NRET_NARGS NRET_NARGS false),
  RecFunc.mk (some "execv") (libAction.mk NRET_YARGS NRET_NARGS NRET_NARGS NRET_NARGS false),
  RecFunc.mk (some "execvp") (libAction.mk NRET_YARGS NRET_NARGS NRET_NARGS NRET_NARGS false),
  RecFunc.mk (some "time") (libAction.mk NRET_YARGS YRET_NARGS NRET_NARGS NRET_NARGS false),
  RecFunc.mk (some "times") (libAction.mk NRET_YARGS YRET_YARGS NRET_NARGS NRET_NARGS false),
  RecFunc.mk (some "ctime") (libAction.mk NRET_YARGS YRET_NARGS NRET_NARGS NRET_NARGS false),
  RecFunc.mk (some "asctime") (libAction.mk NRET_YARGS YRET_NARGS NRET_NARGS NRET_NARGS false),
  RecFunc.mk (some "utime") (libAction.mk NRET_YARGS YRET_NARGS NRET_NARGS NRET_NARGS false),
  RecFunc.mk (some "localtime") (libAction.mk NRET_YARGS YRET_NARGS NRET_NARGS NRET_NARGS false),
  RecFunc.mk (some "gmtime") (libAction.mk NRET_YARGS YRET_NARGS NRET_NARGS NRET_NARGS false),
  RecFunc.mk (some "ftime") (libAction.mk NRET_YARGS NRET_YARGS NRET_NARGS NRET_NARGS false),
  RecFunc.mk (some "printf") (libAction.mk NRET_YARGS NRET_NARGS NRET_NARGS NRET_NARGS false),
  RecFunc.mk (some "fprintf") (libAction.mk NRET_YARGS NRET_YNARGS NRET_NARGS NRET_NARGS false),
  RecFunc.mk (some "fprintf") (libAction.mk NRET_YARGS NRET_YNARGS NRET_NARGS NRET_NARGS false),
  RecFunc.mk (some "sprintf") (libAction.mk NRET_YARGS NRET_YNARGS NRET_NARGS NRET_NARGS false),
  RecFunc.mk (some "snprintf") (libAction.mk NRET_YARGS NRET_YNARGS NRET_NARGS NRET_NARGS false),
  RecFunc.mk (some "vsnprintf") (libAction.mk NRET_YARGS YRET_YNARGS NRET_NARGS NRET_NARGS false),
  RecFunc.mk (some "sscanf") (libAction.mk NRET_YARGS YRET_NYARGS NRET_NARGS NRET_NARGS false),
  RecFunc.mk (some "scanf") (libAction.mk NRET_YARGS YRET_NYARGS NRET_NARGS NRET_NARGS false),
  RecFunc.mk (some "fscanf") (libAction.mk NRET_YARGS YRET_NYARGS NRET_NARGS NRET_NARGS false),
  RecFunc.mk (some "calloc") (libAction.mk NRET_NARGS YRET_NARGS YRET_NARGS NRET_NARGS false),
  RecFunc.mk (some "malloc") (libAction.mk NRET_NARGS YRET_NARGS YRET_NARGS NRET_NARGS false),
  RecFunc.mk (some "valloc") (libAction.mk NRET_NARGS YRET_NARGS YRET_NARGS NRET_NARGS false),
  RecFunc.mk (some "realloc") (libAction.mk NRET_NARGS YRET_NARGS YRET_YNARGS YRET_YNARGS false),
  RecFunc.mk (some "free") (libAction.mk NRET_NARGS NRET_NARGS NRET_YNARGS NRET_NARGS false),
  RecFunc.mk (some "strdup") (libAction.mk NRET_YARGS YRET_NARGS YRET_NARGS YRET_YARGS false),
  RecFunc.mk (some "__strdup") (libAction.mk NRET_YARGS YRET_NARGS YRET_NARGS YRET_YARGS false),
  RecFunc.mk (some "wcsdup") (libAction.mk NRET_YARGS YRET_NARGS YRET_NARGS YRET_YARGS false),
  RecFunc.mk (some "strlen") (libAction.mk NRET_YARGS NRET_NARGS NRET_NARGS NRET_NARGS false),
  RecFunc.mk (some "wcslen") (libAction.mk NRET_YARGS NRET_NARGS NRET_NARGS NRET_NARGS false),
  RecFunc.mk (some "atoi") (libAction.mk NRET_YARGS NRET_NARGS NRET_NARGS NRET_NARGS false),
  RecFunc.mk (some "atof") (libAction.mk NRET_YARGS NRET_NARGS NRET_NARGS NRET_NARGS false),
  RecFunc.mk (some "atol") (libAction.mk NRET_YARGS NRET_NARGS NRET_NARGS NRET_NARGS false),
  RecFunc.mk (some "atoll") (libAction.mk NRET_YARGS NRET_NARGS NRET_NARGS NRET_NARGS false),
  RecFunc.mk (some "atoq") (libAction.mk NRET_YARGS NRET_NARGS NRET_NARGS NRET_NARGS false),
  RecFunc.mk (some "memcmp") (libAction.mk NRET_YARGS NRET_NARGS NRET_NARGS NRET_NARGS false),
  RecFunc.mk (some "strcmp") (libAction.mk NRET_YARGS NRET_NARGS NRET_NARGS NRET_NARGS false),
  RecFunc.mk (some "wcscmp") (libAction.mk NRET_YARGS NRET_NARGS NRET_NARGS NRET_NARGS false),
  RecFunc.mk (some "strncmp") (libAction.mk NRET_YARGS NRET_NARGS NRET_NARGS NRET_NARGS false),
  RecFunc.mk (some "wcsncmp") (libAction.mk NRET_YARGS NRET_NARGS NRET_NARGS NRET_NARGS false),
  RecFunc.mk (some "strcasecmp") (libAction.mk NRET_YARGS NRET_NARGS NRET_NARGS NRET_NARGS false),
  RecFunc.mk (some "wcscasecmp") (libAction.mk NRET_YARGS NRET_NARGS NRET_NARGS NRET_NARGS false),
  RecFunc.mk (some "strncasecmp") (libAction.mk NRET_YARGS NRET_NARGS NRET_NARGS NRET_NARGS false),
  RecFunc.mk (some "wcsncasecmp") (libAction.mk NRET_YARGS NRET_NARGS NRET_NARGS NRET_NARGS false),
  RecFunc.mk (some "strcat") (libAction.mk NRET_YARGS YRET_YARGS NRET_NARGS YRET_YARGS true),
  RecFunc.mk (some "strncat") (libAction.mk NRET_YARGS YRET_YARGS NRET_NARGS YRET_YARGS true),
  RecFunc.mk (some "strcpy") (libAction.mk NRET_YARGS YRET_YARGS NRET_NARGS YRET_YARGS true),
  RecFunc.mk (some "stpcpy") (libAction.mk NRET_YARGS YRET_YARGS NRET_NARGS YRET_YARGS true),
  RecFunc.mk (some "wcscpy") (libAction.mk NRET_YARGS YRET_YARGS NRET_NARGS YRET_YARGS true),
  RecFunc.mk (some "strncpy") (libAction.mk NRET_YARGS YRET_YARGS NRET_NARGS YRET_YARGS true),
  RecFunc.mk (some "wcsncpy") (libAction.mk NRET_YARGS YRET_YARGS NRET_NARGS YRET_YARGS true),
  RecFunc.mk (some "memcpy") (libAction.mk NRET_YARGS YRET_YARGS NRET_NARGS YRET_YARGS true),
  RecFunc.mk (some "memccpy") (libAction.mk NRET_YARGS YRET_YARGS NRET_NARGS YRET_YARGS true),
  RecFunc.mk (some "wmemccpy") (libAction.mk NRET_YARGS YRET_YARGS NRET_NARGS YRET_YARGS true),
  RecFunc.mk (some "memmove") (libAction.mk NRET_YARGS YRET_YARGS NRET_NARGS YRET_YARGS true),
  RecFunc.mk (some "bcopy") (libAction.mk NRET_YARGS NRET_YARGS NRET_NARGS NRET_YARGS true),
  RecFunc.mk (some "bcmp") (libAction.mk NRET_YARGS NRET_NARGS NRET_NARGS NRET_NARGS true),
  RecFunc.mk (some "strerror") (libAction.mk NRET_YARGS YRET_NARGS NRET_NARGS NRET_NARGS true),
  RecFunc.mk (some "clearerr") (libAction.mk NRET_YARGS NRET_YARGS NRET_NARGS NRET_NARGS false),
  RecFunc.mk (some "strstr") (libAction.mk NRET_YARGS YRET_NARGS NRET_NARGS YRET_YNARGS true),
  RecFunc.mk (some "wcsstr") (libAction.mk NRET_YARGS YRET_NARGS NRET_NARGS YRET_YNARGS true),
  RecFunc.mk (some "strspn") (libAction.mk NRET_YARGS YRET_NARGS NRET_NARGS NRET_NARGS true),
  RecFunc.mk (some "wcsspn") (libAction.mk NRET_YARGS YRET_NARGS NRET_NARGS NRET_NARGS true),
  RecFunc.mk (some "strcspn") (libAction.mk NRET_YARGS YRET_NARGS NRET_NARGS NRET_NARGS true),
  RecFunc.mk (some "wcscspn") (libAction.mk NRET_YARGS YRET_NARGS NRET_NARGS NRET_NARGS true),
  RecFunc.mk (some "strtok") (libAction.mk NRET_YARGS YRET_YARGS NRET_NARGS YRET_YNARGS true),
  RecFunc.mk (some "strpbrk") (libAction.mk NRET_YARGS YRET_NARGS NRET_NARGS YRET_YNARGS true),
  RecFunc.mk (some "wcspbrk") (libAction.mk NRET_YARGS YRET_NARGS NRET_NARGS YRET_YNARGS true),
  RecFunc.mk (some "strchr") (libAction.mk NRET_YARGS YRET_NARGS NRET_NARGS YRET_YNARGS true),
  RecFunc.mk (some "wcschr") (libAction.mk NRET_YARGS YRET_NARGS NRET_NARGS YRET_YNARGS true),
  RecFunc.mk (some "strrchr") (libAction.mk NRET_YARGS YRET_NARGS NRET_NARGS YRET_YNARGS true),
  RecFunc.mk (some "wcsrchr") (libAction.mk NRET_YARGS YRET_NARGS NRET_NARGS YRET_YNARGS true),
  RecFunc.mk (some "strchrnul") (libAction.mk NRET_YARGS YRET_NARGS NRET_NARGS YRET_YNARGS true),
  RecFunc.mk (some "wcschrnul") (libAction.mk NRET_YARGS YRET_NARGS NRET_NARGS YRET_YNARGS true),
  RecFunc.mk (some "memchr") (libAction.mk NRET_YARGS YRET_NARGS NRET_NARGS YRET_YNARGS true),
  RecFunc.mk (some "wmemchr") (libAction.mk NRET_YARGS YRET_NARGS NRET_NARGS YRET_YNARGS true),
  RecFunc.mk (some "memrchr") (libAction.mk NRET_YARGS YRET_NARGS NRET_NARGS YRET_YNARGS true),
  RecFunc.mk (some "memalign") (libAction.mk NRET_NARGS YRET_NARGS YRET_NARGS NRET_NARGS false),
  RecFunc.mk (some "perror") (libAction.mk NRET_YARGS NRET_NARGS NRET_NARGS NRET_NARGS false),
  RecFunc.mk (some "feof") (libAction.mk NRET_YARGS NRET_NARGS NRET_NARGS NRET_NARGS false),
  RecFunc.mk (some "fflush") (libAction.mk NRET_YARGS NRET_YARGS NRET_NARGS NRET_NARGS false),
  RecFunc.mk (some "fpurge") (libAction.mk NRET_YARGS NRET_YARGS NRET_NARGS NRET_NARGS false),
  RecFunc.mk (some "fclose") (libAction.mk NRET_YARGS NRET_YARGS NRET_NARGS NRET_NARGS false),
  RecFunc.mk (some "fopen") (libAction.mk NRET_YARGS YRET_NARGS YRET_NARGS NRET_NARGS false),
  RecFunc.mk (some "ftell") (libAction.mk NRET_YARGS NRET_NARGS NRET_NARGS NRET_NARGS false),
  RecFunc.mk (some "fseek") (libAction.mk NRET_YARGS NRET_YARGS NRET_NARGS NRET_NARGS true),
  RecFunc.mk (some "rewind") (libAction.mk NRET_YARGS NRET_YARGS NRET_NARGS NRET_NARGS true),
  RecFunc.mk (some "ferror") (libAction.mk NRET_YARGS NRET_NARGS NRET_NARGS NRET_NARGS false),
  RecFunc.mk (some "fwrite") (libAction.mk NRET_YARGS NRET_NYARGS NRET_NARGS NRET_NARGS false),
  RecFunc.mk (some "fread") (libAction.mk NRET_NYARGS NRET_YARGS NRET_NARGS NRET_NARGS false),
  RecFunc.mk (some "fdopen") (libAction.mk NRET_YARGS YRET_NARGS NRET_NARGS NRET_NARGS false),
  RecFunc.mk (some "__errno_location") (libAction.mk NRET_NARGS YRET_NARGS NRET_NARGS NRET_NARGS false),
  RecFunc.mk (some "puts") (libAction.mk NRET_YARGS NRET_NARGS NRET_NARGS NRET_NARGS false),
  RecFunc.mk (some "gets") (libAction.mk NRET_NARGS YRET_YARGS NRET_NARGS YRET_YNARGS false),
  RecFunc.mk (some "fgets") (libAction.mk NRET_NYARGS YRET_YNARGS NRET_NARGS YRET_YNARGS false),
  RecFunc.mk (some "getc") (libAction.mk NRET_YNARGS YRET_YNARGS NRET_NARGS NRET_NARGS false),
  RecFunc.mk (some "ungetc") (libAction.mk NRET_YNARGS YRET_YARGS NRET_NARGS NRET_NARGS false),
  RecFunc.mk (some "_IO_getc") (libAction.mk NRET_YNARGS YRET_YNARGS NRET_NARGS NRET_NARGS false),
  RecFunc.mk (some "fgetc") (libAction.mk NRET_YNARGS YRET_YNARGS NRET_NARGS NRET_NARGS false),
  RecFunc.mk (some "putc") (libAction.mk NRET_NARGS NRET_NARGS NRET_NARGS NRET_NARGS false),
  RecFunc.mk (some "_IO_putc") (libAction.mk NRET_NARGS NRET_NARGS NRET_NARGS NRET_NARGS false),
  RecFunc.mk (some "putchar") (libAction.mk NRET_NARGS NRET_NARGS NRET_NARGS NRET_NARGS false),
  RecFunc.mk (some "fputs") (libAction.mk NRET_YARGS NRET_NYARGS NRET_NARGS NRET_NARGS false),
  RecFunc.mk (some "fputc") (libAction.mk NRET_YARGS NRET_NYARGS NRET_NARGS NRET_NARGS false),
  RecFunc.mk (some "sc.lscheck") (libAction.mk NRET_NARGS NRET_NARGS NRET_NARGS NRET_NARGS false),
  RecFunc.mk (some "sc.lscheckui") (libAction.mk NRET_NARGS NRET_NARGS NRET_NARGS NRET_NARGS false),
  RecFunc.mk (some "sc.lscheckalign") (libAction.mk NRET_NARGS NRET_NARGS NRET_NARGS NRET_NARGS false),
  RecFunc.mk (some "sc.lscheckalignui") (libAction.mk NRET_NARGS NRET_NARGS NRET_NARGS NRET_NARGS false),
  RecFunc.mk (some "sc.pool_register_stack") (libAction.mk NRET_NARGS NRET_NARGS NRET_NARGS NRET_NARGS false),
  RecFunc.mk (some "sc.pool_unregister_stack") (libAction.mk NRET_NARGS NRET_NARGS NRET_NARGS NRET_NARGS false),
  RecFunc.mk (some "sc.pool_register_global") (libAction.mk NRET_NARGS NRET_NARGS NRET_NARGS NRET_NARGS false),
  RecFunc.mk (some "sc.pool_unregister_global") (libAction.mk NRET_NARGS NRET_NARGS NRET_NARGS NRET_NARGS false),
  RecFunc.mk (some "sc.pool_register") (libAction.mk NRET_NARGS NRET_NARGS NRET_NARGS NRET_NARGS false),
  RecFunc.mk (some "sc.pool_unregister") (libAction.mk NRET_NARGS NRET_NARGS NRET_NARGS NRET_NARGS false),
  RecFunc.mk (some "sc.pool_argvregister") (libAction.mk NRET_NARGS NRET_NARGS NRET_NARGS NRET_NARGS false),
  RecFunc.mk (some "pool_strncpy") (libAction.mk NRET_NNYARGS YRET_NNYARGS NRET_NARGS YRET_NNYARGS true),
  RecFunc.mk (some "pool_strcpy") (libAction.mk NRET_NNYARGS YRET_NNYARGS NRET_NARGS YRET_NNYARGS true),
  RecFunc.mk (some "pool_stpcpy") (libAction.mk NRET_NNYARGS YRET_NNYARGS NRET_NARGS YRET_NNYARGS true),
  RecFunc.mk (some "pool_strchr") (libAction.mk NRET_NYARGS YRET_NARGS NRET_NARGS YRET_NYARGS true),
  RecFunc.mk (some "pool_index") (libAction.mk NRET_NYARGS YRET_NARGS NRET_NARGS YRET_NYARGS true),
  RecFunc.mk (some "pool_strrchr") (libAction.mk NRET_NYARGS YRET_NARGS NRET_NARGS YRET_NYARGS true),
  RecFunc.mk (some "pool_rindex") (libAction.mk NRET_NYARGS YRET_NARGS NRET_NARGS YRET_NYARGS true),
  RecFunc.mk (some "pool_strcat") (libAction.mk NRET_NNYARGS YRET_NNYARGS NRET_NARGS YRET_NNYARGS true),
  RecFunc.mk (some "pool_strncat") (libAction.mk NRET_NNYARGS YRET_NNYARGS NRET_NARGS YRET_NNYARGS true),
  RecFunc.mk (some "pool_strstr") (libAction.mk NRET_NNYARGS YRET_NARGS NRET_NARGS YRET_NNYNARGS true),
  RecFunc.mk (some "pool_strcasestr") (libAction.mk NRET_NNYARGS YRET_NARGS NRET_NARGS YRET_NNYNARGS true),
  RecFunc.mk (some "pool_strpbrk") (libAction.mk NRET_NNYARGS YRET_NARGS NRET_NARGS YRET_NNYNARGS true),
  RecFunc.mk (some "pool_strspn") (libAction.mk NRET_NYARGS YRET_NARGS NRET_NARGS NRET_NARGS true),
  RecFunc.mk (some "pool_strcspn") (libAction.mk NRET_NYARGS YRET_NARGS NRET_NARGS NRET_NARGS true),
  RecFunc.mk (some "pool_memccpy") (libAction.mk NRET_NNYARGS YRET_NNYARGS NRET_NARGS YRET_NNYARGS true),
  RecFunc.mk (some "pool_memchr") (libAction.mk NRET_NYARGS YRET_NARGS NRET_NARGS YRET_NYARGS true),
  RecFunc.mk (some "pool_strcmp") (libAction.mk NRET_NNYARGS NRET_NARGS NRET_NARGS NRET_NARGS false),
  RecFunc.mk (some "pool_strncmp") (libAction.mk NRET_NNYARGS NRET_NARGS NRET_NARGS NRET_NARGS false),
  RecFunc.mk (some "pool_strlen") (libAction.mk NRET_NYARGS NRET_NARGS NRET_NARGS NRET_NARGS false),
  RecFunc.mk (some "pool_strnlen") (libAction.mk NRET_NYARGS NRET_NARGS NRET_NARGS NRET_NARGS false),
  RecFunc.mk (some "pool_memcmp") (libAction.mk NRET_NNYARGS NRET_NARGS NRET_NARGS NRET_NARGS false),
  RecFunc.mk (some "pool_strcasecmp") (libAction.mk NRET_NNYARGS NRET_NARGS NRET_NARGS NRET_NARGS false),
  RecFunc.mk (some "pool_strncasecmp") (libAction.mk NRET_NNYARGS NRET_NARGS NRET_NARGS NRET_NARGS false),
  RecFunc.mk (some "pool_bcopy") (libAction.mk NRET_NNYARGS NRET_NNNYARGS NRET_NARGS NRET_NNYARGS true),
  RecFunc.mk (some "pool_bcmp") (libAction.mk NRET_NNYARGS NRET_NARGS NRET_NARGS NRET_NARGS true),
  RecFunc.mk (some "_Znwm") (libAction.mk NRET_NARGS YRET_NARGS YRET_NARGS NRET_NARGS false),
  RecFunc.mk (some "_Znam") (libAction.mk NRET_NARGS YRET_NARGS YRET_NARGS NRET_NARGS false),
  RecFunc.mk (some "_Znwj") (libAction.mk NRET_NARGS YRET_NARGS YRET_NARGS NRET_NARGS false),
  RecFunc.mk (some "_Znaj") (libAction.mk NRET_NARGS YRET_NARGS YRET_NARGS NRET_NARGS false),
  RecFunc.mk (some "_ZdlPv") (libAction.mk NRET_NARGS NRET_NARGS NRET_YNARGS NRET_NARGS false),
  RecFunc.mk (some "_ZdaPv") (libAction.mk NRET_NARGS NRET_NARGS NRET_YNARGS NRET_NARGS false),
  RecFunc.mk (some "_ZNSo5flushEv") (libAction.mk NRET_NARGS NRET_NARGS NRET_NARGS NRET_NARGS false),
  RecFunc.mk (some "_ZNSolsEd") (libAction.mk NRET_YARGS NRET_YNARGS NRET_NARGS NRET_NARGS false),
  RecFunc.mk (some "_ZNSolsEPFRSoS_E") (libAction.mk NRET_YARGS NRET_YNARGS NRET_NARGS NRET_NARGS false),
  RecFunc.mk (some "_ZSt4endlIcSt11char_traitsIcEERSt13basic_ostreamIT_T0_ES6_") (libAction.mk NRET_NARGS NRET_NARGS NRET_NARGS NRET_NARGS false),
  RecFunc.mk (none) (libAction.mk NRET_NARGS NRET_NARGS NRET_NARGS NRET_NARGS false)
]

/-- Values read past the end of a `bool [numOps]` array.  An index `y` with
`numOps ≤ y` is outside the array, and the program does not determine what
such a read yields; the value is supplied here, one function per array. -/
structure OutOfRange where
  read : Nat → Bool
  write : Nat → Bool
  heap : Nat → Bool
  mergeNodes : Nat → Bool

/-- The expression `arr[y]` for one of the arrays of a `libAction`. -/
def slot (arr : List Bool) (beyond : Nat → Bool) (y : Nat) : Bool :=
  if y < numOps then arr.getD y false else beyond y

/-- The expression `recFuncs[x].action`. -/
def action (x : Nat) : libAction :=
  (recFuncs.getD x (RecFunc.mk none (libAction.mk NRET_NARGS NRET_NARGS NRET_NARGS NRET_NARGS false))).action

/-! ## The IR as the pass sees it -/

/-- IR values are identified by numbers. -/
abbrev Value := Nat

/-- An operand of an instruction: the value and whether its type is a
pointer type. -/
structure Operand where
  val : Value
  isPointerTy : Bool
deriving DecidableEq

/-- A `CallInst` or `InvokeInst`: the instruction as a value, whether its
type is a pointer type, the function that contains it, and its operands
(operand 0 is the callee). -/
structure Instruction where
  self : Value
  isPointerTy : Bool
  parent : Nat
  operands : List Operand
deriving DecidableEq

/-- A user of a constant expression, as told apart by `dyn_cast<CallInst>`. -/
inductive CEUser where
  | callInst (ci : Instruction)
  | other
deriving DecidableEq

/-- A user of a function, as told apart by the `dyn_cast` chain. -/
inductive User where
  | callInst (ci : Instruction)
  | invokeInst (ci : Instruction)
  | constantExpr (ce : Value) (isCast : Bool) (uses : List CEUser)
  | other
deriving DecidableEq

/-- A function of the module with its use list, and what `runOnModule`
asks of it: whether it is `readnone`, whether it is varargs, whether its
return type is a pointer type, and for each formal argument whether its type
is a pointer type. -/
structure Function where
  self : Value
  name : String
  isDeclaration : Bool
  uses : List User
  doesNotAccessMemory : Bool := false
  isVarArg : Bool := false
  returnIsPointerTy : Bool := false
  argIsPointerTy : List Bool := []

/-- The test `CI->getOperand(0) == V`. -/
def Instruction.operand0Is (ci : Instruction) (v : Value) : Bool :=
  match ci.operands with
  | [] => false
  | op :: _ => decide (op.val = v)

/-! ## Data-structure graphs -/

/-- The attributes of a node that the pass sets. -/
structure DSNode where
  read : Bool
  modified : Bool
  heap : Bool
  folded : Bool
deriving DecidableEq

/-- A call site recorded in a graph: the call instruction and, for a direct
call, the callee. -/
structure DSCallSite where
  site : Value
  callee : Option Value
deriving DecidableEq

/-- A node handle; `none` is the null handle. -/
abbrev DSNodeHandle := Option Nat

/-- Modelled from the spec: the class DSGraph, which is not among the
sources.  An arena of node records addressed by stable handles, an index
`forward` from a handle to its current representative, the scalar map from
values to handles, and the list of call sites. -/
structure DSGraph where
  ScalarMap : Value → DSNodeHandle
  forward : Nat → Nat
  nodes : Nat → DSNode
  FunctionCalls : List DSCallSite

/-- Modelled from the spec: DSGraph::hasNodeForValue, the query
`hasNode(value) -> bool`. -/
def DSGraph.hasNodeForValue (g : DSGraph) (v : Value) : Bool :=
  (g.ScalarMap v).isSome

/-- Modelled from the spec: DSGraph::getNodeForValue, the query
`nodeFor(value) -> Node`, here only used on values that have a node. -/
def DSGraph.getNodeForValue (g : DSGraph) (v : Value) : DSNodeHandle :=
  g.ScalarMap v

/-- Overwrite one node record. -/
def DSGraph.setNode (g : DSGraph) (n : Nat) (d : DSNode) : DSGraph :=
  { g with nodes := fun m => if m = n then d else g.nodes m }

/-- Modelled from the spec: DSNode::setReadMarker through
DSNodeHandle::getNode, a flag setter on the current representative. -/
def DSGraph.setReadMarker (g : DSGraph) (h : DSNodeHandle) : DSGraph :=
  match h with
  | none => g
  | some a => g.setNode (g.forward a) { g.nodes (g.forward a) with read := true }

/-- Modelled from the spec: DSNode::setModifiedMarker through
DSNodeHandle::getNode. -/
def DSGraph.setModifiedMarker (g : DSGraph) (h : DSNodeHandle) : DSGraph :=
  match h with
  | none => g
  | some a => g.setNode (g.forward a) { g.nodes (g.forward a) with modified := true }

/-- Modelled from the spec: DSNode::setHeapMarker through
DSNodeHandle::getNode. -/
def DSGraph.setHeapMarker (g : DSGraph) (h : DSNodeHandle) : DSGraph :=
  match h with
  | none => g
  | some a => g.setNode (g.forward a) { g.nodes (g.forward a) with heap := true }

/-- Modelled from the spec: DSNode::foldNodeCompletely, `fold(node)`,
which marks the representative collapsed. -/
def DSGraph.foldNodeCompletely (g : DSGraph) (h : DSNodeHandle) : DSGraph :=
  match h with
  | none => g
  | some a => g.setNode (g.forward a) { g.nodes (g.forward a) with folded := true }

/-- The flag-wise OR of two node records. -/
def DSNode.or (a b : DSNode) : DSNode :=
  { read := a.read || b.read, modified := a.modified || b.modified,
    heap := a.heap || b.heap, folded := a.folded || b.folded }

/-- Modelled from the spec: DSNodeHandle::mergeWith, `merge(a, b)`: union
by flag-OR of all boolean attributes.  Every handle of the second class is
redirected to the representative of the first; merging a class with itself
changes nothing; a null handle merges nothing in the graph. -/
def DSGraph.mergeWith (g : DSGraph) (a b : DSNodeHandle) : DSGraph :=
  match a, b with
  | some a, some b =>
    if g.forward a = g.forward b then g
    else
      { g with
        forward := fun n => if g.forward n = g.forward b then g.forward a else g.forward n
        nodes := fun m =>
          if m = g.forward a then (g.nodes (g.forward a)).or (g.nodes (g.forward b))
          else g.nodes m }
  | _, _ => g

/-- Modelled from the spec: DSGraph::removeFunctionCalls, which detaches
the call sites that call the function directly. -/
def DSGraph.removeFunctionCalls (g : DSGraph) (f : Value) : DSGraph :=
  { g with FunctionCalls := g.FunctionCalls.filter (fun cs => !decide (cs.callee = some f)) }

/-- The mutable state of the pass: the graph of every function
(`getDSGraph`) and the statistic `NumNodesFoldedInStdLib`. -/
structure PassState where
  DSInfo : Nat → DSGraph
  NumNodesFoldedInStdLib : Nat

/-- The graph of a function. -/
def PassState.getDSGraph (s : PassState) (p : Nat) : DSGraph := s.DSInfo p

/-- Store a graph back after it was mutated in place. -/
def PassState.setDSGraph (s : PassState) (p : Nat) (g : DSGraph) : PassState :=
  { s with DSInfo := fun q => if q = p then g else s.DSInfo q }

/-! ## `processFunction` -/

/-- The three guarded marker statements for the operand `v` at slot `y`
(lines 565-570 and 581-586). -/
def markSlot (oob : OutOfRange) (A : libAction) (y : Nat) (v : Value) (g : DSGraph) : DSGraph :=
  let g1 := if slot A.read oob.read y then g.setReadMarker (g.getNodeForValue v) else g
  let g2 := if slot A.write oob.write y then g1.setModifiedMarker (g1.getNodeForValue v) else g1
  if slot A.heap oob.heap y then g2.setHeapMarker (g2.getNodeForValue v) else g2

/-- Markers on the return value (lines 563-572). -/
def markResult (oob : OutOfRange) (A : libAction) (ci : Instruction) (g : DSGraph) : DSGraph :=
  if ci.isPointerTy then
    if g.hasNodeForValue ci.self then markSlot oob A 0 ci.self g else g
  else g

/-- The loop `for (y = 1; y < CI->getNumOperands(); ++y)` that sets the
markers on the actual arguments (lines 578-588); `y` is the index of the
first operand of the list. -/
def markArguments (oob : OutOfRange) (A : libAction) : Nat → List Operand → DSGraph → DSGraph
  | _, [], g => g
  | y, op :: ops, g =>
    markArguments oob A (y + 1) ops
      (if op.isPointerTy then
        if g.hasNodeForValue op.val then markSlot oob A y op.val g else g
      else g)

/-- The loop of the cast-wrapped branch that sets the markers on the actual
arguments (lines 727-737): under `read[y]` alone, all three markers. -/
def markArgumentsCast (oob : OutOfRange) (A : libAction) : Nat → List Operand → DSGraph → DSGraph
  | _, [], g => g
  | y, op :: ops, g =>
    markArgumentsCast oob A (y + 1) ops
      (if slot A.read oob.read y then
        if op.isPointerTy then
          let g1 := if g.hasNodeForValue op.val then g.setReadMarker (g.getNodeForValue op.val) else g
          let g2 := if g1.hasNodeForValue op.val then g1.setModifiedMarker (g1.getNodeForValue op.val) else g1
          if g2.hasNodeForValue op.val then g2.setHeapMarker (g2.getNodeForValue op.val) else g2
        else g
      else g)

/-- The handle pushed for the return value (lines 595-598). -/
def toMergeResult (oob : OutOfRange) (A : libAction) (ci : Instruction) (g : DSGraph) :
    List DSNodeHandle :=
  if slot A.mergeNodes oob.mergeNodes 0 then
    if ci.isPointerTy then
      if g.hasNodeForValue ci.self then [g.getNodeForValue ci.self] else []
    else []
  else []

/-- The handles pushed for the actual arguments (lines 599-603). -/
def toMergeArguments (oob : OutOfRange) (A : libAction) (g : DSGraph) :
    Nat → List Operand → List DSNodeHandle
  | _, [] => []
  | y, op :: ops =>
    (if slot A.mergeNodes oob.mergeNodes y then
      if op.isPointerTy then
        if g.hasNodeForValue op.val then [g.getNodeForValue op.val] else []
      else []
    else []) ++ toMergeArguments oob A g (y + 1) ops

/-- The loop `for (y = 1; y < toMerge.size(); ++y) toMerge[0].mergeWith(toMerge[y])`
(lines 604-605). -/
def mergeAll (toMerge : List DSNodeHandle) (g : DSGraph) : DSGraph :=
  match toMerge with
  | [] => g
  | h0 :: rest => rest.foldl (fun g hy => g.mergeWith h0 hy) g

/-- The merge step (lines 594-605). -/
def mergeStep (oob : OutOfRange) (A : libAction) (ci : Instruction) (g : DSGraph) : DSGraph :=
  mergeAll (toMergeResult oob A ci g ++ toMergeArguments oob A g 1 ci.operands.tail) g

/-- The loop that folds the actual arguments and counts (lines 617-624). -/
def foldArguments : List Operand → DSGraph × Nat → DSGraph × Nat
  | [], gn => gn
  | op :: ops, gn =>
    foldArguments ops
      (if op.isPointerTy then
        if gn.1.hasNodeForValue op.val then
          (gn.1.foldNodeCompletely (gn.1.getNodeForValue op.val), gn.2 + 1)
        else gn
      else gn)

/-- The collapse step (lines 611-625), on the graph and the statistic. -/
def collapseStep (noStdLibFold : Bool) (A : libAction) (ci : Instruction)
    (gn : DSGraph × Nat) : DSGraph × Nat :=
  if !noStdLibFold && A.collapse then
    foldArguments ci.operands.tail
      (if ci.isPointerTy then
        ((if gn.1.hasNodeForValue ci.self then
            gn.1.foldNodeCompletely (gn.1.getNodeForValue ci.self)
          else gn.1), gn.2 + 1)
      else gn)
  else gn

/-- The body of the `CallInst` branch (lines 557-625) on the graph of the
calling function and the statistic. -/
def callBody (oob : OutOfRange) (noStdLibFold : Bool) (A : libAction) (ci : Instruction)
    (gn : DSGraph × Nat) : DSGraph × Nat :=
  let g1 := markResult oob A ci gn.1
  let g2 := markArguments oob A 1 ci.operands.tail g1
  let g3 := mergeStep oob A ci g2
  collapseStep noStdLibFold A ci (g3, gn.2)

/-- The body of the `InvokeInst` branch (lines 629-697). -/
def invokeBody (oob : OutOfRange) (noStdLibFold : Bool) (A : libAction) (ci : Instruction)
    (gn : DSGraph × Nat) : DSGraph × Nat :=
  let g1 := markResult oob A ci gn.1
  let g2 := markArguments oob A 1 ci.operands.tail g1
  let g3 := mergeStep oob A ci g2
  collapseStep noStdLibFold A ci (g3, gn.2)

/-- The body of the cast-wrapped branch (lines 706-774). -/
def castCallBody (oob : OutOfRange) (noStdLibFold : Bool) (A : libAction) (ci : Instruction)
    (gn : DSGraph × Nat) : DSGraph × Nat :=
  let g1 := markResult oob A ci gn.1
  let g2 := markArgumentsCast oob A 1 ci.operands.tail g1
  let g3 := mergeStep oob A ci g2
  collapseStep noStdLibFold A ci (g3, gn.2)

/-- Run a branch body on the graph of the function that contains the
instruction. -/
def PassState.onGraphOf (s : PassState) (ci : Instruction)
    (body : DSGraph × Nat → DSGraph × Nat) : PassState :=
  let r := body (s.getDSGraph ci.parent, s.NumNodesFoldedInStdLib)
  { DSInfo := fun q => if q = ci.parent then r.1 else s.DSInfo q
    NumNodesFoldedInStdLib := r.2 }

/-- One user of a cast constant expression (lines 704-775). -/
def processCEUser (oob : OutOfRange) (noStdLibFold : Bool) (A : libAction) (ce : Value)
    (s : PassState) (u : CEUser) : PassState :=
  match u with
  | .callInst ci =>
    if ci.operand0Is ce then s.onGraphOf ci (castCallBody oob noStdLibFold A ci) else s
  | .other => s

/-- One iteration of the loop over the use list of `F` (lines 553-778). -/
def processUser (oob : OutOfRange) (noStdLibFold : Bool) (A : libAction) (F : Function)
    (s : PassState) (u : User) : PassState :=
  match u with
  | .callInst ci =>
    if ci.operand0Is F.self then s.onGraphOf ci (callBody oob noStdLibFold A ci) else s
  | .invokeInst ci =>
    if ci.operand0Is F.self then s.onGraphOf ci (invokeBody oob noStdLibFold A ci) else s
  | .constantExpr ce isCast uses =>
    if isCast then uses.foldl (processCEUser oob noStdLibFold A ce) s else s
  | .other => s

/-- The statement `Graph->removeFunctionCalls(*F)` on the graph of the
function that contains the instruction. -/
def PassState.removeCallsIn (s : PassState) (ci : Instruction) (f : Value) : PassState :=
  s.setDSGraph ci.parent ((s.getDSGraph ci.parent).removeFunctionCalls f)

/-- One user of a cast constant expression in `eraseCallsTo` (lines 374-382). -/
def eraseCEUser (F : Function) (ce : Value) (s : PassState) (u : CEUser) : PassState :=
  match u with
  | .callInst ci => if ci.operand0Is ce then s.removeCallsIn ci F.self else s
  | .other => s

/-- One iteration of the loop of `eraseCallsTo` (lines 354-385). -/
def eraseUser (F : Function) (s : PassState) (u : User) : PassState :=
  match u with
  | .callInst ci => if ci.operand0Is F.self then s.removeCallsIn ci F.self else s
  | .invokeInst ci => if ci.operand0Is F.self then s.removeCallsIn ci F.self else s
  | .constantExpr ce isCast uses =>
    if isCast then uses.foldl (eraseCEUser F ce) s else s
  | .other => s

/-- The method `eraseCallsTo` (lines 350-386). -/
def eraseCallsTo (F : Function) (s : PassState) : PassState :=
  F.uses.foldl (eraseUser F) s

/-- The method `processFunction` (lines 552-784); `oob` supplies what reads
past the end of the table arrays yield and `noStdLibFold` is the command
line switch of that name. -/
def processFunction (oob : OutOfRange) (noStdLibFold : Bool) (x : Nat) (F : Function)
    (s : PassState) : PassState :=
  eraseCallsTo F (F.uses.foldl (processUser oob noStdLibFold (action x) F) s)

/-! ## Vocabulary for the statements -/

/-- The attributes that the pass sets on a node. -/
inductive Marker where
  | read
  | modified
  | heap
  | folded
deriving DecidableEq

/-- Whether a node record carries an attribute. -/
def DSNode.has (d : DSNode) : Marker → Bool
  | .read => d.read
  | .modified => d.modified
  | .heap => d.heap
  | .folded => d.folded

/-- A node record with one more attribute. -/
def DSNode.set (d : DSNode) : Marker → DSNode
  | .read => { d with read := true }
  | .modified => { d with modified := true }
  | .heap => { d with heap := true }
  | .folded => { d with folded := true }

/-- Whether the node that handle `a` currently denotes carries `m`. -/
def DSGraph.carries (g : DSGraph) (a : Nat) (m : Marker) : Bool :=
  (g.nodes (g.forward a)).has m

/-- Two handles denote one and the same node. -/
def DSGraph.sameNode (g : DSGraph) (a b : Nat) : Prop :=
  g.forward a = g.forward b

/-- The value at slot `i` of a call: slot 0 is the call itself (its
result), slot `i ≥ 1` is operand `i`. -/
def slotValue (ci : Instruction) (i : Nat) : Option Operand :=
  if i = 0 then some ⟨ci.self, ci.isPointerTy⟩ else ci.operands[i]?

/-- Slot `i` of the call holds a pointer-typed value that has a node, with
handle `a`, in the scalar map `M`. -/
def PointerSlot (M : Value → DSNodeHandle) (ci : Instruction) (i : Nat) (a : Nat) : Prop :=
  ∃ op, slotValue ci i = some op ∧ op.isPointerTy = true ∧ M op.val = some a

/-- The flag of the table array for marker `m` at slot `i`, as the code
reads it. -/
def markerFlag (oob : OutOfRange) (A : libAction) (m : Marker) (i : Nat) : Bool :=
  match m with
  | .read => slot A.read oob.read i
  | .modified => slot A.write oob.write i
  | .heap => slot A.heap oob.heap i
  | .folded => false

/-- The instruction is a call site that `processFunction` and
`eraseCallsTo` match for `F`: a direct call, a direct invoke, or a call
through a cast constant expression of `F`. -/
def Matched (F : Function) (ci : Instruction) : Prop :=
  (User.callInst ci ∈ F.uses ∧ ci.operand0Is F.self = true) ∨
  (User.invokeInst ci ∈ F.uses ∧ ci.operand0Is F.self = true) ∨
  (∃ ce uses, User.constantExpr ce true uses ∈ F.uses ∧ CEUser.callInst ci ∈ uses ∧
    ci.operand0Is ce = true)

/-! ## Primitive graph updates -/

/-- The primitive updates that the branch bodies are made of. -/
inductive Op where
  | mark (m : Marker) (a : Nat)
  | merge (a b : Nat)
  | erase (f : Value)
deriving DecidableEq

/-- Run one primitive update. -/
def Op.run : Op → DSGraph → DSGraph
  | .mark m a, g => g.setNode (g.forward a) ((g.nodes (g.forward a)).set m)
  | .merge a b, g => g.mergeWith (some a) (some b)
  | .erase f, g => g.removeFunctionCalls f

/-- What one primitive update establishes. -/
def Op.post : Op → DSGraph → Prop
  | .mark m a, g => g.carries a m = true
  | .merge a b, g => g.forward a = g.forward b
  | .erase f, g => ∀ cs ∈ g.FunctionCalls, cs.callee ≠ some f

/-- Run a list of primitive updates. -/
def runOps (l : List Op) (g : DSGraph) : DSGraph :=
  l.foldl (fun g o => o.run g) g

/-- The second graph has the scalar map of the first, keeps unified what
the first has unified, keeps every attribute of every node, and has no call
site that the first has not. -/
structure DSGraph.le (g g' : DSGraph) : Prop where
  map : g'.ScalarMap = g.ScalarMap
  same : ∀ a b, g.forward a = g.forward b → g'.forward a = g'.forward b
  attr : ∀ a m, g.carries a m = true → g'.carries a m = true
  calls : ∀ cs, cs ∈ g'.FunctionCalls → cs ∈ g.FunctionCalls

/-- The flag of the table array for marker `m` at slot `i`, for a slot
inside the array. -/
def tableFlag (A : libAction) (m : Marker) (i : Nat) : Bool :=
  match m with
  | .read => A.read.getD i false
  | .modified => A.write.getD i false
  | .heap => A.heap.getD i false
  | .folded => false

/-- The three branch bodies of `processFunction` for one call. -/
def branchBodies (oob : OutOfRange) (noStdLibFold : Bool) (A : libAction) (ci : Instruction) :
    List (DSGraph × Nat → DSGraph × Nat) :=
  [callBody oob noStdLibFold A ci, invokeBody oob noStdLibFold A ci,
   castCallBody oob noStdLibFold A ci]

/-- An operand that counts as pointer-typed only if it has a node in `g`. -/
def Operand.withoutNodeless (g : DSGraph) (op : Operand) : Operand :=
  { op with isPointerTy := op.isPointerTy && g.hasNodeForValue op.val }

/-- The call with every pointer-typed operand (and result) that has no
node in `g` replaced by one that is not pointer-typed; operands that have a
node, and all positions, are unchanged. -/
def Instruction.withoutNodeless (g : DSGraph) (ci : Instruction) : Instruction :=
  { ci with
    isPointerTy := ci.isPointerTy && g.hasNodeForValue ci.self
    operands := ci.operands.map (Operand.withoutNodeless g) }

/-! ## The branch bodies as lists of primitive updates

The lists depend on the graph only through its scalar map `M`, which no
update changes. -/

/-- Updates of the three guarded marker statements at slot `y`. -/
def slotOps (oob : OutOfRange) (A : libAction) (y : Nat) (h : DSNodeHandle) : List Op :=
  match h with
  | none => []
  | some a =>
    (if slot A.read oob.read y then [Op.mark .read a] else []) ++
    ((if slot A.write oob.write y then [Op.mark .modified a] else []) ++
     (if slot A.heap oob.heap y then [Op.mark .heap a] else []))

/-- Updates of `markResult`. -/
def resultMarkOps (oob : OutOfRange) (A : libAction) (ci : Instruction)
    (M : Value → DSNodeHandle) : List Op :=
  if ci.isPointerTy then slotOps oob A 0 (M ci.self) else []

/-- Updates of `markArguments`. -/
def argMarkOps (oob : OutOfRange) (A : libAction) (M : Value → DSNodeHandle) :
    Nat → List Operand → List Op
  | _, [] => []
  | y, op :: ops =>
    (if op.isPointerTy then slotOps oob A y (M op.val) else []) ++ argMarkOps oob A M (y + 1) ops

/-- Updates of the three marker statements of the cast-wrapped branch. -/
def castSlotOps (h : DSNodeHandle) : List Op :=
  match h with
  | none => []
  | some a => [Op.mark .read a, Op.mark .modified a, Op.mark .heap a]

/-- Updates of `markArgumentsCast`. -/
def argMarkOpsCast (oob : OutOfRange) (A : libAction) (M : Value → DSNodeHandle) :
    Nat → List Operand → List Op
  | _, [] => []
  | y, op :: ops =>
    (if slot A.read oob.read y then
      if op.isPointerTy then castSlotOps (M op.val) else []
    else []) ++ argMarkOpsCast oob A M (y + 1) ops

/-- The handles that the merge step collects from the arguments. -/
def toMergeArgs (oob : OutOfRange) (A : libAction) (M : Value → DSNodeHandle) :
    Nat → List Operand → List Nat
  | _, [] => []
  | y, op :: ops =>
    (if slot A.mergeNodes oob.mergeNodes y then
      if op.isPointerTy then (M op.val).toList else []
    else []) ++ toMergeArgs oob A M (y + 1) ops

/-- The handles that the merge step collects. -/
def toMergeList (oob : OutOfRange) (A : libAction) (ci : Instruction)
    (M : Value → DSNodeHandle) : List Nat :=
  (if slot A.mergeNodes oob.mergeNodes 0 then
    if ci.isPointerTy then (M ci.self).toList else []
  else []) ++ toMergeArgs oob A M 1 ci.operands.tail

/-- Updates of `mergeAll`. -/
def mergeOps : List Nat → List Op
  | [] => []
  | a :: rest => rest.map (fun b => Op.merge a b)

/-- Updates of one guarded fold statement. -/
def foldOps (h : DSNodeHandle) : List Op :=
  match h with
  | none => []
  | some a => [Op.mark .folded a]

/-- Updates of `foldArguments`. -/
def argFoldOps (M : Value → DSNodeHandle) : List Operand → List Op
  | [] => []
  | op :: ops => (if op.isPointerTy then foldOps (M op.val) else []) ++ argFoldOps M ops

/-- The increase of the statistic by `foldArguments`. -/
def argFoldCount (M : Value → DSNodeHandle) : List Operand → Nat
  | [] => 0
  | op :: ops => (if op.isPointerTy && (M op.val).isSome then 1 else 0) + argFoldCount M ops

/-- Updates of `collapseStep`. -/
def collapseOps (noStdLibFold : Bool) (A : libAction) (ci : Instruction)
    (M : Value → DSNodeHandle) : List Op :=
  if !noStdLibFold && A.collapse then
    (if ci.isPointerTy then foldOps (M ci.self) else []) ++ argFoldOps M ci.operands.tail
  else []

/-- The increase of the statistic by `collapseStep`. -/
def collapseCount (noStdLibFold : Bool) (A : libAction) (ci : Instruction)
    (M : Value → DSNodeHandle) : Nat :=
  if !noStdLibFold && A.collapse then
    (if ci.isPointerTy then 1 else 0) + argFoldCount M ci.operands.tail
  else 0

/-- Updates of a branch body; `cast` selects the cast-wrapped branch. -/
def bodyOps (cast : Bool) (oob : OutOfRange) (noStdLibFold : Bool) (A : libAction)
    (ci : Instruction) (M : Value → DSNodeHandle) : List Op :=
  resultMarkOps oob A ci M ++
  ((if cast then argMarkOpsCast oob A M 1 ci.operands.tail
    else argMarkOps oob A M 1 ci.operands.tail) ++
   (mergeOps (toMergeList oob A ci M) ++ collapseOps noStdLibFold A ci M))

/-- A primitive update on the graph of one function. -/
abbrev SOp := Nat × Op

/-- Run one primitive update on the graph it is addressed to. -/
def SOp.run (o : SOp) (D : Nat → DSGraph) : Nat → DSGraph :=
  fun q => if q = o.1 then o.2.run (D q) else D q

/-- Run a list of addressed updates. -/
def runSOps (l : List SOp) (D : Nat → DSGraph) : Nat → DSGraph :=
  l.foldl (fun D o => o.run D) D

/-- Address a list of updates to the graph of function `p`. -/
def atGraph (p : Nat) (l : List Op) : List SOp := l.map (fun o => (p, o))

/-- Updates of `processCEUser`. -/
def ceUserOps (oob : OutOfRange) (noStdLibFold : Bool) (A : libAction) (ce : Value)
    (MM : Nat → Value → DSNodeHandle) (u : CEUser) : List SOp :=
  match u with
  | .callInst ci =>
    if ci.operand0Is ce then atGraph ci.parent (bodyOps true oob noStdLibFold A ci (MM ci.parent))
    else []
  | .other => []

/-- Updates of `processUser`. -/
def userOps (oob : OutOfRange) (noStdLibFold : Bool) (A : libAction) (F : Function)
    (MM : Nat → Value → DSNodeHandle) (u : User) : List SOp :=
  match u with
  | .callInst ci =>
    if ci.operand0Is F.self then
      atGraph ci.parent (bodyOps false oob noStdLibFold A ci (MM ci.parent))
    else []
  | .invokeInst ci =>
    if ci.operand0Is F.self then
      atGraph ci.parent (bodyOps false oob noStdLibFold A ci (MM ci.parent))
    else []
  | .constantExpr ce isCast uses =>
    if isCast then (uses.map (ceUserOps oob noStdLibFold A ce MM)).flatten else []
  | .other => []

/-- The increase of the statistic by `processCEUser`. -/
def ceUserCount (noStdLibFold : Bool) (A : libAction) (ce : Value)
    (MM : Nat → Value → DSNodeHandle) (u : CEUser) : Nat :=
  match u with
  | .callInst ci => if ci.operand0Is ce then collapseCount noStdLibFold A ci (MM ci.parent) else 0
  | .other => 0

/-- The increase of the statistic by `processUser`. -/
def userCount (noStdLibFold : Bool) (A : libAction) (F : Function)
    (MM : Nat → Value → DSNodeHandle) (u : User) : Nat :=
  match u with
  | .callInst ci =>
    if ci.operand0Is F.self then collapseCount noStdLibFold A ci (MM ci.parent) else 0
  | .invokeInst ci =>
    if ci.operand0Is F.self then collapseCount noStdLibFold A ci (MM ci.parent) else 0
  | .constantExpr ce isCast uses =>
    if isCast then (uses.map (ceUserCount noStdLibFold A ce MM)).sum else 0
  | .other => 0

/-- Updates of `eraseCEUser`. -/
def eraseCEUserOps (F : Function) (ce : Value) (u : CEUser) : List SOp :=
  match u with
  | .callInst ci => if ci.operand0Is ce then [(ci.parent, Op.erase F.self)] else []
  | .other => []

/-- Updates of `eraseUser`. -/
def eraseUserOps (F : Function) (u : User) : List SOp :=
  match u with
  | .callInst ci => if ci.operand0Is F.self then [(ci.parent, Op.erase F.self)] else []
  | .invokeInst ci => if ci.operand0Is F.self then [(ci.parent, Op.erase F.self)] else []
  | .constantExpr ce isCast uses =>
    if isCast then (uses.map (eraseCEUserOps F ce)).flatten else []
  | .other => []

/-- Updates of `processFunction` for the action `A`. -/
def functionOps (oob : OutOfRange) (noStdLibFold : Bool) (A : libAction) (F : Function)
    (MM : Nat → Value → DSNodeHandle) : List SOp :=
  (F.uses.map (userOps oob noStdLibFold A F MM)).flatten ++ (F.uses.map (eraseUserOps F)).flatten

/-- The increase of the statistic by `processFunction` for the action `A`. -/
def functionCount (noStdLibFold : Bool) (A : libAction) (F : Function)
    (MM : Nat → Value → DSNodeHandle) : Nat :=
  (F.uses.map (userCount noStdLibFold A F MM)).sum

/-- The scalar maps of all graphs. -/
def scalarMaps (D : Nat → DSGraph) : Nat → Value → DSNodeHandle :=
  fun p => (D p).ScalarMap

/-! ## Concrete inputs -/

/-- Reads past the end of the table arrays that yield `false`. -/
def exOob : OutOfRange := ⟨fun _ => false, fun _ => false, fun _ => false, fun _ => false⟩

/-- Reads past the end of the table arrays that yield `true`. -/
def exOobTrue : OutOfRange := ⟨fun _ => true, fun _ => true, fun _ => true, fun _ => true⟩

/-- A node record without attributes. -/
def exBlank : DSNode := ⟨false, false, false, false⟩

/-- A graph in which the values 1 and 2 have the nodes 0 and 1, no node has
an attribute, and two call sites are recorded: one to function 100 and one
to function 200. -/
def exGraph : DSGraph :=
  { ScalarMap := fun v => if v = 1 then some 0 else if v = 2 then some 1 else none
    forward := fun n => n
    nodes := fun _ => exBlank
    FunctionCalls := [⟨10, some 100⟩, ⟨11, some 200⟩] }

/-- A pass state in which every function has the graph `exGraph`. -/
def exState : PassState := ⟨fun _ => exGraph, 0⟩

/-- The instruction `%10 = call @100(%1, %2)` in function 0, with a
pointer-typed result and two pointer-typed arguments. -/
def exCall : Instruction := ⟨10, true, 0, [⟨100, true⟩, ⟨1, true⟩, ⟨2, true⟩]⟩

/-- The declaration of `strcpy`, called once, directly. -/
def exStrcpy : Function :=
  { self := 100, name := "strcpy", isDeclaration := true, uses := [User.callInst exCall] }

/-- The declaration of `fprintf`, called once, directly. -/
def exFprintf : Function :=
  { self := 100, name := "fprintf", isDeclaration := true, uses := [User.callInst exCall] }

/-- A graph in which the value 1 (a buffer) has node 0, which carries the
read marker and is folded, and the value 10 (the result of a call) has
node 1, which has no attribute. -/
def exGraphBuf : DSGraph :=
  { ScalarMap := fun v => if v = 1 then some 0 else if v = 10 then some 1 else none
    forward := fun n => n
    nodes := fun n => if n = 0 then ⟨true, false, false, true⟩ else exBlank
    FunctionCalls := [⟨10, some 100⟩] }

/-- A pass state in which every function has the graph `exGraphBuf`. -/
def exStateBuf : PassState := ⟨fun _ => exGraphBuf, 0⟩

/-- The instruction `%10 = call @100(%1, %3)` in function 0: a pointer-typed
result, a pointer-typed first and an integer second argument. -/
def exCallBuf : Instruction := ⟨10, true, 0, [⟨100, true⟩, ⟨1, true⟩, ⟨3, false⟩]⟩

/-- The declaration of `getcwd`, called once, directly. -/
def exGetcwd : Function :=
  { self := 100, name := "getcwd", isDeclaration := true, uses := [User.callInst exCallBuf] }

/-- The instruction `%10 = call @100(%1)` in function 0 with an integer
result and one pointer-typed argument. -/
def exCallOne : Instruction := ⟨10, false, 0, [⟨100, true⟩, ⟨1, true⟩]⟩

/-- The same call with the cast constant expression 101 as its callee. -/
def exCallOneCast : Instruction := ⟨10, false, 0, [⟨101, true⟩, ⟨1, true⟩]⟩

/-- A function called once, directly, with one pointer argument. -/
def exDirectOne (name : String) : Function :=
  { self := 100, name := name, isDeclaration := true, uses := [User.callInst exCallOne] }

/-- The same function called once through the pointer cast 101. -/
def exCastOne (name : String) : Function :=
  { self := 100, name := name, isDeclaration := true,
    uses := [User.constantExpr 101 true [CEUser.callInst exCallOneCast]] }

/-- A call of function 100 with ten actual arguments: the first and the
tenth are the pointers `%1` and `%2`, the others are integers. -/
def exCallTen : Instruction :=
  ⟨10, false, 0,
    [⟨100, true⟩, ⟨1, true⟩, ⟨3, false⟩, ⟨3, false⟩, ⟨3, false⟩, ⟨3, false⟩, ⟨3, false⟩,
     ⟨3, false⟩, ⟨3, false⟩, ⟨3, false⟩, ⟨2, true⟩]⟩

/-- The declaration of `printf`, called once with ten actual arguments. -/
def exPrintf : Function :=
  { self := 100, name := "printf", isDeclaration := true, uses := [User.callInst exCallTen] }

/-! ## `processRuntimeCheck` and `runOnModule` -/

/-- A module: its functions in order. -/
structure Module where
  functions : List Function

/-- The call `M.getFunction(name)`: the function of the module with exactly
that name, if there is one. -/
def Module.getFunction (M : Module) (name : String) : Option Function :=
  M.functions.find? (fun F => decide (F.name = name))

/-- The result of the analysis `AllocIdentify`: the names of the allocation
and of the deallocation wrappers, in iteration order. -/
structure AllocIdentify where
  allocs : List String
  deallocs : List String

/-- Modelled from the spec: DSGraph::getNodeForValue on a value that may
have no node yet, `nodeFor(value) -> Node (creates on first reference)`.
Which handle the graph gives to a node it creates is supplied by
`newNode`. -/
def DSGraph.nodeFor (newNode : DSGraph → Nat) (g : DSGraph) (v : Value) : DSGraph × Nat :=
  match g.ScalarMap v with
  | some a => (g, a)
  | none =>
    ({ g with ScalarMap := fun w => if w = v then some (newNode g) else g.ScalarMap w },
      newNode g)

/-- The three statements of lines 424-426 on the graph of the calling
function: the node of the call, the node of the operand `op`, and the merge
of the two. -/
def runtimeCheckCall (newNode : DSGraph → Nat) (ci : Instruction) (op : Operand)
    (g : DSGraph) : DSGraph :=
  let ret := g.nodeFor newNode ci.self
  let argn := ret.1.nodeFor newNode op.val
  argn.1.mergeWith (some ret.2) (some argn.2)

/-- One iteration of the loop of `processRuntimeCheck` (lines 419-429).
The result is `none` when `CI->getOperand(arg)` is past the operands of the
call. -/
def runtimeCheckUser (newNode : DSGraph → Nat) (F : Function) (arg : Nat) (s : PassState)
    (u : User) : Option PassState :=
  match u with
  | .callInst ci =>
    if ci.operand0Is F.self then
      match ci.operands[arg]? with
      | some op =>
        some (s.setDSGraph ci.parent (runtimeCheckCall newNode ci op (s.getDSGraph ci.parent)))
      | none => none
    else some s
  | .invokeInst _ => some s
  | .constantExpr _ _ _ => some s
  | .other => some s

/-- The loop of `processRuntimeCheck` over the use list. -/
def runtimeCheckLoop (newNode : DSGraph → Nat) (F : Function) (arg : Nat) :
    List User → PassState → Option PassState
  | [], s => some s
  | u :: us, s =>
    match runtimeCheckUser newNode F arg s u with
    | some s1 => runtimeCheckLoop newNode F arg us s1
    | none => none

/-- The method `processRuntimeCheck` (lines 401-438). -/
def processRuntimeCheck (newNode : DSGraph → Nat) (M : Module) (name : String) (arg : Nat)
    (s : PassState) : Option PassState :=
  match M.getFunction name with
  | none => some s
  | some F =>
    match runtimeCheckLoop newNode F arg F.uses s with
    | some s1 => some (eraseCallsTo F s1)
    | none => none

/-- The first erase loop of `runOnModule` (lines 459-462). -/
def eraseReadNone (M : Module) (s : PassState) : PassState :=
  M.functions.foldl
    (fun s I =>
      if I.isDeclaration && I.doesNotAccessMemory && !I.returnIsPointerTy then eraseCallsTo I s
      else s) s

/-- The inner loop of lines 471-478: whether a formal argument has a
pointer type. -/
def hasPtr (I : Function) : Bool := I.argIsPointerTy.any (fun t => t)

/-- The second erase loop of `runOnModule` (lines 468-481). -/
def eraseNoPointer (M : Module) (s : PassState) : PassState :=
  M.functions.foldl
    (fun s I =>
      if I.isDeclaration && !I.isVarArg && !I.returnIsPointerTy then
        (if !hasPtr I then eraseCallsTo I s else s)
      else s) s

/-- The body of the table scan for the entry at index `x` with name `nm`
(lines 489-492). -/
def scanEntry (oob : OutOfRange) (noStdLibFold : Bool) (M : Module) (x : Nat) (nm : String)
    (s : PassState) : PassState :=
  match M.getFunction nm with
  | some F => if F.isDeclaration then processFunction oob noStdLibFold x F s else s
  | none => s

/-- The table scan `for (int x = 0; recFuncs[x].name; ++x)` (lines 488-492)
over the part `tbl` of the array that starts at index `x`.  The result is
`none` when the scan runs past the end of the array. -/
def tableScan (oob : OutOfRange) (noStdLibFold : Bool) (M : Module) :
    List RecFunc → Nat → PassState → Option PassState
  | [], _, _ => none
  | e :: rest, x, s =>
    match e.name with
    | none => some s
    | some nm => tableScan oob noStdLibFold M rest (x + 1) (scanEntry oob noStdLibFold M x nm s)

/-- The index searches of lines 497-500 and 509-512 over the part `tbl` of
the array that starts at index `x`: the value of `x` after the loop.  The
result is `none` when the search runs past the end of the array. -/
def findIndex (name : String) : List RecFunc → Nat → Option Nat
  | [], _ => none
  | e :: rest, x =>
    match e.name with
    | none => some x
    | some nm => if nm = name then some x else findIndex name rest (x + 1)

/-- The loops over the wrappers (lines 502-505 and 514-517) for the table
index `x`. -/
def wrapperLoop (oob : OutOfRange) (noStdLibFold : Bool) (M : Module) (x : Nat)
    (names : List String) (s : PassState) : PassState :=
  names.foldl
    (fun s nm =>
      match M.getFunction nm with
      | some F => processFunction oob noStdLibFold x F s
      | none => s) s

/-- Lines 494-505: the search for `malloc` and the loop over the allocation
wrappers. -/
def allocStage (oob : OutOfRange) (noStdLibFold : Bool) (A : AllocIdentify) (M : Module)
    (s : PassState) : Option PassState :=
  match findIndex "malloc" recFuncs 0 with
  | some x => some (wrapperLoop oob noStdLibFold M x A.allocs s)
  | none => none

/-- Lines 507-517: the search for `free` and the loop over the deallocation
wrappers. -/
def deallocStage (oob : OutOfRange) (noStdLibFold : Bool) (A : AllocIdentify) (M : Module)
    (s : PassState) : Option PassState :=
  match findIndex "free" recFuncs 0 with
  | some x => some (wrapperLoop oob noStdLibFold M x A.deallocs s)
  | none => none

/-- The run-time checks of lines 523-526 with their argument indices. -/
def runtimeChecks : List (String × Nat) :=
  [("sc.boundscheck", 3), ("sc.boundscheckui", 3), ("sc.exactcheck2", 2),
   ("sc.get_actual_val", 2)]

/-- Lines 523-526: `processRuntimeCheck` for each run-time check in turn. -/
def runtimeCheckStage (newNode : DSGraph → Nat) (M : Module) :
    List (String × Nat) → PassState → Option PassState
  | [], s => some s
  | c :: cs, s =>
    match processRuntimeCheck newNode M c.1 c.2 s with
    | some s1 => runtimeCheckStage newNode M cs s1
    | none => none

/-- The method `runOnModule` (lines 440-549) on the graphs that the local
pass has built for the functions of the module.  `DisableStdLib` is the
command line switch of that name.  The closing recomputation of the external
flags (lines 534-546) only rewrites the attribute `isExternal`, which the
node records here do not carry. -/
def runOnModule (oob : OutOfRange) (noStdLibFold DisableStdLib : Bool)
    (newNode : DSGraph → Nat) (A : AllocIdentify) (M : Module) (s : PassState) :
    Option PassState :=
  let s1 := eraseNoPointer M (eraseReadNone M s)
  if !DisableStdLib then
    match tableScan oob noStdLibFold M recFuncs 0 s1 with
    | none => none
    | some s2 =>
      match allocStage oob noStdLibFold A M s2 with
      | none => none
      | some s3 =>
        match deallocStage oob noStdLibFold A M s3 with
        | none => none
        | some s4 => runtimeCheckStage newNode M runtimeChecks s4
  else some s1

/-! ## Vocabulary for the statements about the table scan -/

/-- The part of the array consists of entries with a name followed by one
last entry whose name is null. -/
def endsAtSentinel : List RecFunc → Bool
  | [] => false
  | [e] => e.name.isNone
  | e :: rest => e.name.isSome && endsAtSentinel rest

/-- The pairs of a table index and a function that the table scan hands to
`processFunction`, in the order of the scan. -/
def scanTargets (M : Module) : List RecFunc → Nat → List (Nat × Function)
  | [], _ => []
  | e :: rest, x =>
    match e.name with
    | none => []
    | some nm =>
      (match M.getFunction nm with
        | some F => if F.isDeclaration then [(x, F)] else []
        | none => []) ++ scanTargets M rest (x + 1)

/-! ## Vocabulary for the statements about `processRuntimeCheck` -/

/-- The second graph keeps every node of a value, keeps unified what the
first has unified, keeps every attribute of every node, and has no call
site that the first has not. -/
structure DSGraph.grows (g g' : DSGraph) : Prop where
  map : ∀ v a, g.ScalarMap v = some a → g'.ScalarMap v = some a
  same : ∀ a b, g.forward a = g.forward b → g'.forward a = g'.forward b
  attr : ∀ a m, g.carries a m = true → g'.carries a m = true
  calls : ∀ cs, cs ∈ g'.FunctionCalls → cs ∈ g.FunctionCalls

/-- The values `v` and `w` have nodes in `g`, and the two denote one and
the same node. -/
def DSGraph.shareNode (g : DSGraph) (v w : Value) : Prop :=
  ∃ r a, g.ScalarMap v = some r ∧ g.ScalarMap w = some a ∧ g.sameNode r a

/-- The graph of every function grows from the first state to the second. -/
def PassState.grows (s s1 : PassState) : Prop :=
  ∀ p, (s.DSInfo p).grows (s1.DSInfo p)

/-- The two graphs have the same nodes: the same scalar map, the same
unifications and the same node records. -/
def DSGraph.sameNodes (g g' : DSGraph) : Prop :=
  g'.ScalarMap = g.ScalarMap ∧ g'.forward = g.forward ∧ g'.nodes = g.nodes

/-! ## Concrete inputs for `processRuntimeCheck` and `runOnModule` -/

/-- A graph in which the values 1, 2 and 10 have the nodes 0, 1 and 2 and
one call site, to function 100, is recorded. -/
def exGraphCheck : DSGraph :=
  { ScalarMap := fun v =>
      if v = 1 then some 0 else if v = 2 then some 1 else if v = 10 then some 2 else none
    forward := fun n => n
    nodes := fun _ => exBlank
    FunctionCalls := [⟨10, some 100⟩] }

/-- A pass state in which every function has the graph `exGraphCheck`. -/
def exStateCheck : PassState := ⟨fun _ => exGraphCheck, 0⟩

/-- The instruction `%10 = call @100(%1, %1, %2)` in function 0, all of
pointer type. -/
def exCheckCall : Instruction := ⟨10, true, 0, [⟨100, true⟩, ⟨1, true⟩, ⟨1, true⟩, ⟨2, true⟩]⟩

/-- The same call with the cast constant expression 101 as its callee. -/
def exCheckCallCast : Instruction :=
  ⟨10, true, 0, [⟨101, true⟩, ⟨1, true⟩, ⟨1, true⟩, ⟨2, true⟩]⟩

/-- The declaration of `sc.boundscheck` with the given use list. -/
def exCheckFunction (uses : List User) : Function :=
  { self := 100, name := "sc.boundscheck", isDeclaration := true, uses := uses,
    returnIsPointerTy := true, argIsPointerTy := [true, true, true] }

/-- A module whose only function is the declaration of `sc.boundscheck`
with the given use list. -/
def exCheckModule (uses : List User) : Module := ⟨[exCheckFunction uses]⟩

/-- A graph that gives every node it creates the handle 99. -/
def exNewNode : DSGraph → Nat := fun _ => 99

/-- The instruction `%10 = call @100(%3)` in function 0: an integer result
and one integer argument. -/
def exCallInt : Instruction := ⟨10, false, 0, [⟨100, true⟩, ⟨3, false⟩]⟩

/-- A declaration that is varargs, returns an integer, has one integer
formal argument and is called once, directly. -/
def exVarArgs : Function :=
  { self := 100, name := "log_values", isDeclaration := true, uses := [User.callInst exCallInt],
    isVarArg := true, returnIsPointerTy := false, argIsPointerTy := [false] }

/-- The same declaration without varargs. -/
def exNoPointer : Function :=
  { self := 100, name := "log_values", isDeclaration := true, uses := [User.callInst exCallInt],
    isVarArg := false, returnIsPointerTy := false, argIsPointerTy := [false] }

/-- An analysis result that reports no wrapper. -/
def exNoWrappers : AllocIdentify := ⟨[], []⟩

end StdLibPass

/-! # The interface of the pool allocation pass

A shallow embedding of `include/poolalloc/PoolAllocate.h`: the record
`PA::FuncInfo`, the map `FunctionInfo` with the two look-ups
`getFunctionInfo` and `getFuncInfo`, and, from the specification, the
equivalence classes of procedures and their pool arguments, of which the
header has only the declarations. -/

namespace PoolAllocate

/-- A `Function*`; 0 is the null pointer. -/
abbrev FunctionPtr := Nat

/-- The record `PA::FuncInfo`. -/
structure FuncInfo where
  MarkedNodes : List Nat
  Clone : FunctionPtr
  ArgNodes : List Nat
  PoolArgFirst : Int
  PoolArgLast : Int
  PoolDescriptors : List (Nat × Nat)
  NewToOldValueMap : List (Nat × Nat)
deriving DecidableEq

/-- The map `std::map<Function*, PA::FuncInfo> FunctionInfo`: its entries in
iteration order. -/
abbrev FunctionInfoMap := List (FunctionPtr × FuncInfo)

/-- The value-initialised record that `operator[]` stores for a new key. -/
def FuncInfo.empty : FuncInfo := ⟨[], 0, [], 0, 0, [], []⟩

/-- The call `FunctionInfo.count(F)`. -/
def count (FunctionInfo : FunctionInfoMap) (F : FunctionPtr) : Nat :=
  if FunctionInfo.any (fun e => decide (e.1 = F)) then 1 else 0

/-- Insertion of a new entry at its place in the key order. -/
def insertEntry (F : FunctionPtr) (d : FuncInfo) : FunctionInfoMap → FunctionInfoMap
  | [] => [(F, d)]
  | e :: rest => if F < e.1 then (F, d) :: e :: rest else e :: insertEntry F d rest

/-- The expression `FunctionInfo[F]`: the entry under `F`, which is created
when the map has none; the map afterwards and the entry. -/
def subscript (FunctionInfo : FunctionInfoMap) (F : FunctionPtr) :
    FunctionInfoMap × (FunctionPtr × FuncInfo) :=
  match FunctionInfo.find? (fun e => decide (e.1 = F)) with
  | some e => (FunctionInfo, e)
  | none => (insertEntry F FuncInfo.empty FunctionInfo, (F, FuncInfo.empty))

/-- The method `getFunctionInfo` (lines 127-140): the map afterwards and the
entry whose record is returned, `none` for the null pointer. -/
def getFunctionInfo (FunctionInfo : FunctionInfoMap) (F : FunctionPtr) :
    FunctionInfoMap × Option (FunctionPtr × FuncInfo) :=
  if count FunctionInfo F ≠ 0 then
    ((subscript FunctionInfo F).1, some (subscript FunctionInfo F).2)
  else
    (FunctionInfo, FunctionInfo.find? (fun e => decide (e.2.Clone = F)))

/-- The method `getFuncInfo` (lines 142-145): the entry whose record is
returned, `none` for the null pointer. -/
def getFuncInfo (FunctionInfo : FunctionInfoMap) (F : FunctionPtr) :
    Option (FunctionPtr × FuncInfo) :=
  FunctionInfo.find? (fun e => decide (e.1 = F))

/-- Modelled from the spec: the member `FuncECs` of type
`EquivalenceClasses<Function*>`, a partition of the procedures, held as the
map from a procedure to the leader of its class. -/
abbrev EquivalenceClasses := FunctionPtr → FunctionPtr

/-- Modelled from the spec: the union of the classes of two procedures
(union-find; which of the two leaders survives is not specified, here the
first). -/
def unionSets (ec : EquivalenceClasses) (a b : FunctionPtr) : EquivalenceClasses :=
  fun n => if ec n = ec b then ec a else ec n

/-- Modelled from the spec: for one indirect call site, "union all
procedures in its target set into one class". -/
def unionTargets (ec : EquivalenceClasses) : List FunctionPtr → EquivalenceClasses
  | [] => ec
  | f :: rest => rest.foldl (fun ec g => unionSets ec f g) ec

/-- Modelled from the spec: PoolAllocate::buildIndirectFunctionSets, of
which the header has only the declaration: "initialize one equivalence class
per procedure; for every indirect call site, union all procedures in its
target set into one class".  The argument is the relation `CallSiteTargets`,
one target set for each indirect call site, in the order of processing. -/
def buildIndirectFunctionSets (CallSiteTargets : List (List FunctionPtr)) :
    EquivalenceClasses :=
  CallSiteTargets.foldl unionTargets (fun n => n)

/-- The pairs of procedures that the target set of one call site unites. -/
def targetPairs : List FunctionPtr → List (FunctionPtr × FunctionPtr)
  | [] => []
  | f :: rest => rest.map (fun g => (f, g))

/-- Two procedures are in the same class. -/
def sameClass (ec : EquivalenceClasses) (a b : FunctionPtr) : Prop := ec a = ec b

/-- Two procedures occur together in the target set of one indirect call
site. -/
def shareCallSite (CallSiteTargets : List (List FunctionPtr)) (a b : FunctionPtr) : Prop :=
  ∃ ts ∈ CallSiteTargets, a ∈ ts ∧ b ∈ ts

/-- Modelled from the spec: "a class requires N pool slots = the maximum
pool-argument count needed by any single member".  `procs` are the
procedures of the program and `needs` gives the number of pools that a
procedure needs by itself. -/
def classPoolSlots (ec : EquivalenceClasses) (procs : List FunctionPtr)
    (needs : FunctionPtr → Nat) (p : FunctionPtr) : Nat :=
  ((procs.filter (fun q => decide (ec q = ec p))).map needs).foldl max 0

/-- Modelled from the spec: the member `EqClass2LastPoolArg`, the shared
last pool-argument index of the class of `p`; a class that requires no pool
arguments is not on the map. -/
def EqClass2LastPoolArg (ec : EquivalenceClasses) (procs : List FunctionPtr)
    (needs : FunctionPtr → Nat) (p : FunctionPtr) : Option Int :=
  if classPoolSlots ec procs needs p = 0 then none
  else some ((classPoolSlots ec procs needs p : Int) - 1)

/-- The procedure occurs in the target set of an indirect call site. -/
def reachableIndirect (CallSiteTargets : List (List FunctionPtr)) (p : FunctionPtr) : Bool :=
  CallSiteTargets.any (fun ts => ts.contains p)

/-- Modelled from the spec: ABI sizing, the number of pool-descriptor
parameters of the clone of `p`: "if the procedure belongs to a non-trivial
equivalence class (size > 1, or reachable via indirect call), its
pool-parameter range is the class's shared `[0, classMax)`; otherwise the
range is exactly the procedure's own pool-node count". -/
def poolParamCount (CallSiteTargets : List (List FunctionPtr)) (procs : List FunctionPtr)
    (needs : FunctionPtr → Nat) (p : FunctionPtr) : Nat :=
  if (procs.any (fun q => decide (q ≠ p) &&
        decide (buildIndirectFunctionSets CallSiteTargets q
          = buildIndirectFunctionSets CallSiteTargets p)))
      || reachableIndirect CallSiteTargets p then
    classPoolSlots (buildIndirectFunctionSets CallSiteTargets) procs needs p
  else needs p

/-- Modelled from the spec: the number of descriptor parameters of the
clone of `p` outside the range `[PoolArgFirst, PoolArgLast)` that `p` uses,
which holds the `needs p` pools of `p` itself. -/
def unusedPoolParams (CallSiteTargets : List (List FunctionPtr)) (procs : List FunctionPtr)
    (needs : FunctionPtr → Nat) (p : FunctionPtr) : Nat :=
  poolParamCount CallSiteTargets procs needs p - needs p

end PoolAllocate

namespace StdLibPass


/-! ## Vocabulary and concrete inputs for the statements about name matching -/

/-- The module without its functions of the given name. -/
def Module.dropNamed (M : Module) (name : String) : Module :=
  ⟨M.functions.filter (fun F => !decide (F.name = name))⟩

/-- A function named `strcpy` that has a body in the module and is called
once, directly. -/
def exStrcpyBody : Function :=
  { self := 100, name := "strcpy", isDeclaration := false, uses := [User.callInst exCall] }

/-- A module whose only function is `exStrcpyBody`. -/
def exBodyModule : Module := ⟨[exStrcpyBody]⟩

/-- An analysis result that reports `strcpy` as an allocation wrapper. -/
def exStrcpyWrapper : AllocIdentify := ⟨["strcpy"], []⟩

/-- A function `my_free` with a body and one pointer-typed formal argument,
called once, directly, as `call @100(%1)`. -/
def exMyFree : Function :=
  { self := 100, name := "my_free", isDeclaration := false, uses := [User.callInst exCallOne],
    argIsPointerTy := [true] }

/-- The same function called once through the pointer cast 101. -/
def exMyFreeCast : Function :=
  { self := 100, name := "my_free", isDeclaration := false,
    uses := [User.constantExpr 101 true [CEUser.callInst exCallOneCast]],
    argIsPointerTy := [true] }

/-- An analysis result that reports `my_free` as a deallocation wrapper. -/
def exDeallocs : AllocIdentify := ⟨[], ["my_free"]⟩

/-- The state with the call sites to `f` removed from every graph: what
the state holds apart from the call sites to `f`. -/
def PassState.dropCallsTo (f : Value) (s : PassState) : PassState :=
  ⟨fun p => (s.DSInfo p).removeFunctionCalls f, s.NumNodesFoldedInStdLib⟩

/-- The instruction `%10 = call @100(%3, %4)` in function 0: an integer
result and two integer arguments. -/
def exCallTwoInt : Instruction := ⟨10, false, 0, [⟨100, true⟩, ⟨3, false⟩, ⟨4, false⟩]⟩

/-- A declaration named `sc.exactcheck2` that is not varargs, returns an
integer, has two integer formal arguments and is called once, directly. -/
def exExactCheck : Function :=
  { self := 100, name := "sc.exactcheck2", isDeclaration := true,
    uses := [User.callInst exCallTwoInt],
    isVarArg := false, returnIsPointerTy := false, argIsPointerTy := [false, false] }

/-- The declaration of `kill`: not varargs, an integer result and two
integer formal arguments, called once, through the pointer cast 101, with
the pointer `%1` as the argument. -/
def exKillCast : Function :=
  { self := 100, name := "kill", isDeclaration := true,
    uses := [User.constantExpr 101 true [CEUser.callInst exCallOneCast]],
    isVarArg := false, returnIsPointerTy := false, argIsPointerTy := [false, false] }
/-! ## Properties of the primitive updates -/

theorem DSNode.has_set (d : DSNode) (m k : Marker) :
    (d.set m).has k = (d.has k || decide (k = m)) := by
  cases m <;> cases k <;> simp [DSNode.set, DSNode.has]

theorem DSNode.has_or (a b : DSNode) (k : Marker) :
    (a.or b).has k = (a.has k || b.has k) := by
  cases k <;> simp [DSNode.or, DSNode.has]

theorem DSNode.ext_has {a b : DSNode} (h : ∀ k, a.has k = b.has k) : a = b := by
  have h1 := h .read
  have h2 := h .modified
  have h3 := h .heap
  have h4 := h .folded
  cases a; cases b
  simp [DSNode.has] at h1 h2 h3 h4
  simp [h1, h2, h3, h4]

theorem DSNode.set_of_has {d : DSNode} {m : Marker} (h : d.has m = true) : d.set m = d := by
  apply DSNode.ext_has
  intro k
  rw [DSNode.has_set]
  by_cases hk : k = m
  · subst hk; simp [h]
  · simp [hk]

theorem DSGraph.le_refl (g : DSGraph) : g.le g :=
  ⟨rfl, fun _ _ h => h, fun _ _ h => h, fun _ h => h⟩

theorem DSGraph.le_trans {g1 g2 g3 : DSGraph} (h12 : g1.le g2) (h23 : g2.le g3) : g1.le g3 :=
  ⟨h23.map.trans h12.map, fun a b h => h23.same a b (h12.same a b h),
   fun a m h => h23.attr a m (h12.attr a m h), fun cs h => h12.calls cs (h23.calls cs h)⟩

theorem Op.run_le (o : Op) (g : DSGraph) : g.le (o.run g) := by
  cases o with
  | mark m a =>
    refine ⟨rfl, fun _ _ h => h, ?_, fun _ h => h⟩
    intro b k hb
    simp only [Op.run, DSGraph.setNode, DSGraph.carries] at hb ⊢
    by_cases hba : g.forward b = g.forward a
    · simp only [hba, if_true, DSNode.has_set]
      rw [hba] at hb
      simp [hb]
    · simp only [hba, if_false]; exact hb
  | merge a b =>
    simp only [Op.run, DSGraph.mergeWith]
    by_cases hab : g.forward a = g.forward b
    · simp only [hab, if_true]; exact DSGraph.le_refl g
    · simp only [hab, if_false]
      refine ⟨rfl, ?_, ?_, fun _ h => h⟩
      · intro u v huv
        simp only [huv]
      · intro u k hu
        simp only [DSGraph.carries] at hu ⊢
        by_cases hub : g.forward u = g.forward b
        · simp only [hub, if_true, DSNode.has_or]
          rw [hub] at hu
          simp [hu]
        · simp only [hub, if_false]
          by_cases hua : g.forward u = g.forward a
          · simp only [hua, if_true, DSNode.has_or]
            rw [hua] at hu
            simp [hu]
          · simp only [hua, if_false]; exact hu
  | erase f =>
    refine ⟨rfl, fun _ _ h => h, fun _ _ h => h, ?_⟩
    intro cs hcs
    simp only [Op.run, DSGraph.removeFunctionCalls, List.mem_filter] at hcs
    exact hcs.1

theorem Op.post_run (o : Op) (g : DSGraph) : o.post (o.run g) := by
  cases o with
  | mark m a =>
    simp [Op.post, Op.run, DSGraph.setNode, DSGraph.carries, DSNode.has_set]
  | merge a b =>
    simp only [Op.post, Op.run, DSGraph.mergeWith]
    by_cases hab : g.forward a = g.forward b
    · simp only [hab, if_true]
    · simp [hab]
  | erase f =>
    intro cs hcs
    simp only [Op.run, DSGraph.removeFunctionCalls, List.mem_filter] at hcs
    simpa using hcs.2

theorem Op.post_le (o : Op) {g g' : DSGraph} (h : g.le g') (hp : o.post g) : o.post g' := by
  cases o with
  | mark m a => exact h.attr a m hp
  | merge a b => exact h.same a b hp
  | erase f => exact fun cs hcs => hp cs (h.calls cs hcs)

theorem DSGraph.setNode_self (g : DSGraph) (n : Nat) : g.setNode n (g.nodes n) = g := by
  cases g
  simp only [DSGraph.setNode, DSGraph.mk.injEq, true_and, and_true]
  funext m
  by_cases hm : m = n
  · simp [hm]
  · simp [hm]

theorem Op.run_of_post (o : Op) {g : DSGraph} (hp : o.post g) : o.run g = g := by
  cases o with
  | mark m a =>
    simp only [Op.post, DSGraph.carries] at hp
    simp only [Op.run, DSNode.set_of_has hp, DSGraph.setNode_self]
  | merge a b =>
    simp only [Op.post] at hp
    simp [Op.run, DSGraph.mergeWith, hp]
  | erase f =>
    cases g with
    | mk M fw nd fc =>
      simp only [Op.post] at hp
      simp only [Op.run, DSGraph.removeFunctionCalls, DSGraph.mk.injEq, true_and]
      rw [List.filter_eq_self]
      intro cs hcs
      simpa using hp cs hcs
/-! ## The branch bodies run their lists of updates -/

theorem runOps_nil (g : DSGraph) : runOps [] g = g := rfl

theorem runOps_cons (o : Op) (l : List Op) (g : DSGraph) :
    runOps (o :: l) g = runOps l (o.run g) := rfl

theorem runOps_append (l1 l2 : List Op) (g : DSGraph) :
    runOps (l1 ++ l2) g = runOps l2 (runOps l1 g) := by
  simp [runOps, List.foldl_append]

theorem runOps_le (l : List Op) (g : DSGraph) : g.le (runOps l g) := by
  induction l generalizing g with
  | nil => exact DSGraph.le_refl g
  | cons o l ih => exact DSGraph.le_trans (Op.run_le o g) (ih (o.run g))

theorem runOps_map (l : List Op) (g : DSGraph) : (runOps l g).ScalarMap = g.ScalarMap :=
  (runOps_le l g).map

theorem markSlot_eq (oob : OutOfRange) (A : libAction) (y : Nat) (v : Value) (g : DSGraph) :
    markSlot oob A y v g = runOps (slotOps oob A y (g.ScalarMap v)) g := by
  unfold markSlot slotOps
  cases hM : g.ScalarMap v with
  | none =>
    simp [DSGraph.getNodeForValue, hM, DSGraph.setReadMarker, DSGraph.setModifiedMarker,
      DSGraph.setHeapMarker, runOps_nil]
  | some a =>
    by_cases h1 : slot A.read oob.read y = true <;>
    by_cases h2 : slot A.write oob.write y = true <;>
    by_cases h3 : slot A.heap oob.heap y = true <;>
    simp [h1, h2, h3, DSGraph.getNodeForValue, hM, DSGraph.setReadMarker,
      DSGraph.setModifiedMarker, DSGraph.setHeapMarker, runOps, Op.run, DSGraph.setNode,
      DSNode.set]

theorem markResult_eq (oob : OutOfRange) (A : libAction) (ci : Instruction) (g : DSGraph) :
    markResult oob A ci g = runOps (resultMarkOps oob A ci g.ScalarMap) g := by
  unfold markResult resultMarkOps
  by_cases hp : ci.isPointerTy = true
  · simp only [hp, if_true]
    cases hM : g.ScalarMap ci.self with
    | none => simp [DSGraph.hasNodeForValue, hM, slotOps, runOps_nil]
    | some a => simp [DSGraph.hasNodeForValue, hM, markSlot_eq]
  · simp [hp, runOps_nil]

theorem markArguments_eq (oob : OutOfRange) (A : libAction) (ops : List Operand) :
    ∀ (y : Nat) (g : DSGraph),
      markArguments oob A y ops g = runOps (argMarkOps oob A g.ScalarMap y ops) g := by
  induction ops with
  | nil => intro y g; rfl
  | cons op ops ih =>
    intro y g
    simp only [markArguments, argMarkOps, runOps_append]
    rw [ih]
    by_cases hp : op.isPointerTy = true
    · simp only [hp, if_true]
      cases hM : g.ScalarMap op.val with
      | none => simp [DSGraph.hasNodeForValue, hM, slotOps, runOps_nil]
      | some a => simp [DSGraph.hasNodeForValue, hM, markSlot_eq, runOps_map]
    · simp [hp, runOps_nil]

theorem castSlot_eq (g : DSGraph) (v : Value) :
    (let g1 := if g.hasNodeForValue v then g.setReadMarker (g.getNodeForValue v) else g
     let g2 := if g1.hasNodeForValue v then g1.setModifiedMarker (g1.getNodeForValue v) else g1
     if g2.hasNodeForValue v then g2.setHeapMarker (g2.getNodeForValue v) else g2)
      = runOps (castSlotOps (g.ScalarMap v)) g := by
  cases hM : g.ScalarMap v with
  | none => simp [DSGraph.hasNodeForValue, hM, castSlotOps, runOps_nil]
  | some a =>
    simp [DSGraph.hasNodeForValue, DSGraph.getNodeForValue, hM, castSlotOps,
      DSGraph.setReadMarker, DSGraph.setModifiedMarker, DSGraph.setHeapMarker, runOps, Op.run,
      DSGraph.setNode, DSNode.set]

theorem markArgumentsCast_eq (oob : OutOfRange) (A : libAction) (ops : List Operand) :
    ∀ (y : Nat) (g : DSGraph),
      markArgumentsCast oob A y ops g = runOps (argMarkOpsCast oob A g.ScalarMap y ops) g := by
  induction ops with
  | nil => intro y g; rfl
  | cons op ops ih =>
    intro y g
    simp only [markArgumentsCast, argMarkOpsCast, runOps_append]
    rw [ih]
    by_cases hr : slot A.read oob.read y = true
    · by_cases hp : op.isPointerTy = true
      · simp only [hr, hp, if_true]
        have h := castSlot_eq g op.val
        simp only at h
        rw [h, runOps_map]
      · simp [hr, hp, runOps_nil]
    · simp [hr, runOps_nil]

theorem toMergeArguments_eq (oob : OutOfRange) (A : libAction) (g : DSGraph)
    (ops : List Operand) :
    ∀ y : Nat, toMergeArguments oob A g y ops = (toMergeArgs oob A g.ScalarMap y ops).map some := by
  induction ops with
  | nil => intro y; rfl
  | cons op ops ih =>
    intro y
    simp only [toMergeArguments, toMergeArgs, List.map_append, ih]
    congr 1
    by_cases hm : slot A.mergeNodes oob.mergeNodes y = true <;>
    by_cases hp : op.isPointerTy = true <;>
    cases hM : g.ScalarMap op.val <;>
    simp [hm, hp, hM, DSGraph.hasNodeForValue, DSGraph.getNodeForValue]

theorem toMerge_eq (oob : OutOfRange) (A : libAction) (ci : Instruction) (g : DSGraph) :
    toMergeResult oob A ci g ++ toMergeArguments oob A g 1 ci.operands.tail
      = (toMergeList oob A ci g.ScalarMap).map some := by
  simp only [toMergeList, List.map_append, toMergeArguments_eq]
  congr 1
  unfold toMergeResult
  by_cases hm : slot A.mergeNodes oob.mergeNodes 0 = true <;>
  by_cases hp : ci.isPointerTy = true <;>
  cases hM : g.ScalarMap ci.self <;>
  simp [hm, hp, hM, DSGraph.hasNodeForValue, DSGraph.getNodeForValue]

theorem mergeAll_eq (l : List Nat) (g : DSGraph) :
    mergeAll (l.map some) g = runOps (mergeOps l) g := by
  cases l with
  | nil => rfl
  | cons a rest =>
    simp only [List.map_cons, mergeAll, mergeOps, runOps]
    induction rest generalizing g with
    | nil => rfl
    | cons b rest ih =>
      simp only [List.map_cons, List.foldl_cons]
      rw [ih]
      rfl

theorem mergeStep_eq (oob : OutOfRange) (A : libAction) (ci : Instruction) (g : DSGraph) :
    mergeStep oob A ci g = runOps (mergeOps (toMergeList oob A ci g.ScalarMap)) g := by
  unfold mergeStep
  rw [toMerge_eq, mergeAll_eq]

theorem foldArguments_eq (ops : List Operand) :
    ∀ (g : DSGraph) (n : Nat),
      foldArguments ops (g, n)
        = (runOps (argFoldOps g.ScalarMap ops) g, n + argFoldCount g.ScalarMap ops) := by
  induction ops with
  | nil => intro g n; rfl
  | cons op ops ih =>
    intro g n
    simp only [foldArguments, argFoldOps, argFoldCount, runOps_append]
    by_cases hp : op.isPointerTy = true
    · cases hM : g.ScalarMap op.val with
      | none =>
        simp [hp, hM, DSGraph.hasNodeForValue, foldOps, runOps_nil, ih]
      | some a =>
        simp only [hp, hM, DSGraph.hasNodeForValue, DSGraph.getNodeForValue, Option.isSome_some,
          if_true, Bool.and_self]
        have hf : g.foldNodeCompletely (some a) = runOps (foldOps (some a)) g := rfl
        rw [hf, ih, runOps_map]
        simp [Nat.add_assoc]
    · simp [hp, runOps_nil, ih]

theorem collapseStep_eq (noStdLibFold : Bool) (A : libAction) (ci : Instruction)
    (g : DSGraph) (n : Nat) :
    collapseStep noStdLibFold A ci (g, n)
      = (runOps (collapseOps noStdLibFold A ci g.ScalarMap) g,
         n + collapseCount noStdLibFold A ci g.ScalarMap) := by
  unfold collapseStep collapseOps collapseCount
  by_cases hc : (!noStdLibFold && A.collapse) = true
  · simp only [hc, if_true, runOps_append]
    by_cases hp : ci.isPointerTy = true
    · cases hM : g.ScalarMap ci.self with
      | none =>
        simp [hp, hM, DSGraph.hasNodeForValue, foldOps, runOps_nil, foldArguments_eq,
          Nat.add_assoc]
      | some a =>
        simp only [hp, hM, DSGraph.hasNodeForValue, DSGraph.getNodeForValue, Option.isSome_some,
          if_true]
        have hf : g.foldNodeCompletely (some a) = runOps (foldOps (some a)) g := rfl
        rw [hf, foldArguments_eq, runOps_map]
        simp [Nat.add_assoc]
    · simp [hp, runOps_nil, foldArguments_eq]
  · simp [hc, runOps_nil]

theorem callBody_eq (oob : OutOfRange) (noStdLibFold : Bool) (A : libAction) (ci : Instruction)
    (g : DSGraph) (n : Nat) :
    callBody oob noStdLibFold A ci (g, n)
      = (runOps (bodyOps false oob noStdLibFold A ci g.ScalarMap) g,
         n + collapseCount noStdLibFold A ci g.ScalarMap) := by
  simp only [callBody, bodyOps, runOps_append, markResult_eq, markArguments_eq, mergeStep_eq,
    collapseStep_eq, runOps_map, Bool.false_eq_true, if_false]

theorem invokeBody_eq (oob : OutOfRange) (noStdLibFold : Bool) (A : libAction) (ci : Instruction)
    (g : DSGraph) (n : Nat) :
    invokeBody oob noStdLibFold A ci (g, n)
      = (runOps (bodyOps false oob noStdLibFold A ci g.ScalarMap) g,
         n + collapseCount noStdLibFold A ci g.ScalarMap) := by
  simp only [invokeBody, bodyOps, runOps_append, markResult_eq, markArguments_eq, mergeStep_eq,
    collapseStep_eq, runOps_map, Bool.false_eq_true, if_false]

theorem castCallBody_eq (oob : OutOfRange) (noStdLibFold : Bool) (A : libAction)
    (ci : Instruction) (g : DSGraph) (n : Nat) :
    castCallBody oob noStdLibFold A ci (g, n)
      = (runOps (bodyOps true oob noStdLibFold A ci g.ScalarMap) g,
         n + collapseCount noStdLibFold A ci g.ScalarMap) := by
  simp only [castCallBody, bodyOps, runOps_append, markResult_eq, markArgumentsCast_eq,
    mergeStep_eq, collapseStep_eq, runOps_map, if_true]

/-! ## Updates addressed to the graphs of the pass state -/

theorem runSOps_nil (D : Nat → DSGraph) : runSOps [] D = D := rfl

theorem runSOps_cons (o : SOp) (l : List SOp) (D : Nat → DSGraph) :
    runSOps (o :: l) D = runSOps l (o.run D) := rfl

theorem runSOps_append (l1 l2 : List SOp) (D : Nat → DSGraph) :
    runSOps (l1 ++ l2) D = runSOps l2 (runSOps l1 D) := by
  simp [runSOps, List.foldl_append]

theorem runSOps_atGraph (p : Nat) (l : List Op) :
    ∀ D : Nat → DSGraph,
      runSOps (atGraph p l) D = fun q => if q = p then runOps l (D p) else D q := by
  induction l with
  | nil =>
    intro D
    funext q
    by_cases hq : q = p
    · simp [atGraph, runSOps_nil, runOps_nil, hq]
    · simp [atGraph, runSOps_nil, hq]
  | cons o l ih =>
    intro D
    have hcons : atGraph p (o :: l) = (p, o) :: atGraph p l := rfl
    rw [hcons, runSOps_cons, ih]
    funext q
    by_cases hq : q = p
    · simp [hq, SOp.run, runOps_cons]
    · simp [hq, SOp.run]

theorem sop_run_le (o : SOp) (D : Nat → DSGraph) (p : Nat) : (D p).le (o.run D p) := by
  unfold SOp.run
  by_cases hq : p = o.1
  · simp only [hq, if_true]; exact Op.run_le o.2 (D o.1)
  · simp only [hq, if_false]; exact DSGraph.le_refl (D p)

theorem runSOps_le (l : List SOp) :
    ∀ (D : Nat → DSGraph) (p : Nat), (D p).le (runSOps l D p) := by
  induction l with
  | nil => intro D p; exact DSGraph.le_refl (D p)
  | cons o l ih =>
    intro D p
    exact DSGraph.le_trans (sop_run_le o D p) (ih (o.run D) p)

theorem scalarMaps_runSOps (l : List SOp) (D : Nat → DSGraph) :
    scalarMaps (runSOps l D) = scalarMaps D := by
  funext p
  exact (runSOps_le l D p).map

theorem sop_post_run (o : SOp) (D : Nat → DSGraph) : o.2.post (o.run D o.1) := by
  simp only [SOp.run, if_true]
  exact Op.post_run o.2 (D o.1)

/-- Every update of a list that was run has its effect in the result. -/
theorem post_runSOps (l : List SOp) :
    ∀ (D : Nat → DSGraph) (o : SOp), o ∈ l → o.2.post (runSOps l D o.1) := by
  induction l with
  | nil => intro D o ho; cases ho
  | cons o1 l ih =>
    intro D o ho
    rw [runSOps_cons]
    rcases List.mem_cons.1 ho with h | h
    · subst h
      exact Op.post_le o.2 (runSOps_le l (o.run D) o.1) (sop_post_run o D)
    · exact ih (o1.run D) o h

/-- A list of updates whose effects are all present changes nothing. -/
theorem runSOps_of_post (l : List SOp) :
    ∀ D : Nat → DSGraph, (∀ o ∈ l, o.2.post (D o.1)) → runSOps l D = D := by
  induction l with
  | nil => intro D _; rfl
  | cons o l ih =>
    intro D h
    have ho : o.run D = D := by
      funext q
      unfold SOp.run
      by_cases hq : q = o.1
      · simp only [hq, if_true]
        exact Op.run_of_post o.2 (h o (List.mem_cons_self o l))
      · simp only [hq, if_false]
    rw [runSOps_cons, ho]
    exact ih D (fun o2 h2 => h o2 (List.mem_cons_of_mem o h2))

theorem runSOps_idem (l : List SOp) (D : Nat → DSGraph) :
    runSOps l (runSOps l D) = runSOps l D :=
  runSOps_of_post l (runSOps l D) (fun o ho => post_runSOps l D o ho)

theorem onGraphOf_call (oob : OutOfRange) (noStdLibFold : Bool) (A : libAction)
    (ci : Instruction) (s : PassState) :
    (s.onGraphOf ci (callBody oob noStdLibFold A ci)).DSInfo
        = runSOps (atGraph ci.parent
            (bodyOps false oob noStdLibFold A ci (scalarMaps s.DSInfo ci.parent))) s.DSInfo ∧
    (s.onGraphOf ci (callBody oob noStdLibFold A ci)).NumNodesFoldedInStdLib
        = s.NumNodesFoldedInStdLib
          + collapseCount noStdLibFold A ci (scalarMaps s.DSInfo ci.parent) := by
  simp [PassState.onGraphOf, PassState.getDSGraph, callBody_eq, runSOps_atGraph, scalarMaps]

theorem onGraphOf_invoke (oob : OutOfRange) (noStdLibFold : Bool) (A : libAction)
    (ci : Instruction) (s : PassState) :
    (s.onGraphOf ci (invokeBody oob noStdLibFold A ci)).DSInfo
        = runSOps (atGraph ci.parent
            (bodyOps false oob noStdLibFold A ci (scalarMaps s.DSInfo ci.parent))) s.DSInfo ∧
    (s.onGraphOf ci (invokeBody oob noStdLibFold A ci)).NumNodesFoldedInStdLib
        = s.NumNodesFoldedInStdLib
          + collapseCount noStdLibFold A ci (scalarMaps s.DSInfo ci.parent) := by
  simp [PassState.onGraphOf, PassState.getDSGraph, invokeBody_eq, runSOps_atGraph, scalarMaps]

theorem onGraphOf_cast (oob : OutOfRange) (noStdLibFold : Bool) (A : libAction)
    (ci : Instruction) (s : PassState) :
    (s.onGraphOf ci (castCallBody oob noStdLibFold A ci)).DSInfo
        = runSOps (atGraph ci.parent
            (bodyOps true oob noStdLibFold A ci (scalarMaps s.DSInfo ci.parent))) s.DSInfo ∧
    (s.onGraphOf ci (castCallBody oob noStdLibFold A ci)).NumNodesFoldedInStdLib
        = s.NumNodesFoldedInStdLib
          + collapseCount noStdLibFold A ci (scalarMaps s.DSInfo ci.parent) := by
  simp [PassState.onGraphOf, PassState.getDSGraph, castCallBody_eq, runSOps_atGraph, scalarMaps]

/-- A step function that runs a list of updates determined by the scalar
maps, folded over a list, runs the concatenation of the lists. -/
theorem foldl_steps {α : Type} (step : PassState → α → PassState)
    (ops : (Nat → Value → DSNodeHandle) → α → List SOp)
    (cnt : (Nat → Value → DSNodeHandle) → α → Nat)
    (hstep : ∀ s u, (step s u).DSInfo = runSOps (ops (scalarMaps s.DSInfo) u) s.DSInfo ∧
      (step s u).NumNodesFoldedInStdLib
        = s.NumNodesFoldedInStdLib + cnt (scalarMaps s.DSInfo) u)
    (l : List α) :
    ∀ s : PassState,
      (l.foldl step s).DSInfo
          = runSOps ((l.map (ops (scalarMaps s.DSInfo))).flatten) s.DSInfo ∧
      (l.foldl step s).NumNodesFoldedInStdLib
          = s.NumNodesFoldedInStdLib + (l.map (cnt (scalarMaps s.DSInfo))).sum := by
  induction l with
  | nil => intro s; exact ⟨rfl, rfl⟩
  | cons u l ih =>
    intro s
    have h1 := hstep s u
    have h2 := ih (step s u)
    have hM : scalarMaps (step s u).DSInfo = scalarMaps s.DSInfo := by
      rw [h1.1, scalarMaps_runSOps]
    simp only [List.foldl_cons, List.map_cons, List.flatten_cons, List.sum_cons, runSOps_append]
    rw [h2.1, h2.2, hM, h1.1, h1.2]
    exact ⟨rfl, by omega⟩

theorem processCEUser_eq (oob : OutOfRange) (noStdLibFold : Bool) (A : libAction) (ce : Value)
    (s : PassState) (u : CEUser) :
    (processCEUser oob noStdLibFold A ce s u).DSInfo
        = runSOps (ceUserOps oob noStdLibFold A ce (scalarMaps s.DSInfo) u) s.DSInfo ∧
    (processCEUser oob noStdLibFold A ce s u).NumNodesFoldedInStdLib
        = s.NumNodesFoldedInStdLib + ceUserCount noStdLibFold A ce (scalarMaps s.DSInfo) u := by
  cases u with
  | callInst ci =>
    by_cases h0 : ci.operand0Is ce = true
    · simp only [processCEUser, ceUserOps, ceUserCount, h0, if_true]
      exact onGraphOf_cast oob noStdLibFold A ci s
    · simp [processCEUser, ceUserOps, ceUserCount, h0, runSOps_nil]
  | other => exact ⟨rfl, rfl⟩

theorem processUser_eq (oob : OutOfRange) (noStdLibFold : Bool) (A : libAction) (F : Function)
    (s : PassState) (u : User) :
    (processUser oob noStdLibFold A F s u).DSInfo
        = runSOps (userOps oob noStdLibFold A F (scalarMaps s.DSInfo) u) s.DSInfo ∧
    (processUser oob noStdLibFold A F s u).NumNodesFoldedInStdLib
        = s.NumNodesFoldedInStdLib + userCount noStdLibFold A F (scalarMaps s.DSInfo) u := by
  cases u with
  | callInst ci =>
    by_cases h0 : ci.operand0Is F.self = true
    · simp only [processUser, userOps, userCount, h0, if_true]
      exact onGraphOf_call oob noStdLibFold A ci s
    · simp [processUser, userOps, userCount, h0, runSOps_nil]
  | invokeInst ci =>
    by_cases h0 : ci.operand0Is F.self = true
    · simp only [processUser, userOps, userCount, h0, if_true]
      exact onGraphOf_invoke oob noStdLibFold A ci s
    · simp [processUser, userOps, userCount, h0, runSOps_nil]
  | constantExpr ce isCast uses =>
    by_cases hc : isCast = true
    · simp only [processUser, userOps, userCount, hc, if_true]
      exact foldl_steps (processCEUser oob noStdLibFold A ce)
        (fun MM => ceUserOps oob noStdLibFold A ce MM)
        (fun MM => ceUserCount noStdLibFold A ce MM)
        (processCEUser_eq oob noStdLibFold A ce) uses s
    · simp [processUser, userOps, userCount, hc, runSOps_nil]
  | other => exact ⟨rfl, rfl⟩

theorem removeCallsIn_eq (s : PassState) (ci : Instruction) (f : Value) :
    (s.removeCallsIn ci f).DSInfo = runSOps [(ci.parent, Op.erase f)] s.DSInfo ∧
    (s.removeCallsIn ci f).NumNodesFoldedInStdLib = s.NumNodesFoldedInStdLib + 0 := by
  refine ⟨?_, rfl⟩
  funext q
  by_cases hq : q = ci.parent
  · simp [PassState.removeCallsIn, PassState.setDSGraph, PassState.getDSGraph, runSOps,
      SOp.run, Op.run, hq]
  · simp [PassState.removeCallsIn, PassState.setDSGraph, PassState.getDSGraph, runSOps,
      SOp.run, Op.run, hq]

theorem eraseCEUser_eq (F : Function) (ce : Value) (s : PassState) (u : CEUser) :
    (eraseCEUser F ce s u).DSInfo = runSOps (eraseCEUserOps F ce u) s.DSInfo ∧
    (eraseCEUser F ce s u).NumNodesFoldedInStdLib = s.NumNodesFoldedInStdLib + 0 := by
  cases u with
  | callInst ci =>
    by_cases h0 : ci.operand0Is ce = true
    · simp only [eraseCEUser, eraseCEUserOps, h0, if_true]
      exact removeCallsIn_eq s ci F.self
    · simp [eraseCEUser, eraseCEUserOps, h0, runSOps_nil]
  | other => exact ⟨rfl, rfl⟩

theorem eraseUser_eq (F : Function) (s : PassState) (u : User) :
    (eraseUser F s u).DSInfo = runSOps (eraseUserOps F u) s.DSInfo ∧
    (eraseUser F s u).NumNodesFoldedInStdLib = s.NumNodesFoldedInStdLib + 0 := by
  cases u with
  | callInst ci =>
    by_cases h0 : ci.operand0Is F.self = true
    · simp only [eraseUser, eraseUserOps, h0, if_true]
      exact removeCallsIn_eq s ci F.self
    · simp [eraseUser, eraseUserOps, h0, runSOps_nil]
  | invokeInst ci =>
    by_cases h0 : ci.operand0Is F.self = true
    · simp only [eraseUser, eraseUserOps, h0, if_true]
      exact removeCallsIn_eq s ci F.self
    · simp [eraseUser, eraseUserOps, h0, runSOps_nil]
  | constantExpr ce isCast uses =>
    by_cases hc : isCast = true
    · simp only [eraseUser, eraseUserOps, hc, if_true]
      have h := foldl_steps (eraseCEUser F ce) (fun _ => eraseCEUserOps F ce) (fun _ _ => 0)
        (eraseCEUser_eq F ce) uses s
      simpa using h
    · simp [eraseUser, eraseUserOps, hc, runSOps_nil]
  | other => exact ⟨rfl, rfl⟩

theorem eraseCallsTo_eq (F : Function) (s : PassState) :
    (eraseCallsTo F s).DSInfo = runSOps ((F.uses.map (eraseUserOps F)).flatten) s.DSInfo ∧
    (eraseCallsTo F s).NumNodesFoldedInStdLib = s.NumNodesFoldedInStdLib := by
  have h := foldl_steps (eraseUser F) (fun _ => eraseUserOps F) (fun _ _ => 0)
    (eraseUser_eq F) F.uses s
  simpa [eraseCallsTo] using h

/-- The graphs after `processFunction` are the graphs before with the
updates of `functionOps` run, and the statistic has grown by
`functionCount`. -/
theorem processFunction_eq (oob : OutOfRange) (noStdLibFold : Bool) (x : Nat) (F : Function)
    (s : PassState) :
    (processFunction oob noStdLibFold x F s).DSInfo
        = runSOps (functionOps oob noStdLibFold (action x) F (scalarMaps s.DSInfo)) s.DSInfo ∧
    (processFunction oob noStdLibFold x F s).NumNodesFoldedInStdLib
        = s.NumNodesFoldedInStdLib
          + functionCount noStdLibFold (action x) F (scalarMaps s.DSInfo) := by
  have h1 := foldl_steps (processUser oob noStdLibFold (action x) F)
    (fun MM => userOps oob noStdLibFold (action x) F MM)
    (fun MM => userCount noStdLibFold (action x) F MM)
    (processUser_eq oob noStdLibFold (action x) F) F.uses s
  have h2 := eraseCallsTo_eq F (F.uses.foldl (processUser oob noStdLibFold (action x) F) s)
  unfold processFunction functionOps functionCount
  rw [h2.1, h2.2, h1.1, h1.2, runSOps_append]
  exact ⟨rfl, rfl⟩

/-! ## Which updates a branch body consists of -/

theorem tail_getElem? (l : List Operand) (j : Nat) : l.tail[j]? = l[j + 1]? := by
  cases l with
  | nil => simp
  | cons a l => simp

theorem mem_slotOps (oob : OutOfRange) (A : libAction) (y : Nat) (h : DSNodeHandle)
    (o : Op) :
    o ∈ slotOps oob A y h ↔
      ∃ m a, o = Op.mark m a ∧ h = some a ∧ markerFlag oob A m y = true := by
  cases h with
  | none => simp [slotOps]
  | some b =>
    simp only [slotOps, List.mem_append]
    constructor
    · intro ho
      rcases ho with ho | ho | ho
      · by_cases hf : slot A.read oob.read y = true
        · simp only [hf, if_true, List.mem_singleton] at ho
          exact ⟨.read, b, ho, rfl, hf⟩
        · simp [hf] at ho
      · by_cases hf : slot A.write oob.write y = true
        · simp only [hf, if_true, List.mem_singleton] at ho
          exact ⟨.modified, b, ho, rfl, hf⟩
        · simp [hf] at ho
      · by_cases hf : slot A.heap oob.heap y = true
        · simp only [hf, if_true, List.mem_singleton] at ho
          exact ⟨.heap, b, ho, rfl, hf⟩
        · simp [hf] at ho
    · rintro ⟨m, a, rfl, hb, hf⟩
      cases hb
      cases m with
      | read => left; simp only [markerFlag] at hf; simp [hf]
      | modified => right; left; simp only [markerFlag] at hf; simp [hf]
      | heap => right; right; simp only [markerFlag] at hf; simp [hf]
      | folded => simp [markerFlag] at hf

theorem mem_argMarkOps (oob : OutOfRange) (A : libAction) (M : Value → DSNodeHandle)
    (ops : List Operand) (o : Op) :
    ∀ y : Nat, o ∈ argMarkOps oob A M y ops ↔
      ∃ j op m a, ops[j]? = some op ∧ op.isPointerTy = true ∧ M op.val = some a ∧
        o = Op.mark m a ∧ markerFlag oob A m (y + j) = true := by
  induction ops with
  | nil => intro y; simp [argMarkOps]
  | cons op1 ops ih =>
    intro y
    simp only [argMarkOps, List.mem_append, ih]
    constructor
    · rintro (h | ⟨j, op, m, a, hj, hp, hM, ho, hf⟩)
      · by_cases hp : op1.isPointerTy = true
        · simp only [hp, if_true, mem_slotOps] at h
          obtain ⟨m, a, ho, hM, hf⟩ := h
          exact ⟨0, op1, m, a, by simp, hp, hM, ho, by simpa using hf⟩
        · simp [hp] at h
      · refine ⟨j + 1, op, m, a, by simpa using hj, hp, hM, ho, ?_⟩
        have : y + (j + 1) = y + 1 + j := by omega
        rw [this]; exact hf
    · rintro ⟨j, op, m, a, hj, hp, hM, ho, hf⟩
      cases j with
      | zero =>
        left
        simp only [List.getElem?_cons_zero, Option.some.injEq] at hj
        subst hj
        simp only [hp, if_true, mem_slotOps]
        exact ⟨m, a, ho, hM, by simpa using hf⟩
      | succ j =>
        right
        refine ⟨j, op, m, a, by simpa using hj, hp, hM, ho, ?_⟩
        have : y + 1 + j = y + (j + 1) := by omega
        rw [this]; exact hf

theorem mem_castSlotOps (h : DSNodeHandle) (o : Op) :
    o ∈ castSlotOps h ↔ ∃ m a, o = Op.mark m a ∧ h = some a ∧ m ≠ Marker.folded := by
  cases h with
  | none => simp [castSlotOps]
  | some b =>
    simp only [castSlotOps, List.mem_cons, List.mem_singleton, List.mem_nil_iff, or_false]
    constructor
    · rintro (h | h | h)
      · exact ⟨.read, b, h, rfl, by decide⟩
      · exact ⟨.modified, b, h, rfl, by decide⟩
      · exact ⟨.heap, b, h, rfl, by decide⟩
    · rintro ⟨m, a, rfl, hb, hm⟩
      cases hb
      cases m with
      | read => simp
      | modified => simp
      | heap => simp
      | folded => exact absurd rfl hm

theorem mem_argMarkOpsCast (oob : OutOfRange) (A : libAction) (M : Value → DSNodeHandle)
    (ops : List Operand) (o : Op) :
    ∀ y : Nat, o ∈ argMarkOpsCast oob A M y ops ↔
      ∃ j op m a, ops[j]? = some op ∧ op.isPointerTy = true ∧ M op.val = some a ∧
        o = Op.mark m a ∧ m ≠ Marker.folded ∧ slot A.read oob.read (y + j) = true := by
  induction ops with
  | nil => intro y; simp [argMarkOpsCast]
  | cons op1 ops ih =>
    intro y
    simp only [argMarkOpsCast, List.mem_append, ih]
    constructor
    · rintro (h | ⟨j, op, m, a, hj, hp, hM, ho, hm, hf⟩)
      · by_cases hr : slot A.read oob.read y = true
        · by_cases hp : op1.isPointerTy = true
          · simp only [hr, hp, if_true, mem_castSlotOps] at h
            obtain ⟨m, a, ho, hM, hm⟩ := h
            exact ⟨0, op1, m, a, by simp, hp, hM, ho, hm, by simpa using hr⟩
          · simp [hp] at h
        · simp [hr] at h
      · refine ⟨j + 1, op, m, a, by simpa using hj, hp, hM, ho, hm, ?_⟩
        have : y + (j + 1) = y + 1 + j := by omega
        rw [this]; exact hf
    · rintro ⟨j, op, m, a, hj, hp, hM, ho, hm, hf⟩
      cases j with
      | zero =>
        left
        simp only [List.getElem?_cons_zero, Option.some.injEq] at hj
        subst hj
        have hf0 : slot A.read oob.read y = true := by simpa using hf
        simp only [hf0, hp, if_true, mem_castSlotOps]
        exact ⟨m, a, ho, hM, hm⟩
      | succ j =>
        right
        refine ⟨j, op, m, a, by simpa using hj, hp, hM, ho, hm, ?_⟩
        have : y + 1 + j = y + (j + 1) := by omega
        rw [this]; exact hf

theorem mem_toMergeArgs (oob : OutOfRange) (A : libAction) (M : Value → DSNodeHandle)
    (ops : List Operand) (a : Nat) :
    ∀ y : Nat, a ∈ toMergeArgs oob A M y ops ↔
      ∃ j op, ops[j]? = some op ∧ op.isPointerTy = true ∧ M op.val = some a ∧
        slot A.mergeNodes oob.mergeNodes (y + j) = true := by
  induction ops with
  | nil => intro y; simp [toMergeArgs]
  | cons op1 ops ih =>
    intro y
    simp only [toMergeArgs, List.mem_append, ih]
    constructor
    · rintro (h | ⟨j, op, hj, hp, hM, hf⟩)
      · by_cases hr : slot A.mergeNodes oob.mergeNodes y = true
        · by_cases hp : op1.isPointerTy = true
          · simp only [hr, hp, if_true, Option.mem_toList, Option.mem_def] at h
            exact ⟨0, op1, by simp, hp, h, by simpa using hr⟩
          · simp [hp] at h
        · simp [hr] at h
      · refine ⟨j + 1, op, by simpa using hj, hp, hM, ?_⟩
        have : y + (j + 1) = y + 1 + j := by omega
        rw [this]; exact hf
    · rintro ⟨j, op, hj, hp, hM, hf⟩
      cases j with
      | zero =>
        left
        simp only [List.getElem?_cons_zero, Option.some.injEq] at hj
        subst hj
        have hf0 : slot A.mergeNodes oob.mergeNodes y = true := by simpa using hf
        simp [hf0, hp, hM]
      | succ j =>
        right
        refine ⟨j, op, by simpa using hj, hp, hM, ?_⟩
        have : y + 1 + j = y + (j + 1) := by omega
        rw [this]; exact hf

theorem mem_argFoldOps (M : Value → DSNodeHandle) (ops : List Operand) (o : Op) :
    o ∈ argFoldOps M ops ↔
      ∃ (j : Nat) (op : Operand) (a : Nat), ops[j]? = some op ∧ op.isPointerTy = true ∧
        M op.val = some a ∧ o = Op.mark .folded a := by
  induction ops with
  | nil => simp [argFoldOps]
  | cons op1 ops ih =>
    simp only [argFoldOps, List.mem_append, ih]
    constructor
    · rintro (h | ⟨j, op, a, hj, hp, hM, ho⟩)
      · by_cases hp : op1.isPointerTy = true
        · cases hM : M op1.val with
          | none => simp [hp, hM, foldOps] at h
          | some a =>
            simp only [hp, hM, foldOps, if_true, List.mem_singleton] at h
            exact ⟨0, op1, a, by simp, hp, hM, h⟩
        · simp [hp] at h
      · exact ⟨j + 1, op, a, by simpa using hj, hp, hM, ho⟩
    · rintro ⟨j, op, a, hj, hp, hM, ho⟩
      cases j with
      | zero =>
        left
        simp only [List.getElem?_cons_zero, Option.some.injEq] at hj
        subst hj
        simp [hp, hM, foldOps, ho]
      | succ j =>
        right
        exact ⟨j, op, a, by simpa using hj, hp, hM, ho⟩

/-! ## Updates in terms of the slots of a call -/

theorem pointerSlot_zero (M : Value → DSNodeHandle) (ci : Instruction) (a : Nat) :
    PointerSlot M ci 0 a ↔ ci.isPointerTy = true ∧ M ci.self = some a := by
  constructor
  · rintro ⟨op, hop, hp, hM⟩
    simp only [slotValue, if_true, Option.some.injEq] at hop
    subst hop
    exact ⟨hp, hM⟩
  · rintro ⟨hp, hM⟩
    exact ⟨⟨ci.self, ci.isPointerTy⟩, by simp [slotValue], hp, hM⟩

theorem pointerSlot_succ (M : Value → DSNodeHandle) (ci : Instruction) (j a : Nat) :
    PointerSlot M ci (j + 1) a ↔
      ∃ op, ci.operands.tail[j]? = some op ∧ op.isPointerTy = true ∧ M op.val = some a := by
  simp [PointerSlot, slotValue, tail_getElem?]

theorem mark_mem_bodyOps (oob : OutOfRange) (noStdLibFold : Bool) (A : libAction)
    (ci : Instruction) (M : Value → DSNodeHandle) (i a : Nat) (m : Marker)
    (hs : PointerSlot M ci i a) (hf : markerFlag oob A m i = true) :
    Op.mark m a ∈ bodyOps false oob noStdLibFold A ci M := by
  cases i with
  | zero =>
    obtain ⟨hp, hM⟩ := (pointerSlot_zero M ci a).1 hs
    simp only [bodyOps, List.mem_append]
    left
    simp only [resultMarkOps, hp, if_true, mem_slotOps]
    exact ⟨m, a, rfl, hM, hf⟩
  | succ j =>
    obtain ⟨op, hj, hp, hM⟩ := (pointerSlot_succ M ci j a).1 hs
    simp only [bodyOps, List.mem_append, Bool.false_eq_true, if_false]
    right; left
    rw [mem_argMarkOps]
    refine ⟨j, op, m, a, hj, hp, hM, rfl, ?_⟩
    have : 1 + j = j + 1 := by omega
    rw [this]; exact hf

theorem mark_mem_bodyOps_cast_result (oob : OutOfRange) (noStdLibFold : Bool) (A : libAction)
    (ci : Instruction) (M : Value → DSNodeHandle) (a : Nat) (m : Marker)
    (hs : PointerSlot M ci 0 a) (hf : markerFlag oob A m 0 = true) :
    Op.mark m a ∈ bodyOps true oob noStdLibFold A ci M := by
  obtain ⟨hp, hM⟩ := (pointerSlot_zero M ci a).1 hs
  simp only [bodyOps, List.mem_append]
  left
  simp only [resultMarkOps, hp, if_true, mem_slotOps]
  exact ⟨m, a, rfl, hM, hf⟩

theorem mark_mem_bodyOps_cast_arg (oob : OutOfRange) (noStdLibFold : Bool) (A : libAction)
    (ci : Instruction) (M : Value → DSNodeHandle) (j a : Nat) (m : Marker)
    (hs : PointerSlot M ci (j + 1) a) (hm : m ≠ Marker.folded)
    (hf : slot A.read oob.read (j + 1) = true) :
    Op.mark m a ∈ bodyOps true oob noStdLibFold A ci M := by
  obtain ⟨op, hj, hp, hM⟩ := (pointerSlot_succ M ci j a).1 hs
  simp only [bodyOps, List.mem_append, if_true]
  right; left
  rw [mem_argMarkOpsCast]
  refine ⟨j, op, m, a, hj, hp, hM, rfl, hm, ?_⟩
  have : 1 + j = j + 1 := by omega
  rw [this]; exact hf

theorem fold_mem_bodyOps (cast : Bool) (oob : OutOfRange) (A : libAction)
    (ci : Instruction) (M : Value → DSNodeHandle) (i a : Nat)
    (hc : A.collapse = true) (hs : PointerSlot M ci i a) :
    Op.mark .folded a ∈ bodyOps cast oob false A ci M := by
  simp only [bodyOps, List.mem_append]
  right; right; right
  simp only [collapseOps, hc, Bool.not_false, Bool.and_self, if_true, List.mem_append]
  cases i with
  | zero =>
    obtain ⟨hp, hM⟩ := (pointerSlot_zero M ci a).1 hs
    left
    simp [hp, hM, foldOps]
  | succ j =>
    obtain ⟨op, hj, hp, hM⟩ := (pointerSlot_succ M ci j a).1 hs
    right
    rw [mem_argFoldOps]
    exact ⟨j, op, a, hj, hp, hM, rfl⟩

theorem mem_toMergeList (oob : OutOfRange) (A : libAction) (ci : Instruction)
    (M : Value → DSNodeHandle) (a : Nat) :
    a ∈ toMergeList oob A ci M ↔
      ∃ i, slot A.mergeNodes oob.mergeNodes i = true ∧ PointerSlot M ci i a := by
  simp only [toMergeList, List.mem_append, mem_toMergeArgs]
  constructor
  · rintro (h | ⟨j, op, hj, hp, hM, hf⟩)
    · by_cases hr : slot A.mergeNodes oob.mergeNodes 0 = true
      · by_cases hp : ci.isPointerTy = true
        · simp only [hr, hp, if_true, Option.mem_toList, Option.mem_def] at h
          exact ⟨0, hr, (pointerSlot_zero M ci a).2 ⟨hp, h⟩⟩
        · simp [hp] at h
      · simp [hr] at h
    · refine ⟨j + 1, ?_, (pointerSlot_succ M ci j a).2 ⟨op, hj, hp, hM⟩⟩
      have : j + 1 = 1 + j := by omega
      rw [this]; exact hf
  · rintro ⟨i, hf, hs⟩
    cases i with
    | zero =>
      obtain ⟨hp, hM⟩ := (pointerSlot_zero M ci a).1 hs
      left
      simp [hf, hp, hM]
    | succ j =>
      obtain ⟨op, hj, hp, hM⟩ := (pointerSlot_succ M ci j a).1 hs
      right
      refine ⟨j, op, hj, hp, hM, ?_⟩
      have : 1 + j = j + 1 := by omega
      rw [this]; exact hf

theorem mergeOps_sub_bodyOps (cast : Bool) (oob : OutOfRange) (noStdLibFold : Bool)
    (A : libAction) (ci : Instruction) (M : Value → DSNodeHandle) (o : Op)
    (ho : o ∈ mergeOps (toMergeList oob A ci M)) :
    o ∈ bodyOps cast oob noStdLibFold A ci M := by
  simp only [bodyOps, List.mem_append]
  right; right; left
  exact ho

/-- When all merges of `mergeOps l` have their effect, all handles of
`l` denote one node. -/
theorem sameNode_of_mergeOps (l : List Nat) (g : DSGraph)
    (hpost : ∀ o ∈ mergeOps l, o.post g) (a b : Nat) (ha : a ∈ l) (hb : b ∈ l) :
    g.forward a = g.forward b := by
  cases l with
  | nil => cases ha
  | cons h0 rest =>
    have key : ∀ c, c ∈ h0 :: rest → g.forward h0 = g.forward c := by
      intro c hc
      rcases List.mem_cons.1 hc with h | h
      · rw [h]
      · exact hpost (Op.merge h0 c) (by simp only [mergeOps, List.mem_map]; exact ⟨c, h, rfl⟩)
    rw [← key a ha, ← key b hb]

theorem mem_atGraph (p : Nat) (l : List Op) (o : SOp) :
    o ∈ atGraph p l ↔ o.1 = p ∧ o.2 ∈ l := by
  simp only [atGraph, List.mem_map]
  constructor
  · rintro ⟨o2, h2, rfl⟩
    exact ⟨rfl, h2⟩
  · rintro ⟨h1, h2⟩
    exact ⟨o.2, h2, by rw [← h1]⟩

/-- The updates of a matched call site are among those of
`processFunction`: those of its branch body and the removal of the calls to
`F` from the graph of its function. -/
theorem matched_ops (oob : OutOfRange) (noStdLibFold : Bool) (A : libAction) (F : Function)
    (MM : Nat → Value → DSNodeHandle) (ci : Instruction) (hm : Matched F ci) :
    (∃ cast, ∀ o ∈ bodyOps cast oob noStdLibFold A ci (MM ci.parent),
        (ci.parent, o) ∈ functionOps oob noStdLibFold A F MM) ∧
    (ci.parent, Op.erase F.self) ∈ functionOps oob noStdLibFold A F MM := by
  simp only [functionOps, List.mem_append, List.mem_flatten, List.mem_map]
  rcases hm with ⟨hu, h0⟩ | ⟨hu, h0⟩ | ⟨ce, uses, hu, hcu, h0⟩
  · refine ⟨⟨false, fun o ho => Or.inl ⟨_, ⟨_, hu, rfl⟩, ?_⟩⟩, Or.inr ⟨_, ⟨_, hu, rfl⟩, ?_⟩⟩
    · simp only [userOps, h0, if_true, mem_atGraph]
      exact ⟨trivial, ho⟩
    · simp [eraseUserOps, h0]
  · refine ⟨⟨false, fun o ho => Or.inl ⟨_, ⟨_, hu, rfl⟩, ?_⟩⟩, Or.inr ⟨_, ⟨_, hu, rfl⟩, ?_⟩⟩
    · simp only [userOps, h0, if_true, mem_atGraph]
      exact ⟨trivial, ho⟩
    · simp [eraseUserOps, h0]
  · refine ⟨⟨true, fun o ho => Or.inl ⟨_, ⟨_, hu, rfl⟩, ?_⟩⟩, Or.inr ⟨_, ⟨_, hu, rfl⟩, ?_⟩⟩
    · simp only [userOps, if_true, List.mem_flatten, List.mem_map]
      refine ⟨_, ⟨_, hcu, rfl⟩, ?_⟩
      simp only [ceUserOps, h0, if_true, mem_atGraph]
      exact ⟨trivial, ho⟩
    · simp only [eraseUserOps, if_true, List.mem_flatten, List.mem_map]
      refine ⟨_, ⟨_, hcu, rfl⟩, ?_⟩
      simp [eraseCEUserOps, h0]

/-- A direct call of `F` in its use list runs the updates of the direct
branch body. -/
theorem direct_call_ops (oob : OutOfRange) (noStdLibFold : Bool) (A : libAction) (F : Function)
    (MM : Nat → Value → DSNodeHandle) (ci : Instruction)
    (hu : User.callInst ci ∈ F.uses) (h0 : ci.operand0Is F.self = true) (o : Op)
    (ho : o ∈ bodyOps false oob noStdLibFold A ci (MM ci.parent)) :
    (ci.parent, o) ∈ functionOps oob noStdLibFold A F MM := by
  simp only [functionOps, List.mem_append, List.mem_flatten, List.mem_map]
  refine Or.inl ⟨_, ⟨_, hu, rfl⟩, ?_⟩
  simp only [userOps, h0, if_true, mem_atGraph]
  exact ⟨trivial, ho⟩

/-- Every update of `processFunction` has its effect in the final graphs. -/
theorem post_processFunction (oob : OutOfRange) (noStdLibFold : Bool) (x : Nat) (F : Function)
    (s : PassState) (o : SOp)
    (ho : o ∈ functionOps oob noStdLibFold (action x) F (scalarMaps s.DSInfo)) :
    o.2.post ((processFunction oob noStdLibFold x F s).DSInfo o.1) := by
  rw [(processFunction_eq oob noStdLibFold x F s).1]
  exact post_runSOps _ s.DSInfo o ho

theorem processFunction_le (oob : OutOfRange) (noStdLibFold : Bool) (x : Nat) (F : Function)
    (s : PassState) (p : Nat) :
    (s.DSInfo p).le ((processFunction oob noStdLibFold x F s).DSInfo p) := by
  rw [(processFunction_eq oob noStdLibFold x F s).1]
  exact runSOps_le _ s.DSInfo p

/-! ## What holds in the graphs after `processFunction` -/

theorem final_marker_direct (oob : OutOfRange) (noStdLibFold : Bool) (x : Nat) (F : Function)
    (s : PassState) (ci : Instruction)
    (hu : User.callInst ci ∈ F.uses) (h0 : ci.operand0Is F.self = true)
    (i a : Nat) (m : Marker)
    (hs : PointerSlot (s.DSInfo ci.parent).ScalarMap ci i a)
    (hf : markerFlag oob (action x) m i = true) :
    ((processFunction oob noStdLibFold x F s).DSInfo ci.parent).carries a m = true :=
  post_processFunction oob noStdLibFold x F s (ci.parent, Op.mark m a)
    (direct_call_ops oob noStdLibFold (action x) F (scalarMaps s.DSInfo) ci hu h0 _
      (mark_mem_bodyOps oob noStdLibFold (action x) ci _ i a m hs hf))

theorem final_merged (oob : OutOfRange) (noStdLibFold : Bool) (x : Nat) (F : Function)
    (s : PassState) (ci : Instruction) (hm : Matched F ci) (i j a b : Nat)
    (hi : slot (action x).mergeNodes oob.mergeNodes i = true)
    (hj : slot (action x).mergeNodes oob.mergeNodes j = true)
    (ha : PointerSlot (s.DSInfo ci.parent).ScalarMap ci i a)
    (hb : PointerSlot (s.DSInfo ci.parent).ScalarMap ci j b) :
    ((processFunction oob noStdLibFold x F s).DSInfo ci.parent).forward a
      = ((processFunction oob noStdLibFold x F s).DSInfo ci.parent).forward b := by
  obtain ⟨⟨cast, hsub⟩, _⟩ :=
    matched_ops oob noStdLibFold (action x) F (scalarMaps s.DSInfo) ci hm
  apply sameNode_of_mergeOps (toMergeList oob (action x) ci (scalarMaps s.DSInfo ci.parent))
  · intro o ho
    exact post_processFunction oob noStdLibFold x F s (ci.parent, o)
      (hsub o (mergeOps_sub_bodyOps cast oob noStdLibFold (action x) ci _ o ho))
  · exact (mem_toMergeList oob (action x) ci _ a).2 ⟨i, hi, ha⟩
  · exact (mem_toMergeList oob (action x) ci _ b).2 ⟨j, hj, hb⟩

theorem final_folded (oob : OutOfRange) (x : Nat) (F : Function)
    (s : PassState) (ci : Instruction) (hm : Matched F ci) (i a : Nat)
    (hc : (action x).collapse = true)
    (ha : PointerSlot (s.DSInfo ci.parent).ScalarMap ci i a) :
    ((processFunction oob false x F s).DSInfo ci.parent).carries a .folded = true := by
  obtain ⟨⟨cast, hsub⟩, _⟩ := matched_ops oob false (action x) F (scalarMaps s.DSInfo) ci hm
  exact post_processFunction oob false x F s (ci.parent, Op.mark .folded a)
    (hsub _ (fold_mem_bodyOps cast oob (action x) ci _ i a hc ha))

theorem final_erased (oob : OutOfRange) (noStdLibFold : Bool) (x : Nat) (F : Function)
    (s : PassState) (ci : Instruction) (hm : Matched F ci) :
    ∀ cs ∈ ((processFunction oob noStdLibFold x F s).DSInfo ci.parent).FunctionCalls,
      cs.callee ≠ some F.self :=
  post_processFunction oob noStdLibFold x F s (ci.parent, Op.erase F.self)
    (matched_ops oob noStdLibFold (action x) F (scalarMaps s.DSInfo) ci hm).2

theorem final_scalarMap (oob : OutOfRange) (noStdLibFold : Bool) (x : Nat) (F : Function)
    (s : PassState) (p : Nat) :
    ((processFunction oob noStdLibFold x F s).DSInfo p).ScalarMap = (s.DSInfo p).ScalarMap :=
  (processFunction_le oob noStdLibFold x F s p).map

/-! ## Entries of the table -/

set_option maxRecDepth 8000 in
theorem name_at_75 : (recFuncs[75]?).map RecFunc.name = some (some "strcpy") := by rfl

set_option maxRecDepth 8000 in
theorem action_at_75 :
    action 75 = libAction.mk NRET_YARGS YRET_YARGS NRET_NARGS YRET_YARGS true := by rfl

theorem flags_at_75 (oob : OutOfRange) :
    markerFlag oob (action 75) .read 1 = true ∧ markerFlag oob (action 75) .modified 1 = true ∧
    slot (action 75).mergeNodes oob.mergeNodes 1 = true ∧
    slot (action 75).mergeNodes oob.mergeNodes 2 = true ∧ (action 75).collapse = true := by
  rw [action_at_75]
  exact ⟨rfl, rfl, rfl, rfl, rfl⟩

set_option maxRecDepth 8000 in
theorem action_at_7 :
    action 7 = libAction.mk NRET_NYARGS YRET_YNARGS NRET_NARGS YRET_YNARGS false := by rfl

set_option maxRecDepth 8000 in
theorem name_at_7 : (recFuncs[7]?).map RecFunc.name = some (some "getcwd") := by rfl

set_option maxRecDepth 8000 in
theorem name_at_57 : (recFuncs[57]?).map RecFunc.name = some (some "strlen") := by rfl

set_option maxRecDepth 8000 in
theorem action_at_57 :
    action 57 = libAction.mk NRET_YARGS NRET_NARGS NRET_NARGS NRET_NARGS false := by rfl

set_option maxRecDepth 8000 in
theorem name_at_53 : (recFuncs[53]?).map RecFunc.name = some (some "free") := by rfl

set_option maxRecDepth 8000 in
theorem action_at_53 :
    action 53 = libAction.mk NRET_NARGS NRET_NARGS NRET_YNARGS NRET_NARGS false := by rfl

set_option maxRecDepth 8000 in
theorem name_at_40 : (recFuncs[40]?).map RecFunc.name = some (some "printf") := by rfl

set_option maxRecDepth 8000 in
theorem action_at_40 :
    action 40 = libAction.mk NRET_YARGS NRET_NARGS NRET_NARGS NRET_NARGS false := by rfl

set_option maxRecDepth 8000 in
theorem names_at_41_42 :
    (recFuncs[41]?).map RecFunc.name = some (some "fprintf") ∧
    (recFuncs[42]?).map RecFunc.name = some (some "fprintf") := ⟨by rfl, by rfl⟩

set_option maxRecDepth 8000 in
theorem action_at_41 :
    action 41 = libAction.mk NRET_YARGS NRET_YNARGS NRET_NARGS NRET_NARGS false := by rfl

set_option maxRecDepth 8000 in
theorem action_at_42 :
    action 42 = libAction.mk NRET_YARGS NRET_YNARGS NRET_NARGS NRET_NARGS false := by rfl

set_option maxRecDepth 8000 in
theorem name_at_50 : (recFuncs[50]?).map RecFunc.name = some (some "malloc") := by rfl

/-! ## Where an attribute or a unification comes from -/

/-- An attribute present after one update was present before on a node now
unified with the node, or was set by the update itself. -/
theorem carries_run_inv (o : Op) (g : DSGraph) (k : Nat) (m : Marker)
    (h : (o.run g).carries k m = true) :
    (∃ k2, (o.run g).forward k2 = (o.run g).forward k ∧ g.carries k2 m = true) ∨
    (∃ a, o = Op.mark m a ∧ (o.run g).forward a = (o.run g).forward k) := by
  cases o with
  | mark m2 a =>
    simp only [Op.run, DSGraph.setNode, DSGraph.carries] at h ⊢
    by_cases hk : g.forward k = g.forward a
    · simp only [hk, if_true, DSNode.has_set, Bool.or_eq_true, decide_eq_true_eq] at h
      rcases h with h | h
      · left; exact ⟨a, hk.symm, h⟩
      · right; exact ⟨a, by rw [h], hk.symm⟩
    · simp only [hk, if_false] at h
      left; exact ⟨k, rfl, h⟩
  | merge a b =>
    simp only [Op.run, DSGraph.mergeWith] at h ⊢
    by_cases hab : g.forward a = g.forward b
    · simp only [hab, if_true] at h ⊢
      left; exact ⟨k, rfl, h⟩
    · simp only [hab, if_false, DSGraph.carries] at h ⊢
      left
      by_cases hkb : g.forward k = g.forward b
      · simp only [hkb, if_true, DSNode.has_or, Bool.or_eq_true] at h
        rcases h with h | h
        · refine ⟨a, ?_, h⟩
          simp [hab, hkb]
        · refine ⟨b, ?_, h⟩
          simp [hkb]
      · simp only [hkb, if_false] at h
        by_cases hka : g.forward k = g.forward a
        · simp only [hka, if_true, DSNode.has_or, Bool.or_eq_true] at h
          rcases h with h | h
          · refine ⟨a, ?_, h⟩
            simp [hab, hkb, hka]
          · refine ⟨b, ?_, h⟩
            simp [hkb, hka]
        · simp only [hka, if_false] at h
          exact ⟨k, rfl, h⟩
  | erase f =>
    left; exact ⟨k, rfl, h⟩

/-- An attribute present after a list of updates was present before on a
node now unified with the node, or was set by an update of the list on a
handle now unified with the node. -/
theorem carries_runOps_inv (l : List Op) :
    ∀ (g : DSGraph) (k : Nat) (m : Marker), (runOps l g).carries k m = true →
      (∃ k2, (runOps l g).forward k2 = (runOps l g).forward k ∧ g.carries k2 m = true) ∨
      (∃ a, Op.mark m a ∈ l ∧ (runOps l g).forward a = (runOps l g).forward k) := by
  induction l with
  | nil => intro g k m h; left; exact ⟨k, rfl, h⟩
  | cons o l ih =>
    intro g k m h
    rw [runOps_cons] at h ⊢
    rcases ih (o.run g) k m h with ⟨k2, hk2, hc⟩ | ⟨a, ha, hk⟩
    · rcases carries_run_inv o g k2 m hc with ⟨k3, hk3, hc3⟩ | ⟨a, ho, hk⟩
      · left
        exact ⟨k3, ((runOps_le l (o.run g)).same k3 k2 hk3).trans hk2, hc3⟩
      · right
        exact ⟨a, by rw [ho]; exact List.mem_cons_self _ _,
          ((runOps_le l (o.run g)).same a k2 hk).trans hk2⟩
    · right
      exact ⟨a, List.mem_cons_of_mem o ha, hk⟩

/-- Two handles unified after one update were unified before, or each
denoted the node of one of the two merged handles. -/
theorem forward_run_inv (o : Op) (g : DSGraph) (T : List Nat)
    (hT : ∀ a b, o = Op.merge a b → a ∈ T ∧ b ∈ T) (u v : Nat)
    (h : (o.run g).forward u = (o.run g).forward v) :
    g.forward u = g.forward v ∨
    ((∃ c ∈ T, g.forward u = g.forward c) ∧ (∃ c ∈ T, g.forward v = g.forward c)) := by
  cases o with
  | mark m a => left; exact h
  | erase f => left; exact h
  | merge a b =>
    obtain ⟨haT, hbT⟩ := hT a b rfl
    simp only [Op.run, DSGraph.mergeWith] at h
    by_cases hab : g.forward a = g.forward b
    · simp only [hab, if_true] at h
      left; exact h
    · simp only [hab, if_false] at h
      by_cases hub : g.forward u = g.forward b <;> by_cases hvb : g.forward v = g.forward b
      · left; rw [hub, hvb]
      · simp only [hub, hvb, if_true, if_false] at h
        right; exact ⟨⟨b, hbT, hub⟩, ⟨a, haT, h.symm⟩⟩
      · simp only [hub, hvb, if_true, if_false] at h
        right; exact ⟨⟨a, haT, h⟩, ⟨b, hbT, hvb⟩⟩
      · simp only [hub, hvb, if_false] at h
        left; exact h

/-- Two handles unified after a list of updates were unified before, or
each denoted the node of a merged handle. -/
theorem forward_runOps_inv (T : List Nat) (l : List Op) :
    ∀ (g : DSGraph), (∀ a b, Op.merge a b ∈ l → a ∈ T ∧ b ∈ T) → ∀ u v : Nat,
      (runOps l g).forward u = (runOps l g).forward v →
      g.forward u = g.forward v ∨
      ((∃ c ∈ T, g.forward u = g.forward c) ∧ (∃ c ∈ T, g.forward v = g.forward c)) := by
  induction l with
  | nil => intro g _ u v h; left; exact h
  | cons o l ih =>
    intro g hT u v h
    rw [runOps_cons] at h
    have hT1 : ∀ a b, o = Op.merge a b → a ∈ T ∧ b ∈ T :=
      fun a b hab => hT a b (by rw [hab]; exact List.mem_cons_self _ _)
    have hT2 : ∀ a b, Op.merge a b ∈ l → a ∈ T ∧ b ∈ T :=
      fun a b hab => hT a b (List.mem_cons_of_mem o hab)
    have back : ∀ w, (∃ c ∈ T, (o.run g).forward w = (o.run g).forward c) →
        ∃ c ∈ T, g.forward w = g.forward c := by
      rintro w ⟨c, hc, hwc⟩
      rcases forward_run_inv o g T hT1 w c hwc with h1 | ⟨h1, _⟩
      · exact ⟨c, hc, h1⟩
      · exact h1
    rcases ih (o.run g) hT2 u v h with h1 | ⟨hu, hv⟩
    · exact forward_run_inv o g T hT1 u v h1
    · right; exact ⟨back u hu, back v hv⟩

/-- Without a merge in the list no handle is redirected. -/
theorem forward_runOps_of_no_merge (l : List Op) :
    ∀ (g : DSGraph), (∀ a b, Op.merge a b ∉ l) → (runOps l g).forward = g.forward := by
  induction l with
  | nil => intro g _; rfl
  | cons o l ih =>
    intro g h
    rw [runOps_cons, ih (o.run g) (fun a b hab => h a b (List.mem_cons_of_mem o hab))]
    cases o with
    | mark m a => rfl
    | erase f => rfl
    | merge a b => exact absurd (List.mem_cons_self _ _) (h a b)

/-! ## Every update of a branch body comes from a slot of the call -/

theorem mem_mergeOps (l : List Nat) (o : Op) (ho : o ∈ mergeOps l) :
    ∃ a b, o = Op.merge a b ∧ a ∈ l ∧ b ∈ l := by
  cases l with
  | nil => cases ho
  | cons h0 rest =>
    simp only [mergeOps, List.mem_map] at ho
    obtain ⟨b, hb, rfl⟩ := ho
    exact ⟨h0, b, rfl, List.mem_cons_self _ _, List.mem_cons_of_mem _ hb⟩

theorem mem_resultMarkOps (oob : OutOfRange) (A : libAction) (ci : Instruction)
    (M : Value → DSNodeHandle) (o : Op) (ho : o ∈ resultMarkOps oob A ci M) :
    ∃ m a, o = Op.mark m a ∧ PointerSlot M ci 0 a ∧ markerFlag oob A m 0 = true := by
  unfold resultMarkOps at ho
  by_cases hp : ci.isPointerTy = true
  · simp only [hp, if_true, mem_slotOps] at ho
    obtain ⟨m, a, rfl, hM, hf⟩ := ho
    exact ⟨m, a, rfl, (pointerSlot_zero M ci a).2 ⟨hp, hM⟩, hf⟩
  · simp [hp] at ho

theorem mem_collapseOps (noStdLibFold : Bool) (A : libAction) (ci : Instruction)
    (M : Value → DSNodeHandle) (o : Op) (ho : o ∈ collapseOps noStdLibFold A ci M) :
    (!noStdLibFold && A.collapse) = true ∧
    ∃ a i, o = Op.mark .folded a ∧ PointerSlot M ci i a := by
  unfold collapseOps at ho
  by_cases hc : (!noStdLibFold && A.collapse) = true
  · refine ⟨hc, ?_⟩
    simp only [hc, if_true, List.mem_append] at ho
    rcases ho with ho | ho
    · by_cases hp : ci.isPointerTy = true
      · cases hM : M ci.self with
        | none => simp [hp, hM, foldOps] at ho
        | some a =>
          simp only [hp, hM, foldOps, if_true, List.mem_singleton] at ho
          exact ⟨a, 0, ho, (pointerSlot_zero M ci a).2 ⟨hp, hM⟩⟩
      · simp [hp] at ho
    · obtain ⟨j, op, a, hj, hp, hM, ho⟩ := (mem_argFoldOps M _ o).1 ho
      exact ⟨a, j + 1, ho, (pointerSlot_succ M ci j a).2 ⟨op, hj, hp, hM⟩⟩
  · simp [hc] at ho

/-- A marker update of the direct branch body, other than a fold, comes
from a pointer slot whose flag for that marker is set. -/
theorem mark_of_bodyOps (oob : OutOfRange) (noStdLibFold : Bool) (A : libAction)
    (ci : Instruction) (M : Value → DSNodeHandle) (m : Marker) (a : Nat)
    (hm : m ≠ Marker.folded)
    (ho : Op.mark m a ∈ bodyOps false oob noStdLibFold A ci M) :
    ∃ i, PointerSlot M ci i a ∧ markerFlag oob A m i = true := by
  simp only [bodyOps, List.mem_append, Bool.false_eq_true, if_false] at ho
  rcases ho with ho | ho | ho | ho
  · obtain ⟨m2, a2, h, hs, hf⟩ := mem_resultMarkOps oob A ci M _ ho
    cases h
    exact ⟨0, hs, hf⟩
  · obtain ⟨j, op, m2, a2, hj, hp, hM, h, hf⟩ := (mem_argMarkOps oob A M _ _ 1).1 ho
    cases h
    refine ⟨j + 1, (pointerSlot_succ M ci j a).2 ⟨op, hj, hp, hM⟩, ?_⟩
    have : j + 1 = 1 + j := by omega
    rw [this]; exact hf
  · obtain ⟨a2, b2, h, _, _⟩ := mem_mergeOps _ _ ho
    cases h
  · obtain ⟨_, a2, i, h, _⟩ := mem_collapseOps noStdLibFold A ci M _ ho
    cases h
    exact absurd rfl hm

/-- A merge of a branch body is between two handles of the merge list. -/
theorem merge_of_bodyOps (cast : Bool) (oob : OutOfRange) (noStdLibFold : Bool)
    (A : libAction) (ci : Instruction) (M : Value → DSNodeHandle) (a b : Nat)
    (ho : Op.merge a b ∈ bodyOps cast oob noStdLibFold A ci M) :
    a ∈ toMergeList oob A ci M ∧ b ∈ toMergeList oob A ci M := by
  simp only [bodyOps, List.mem_append] at ho
  rcases ho with ho | ho | ho | ho
  · obtain ⟨m2, a2, h, _, _⟩ := mem_resultMarkOps oob A ci M _ ho
    cases h
  · cases cast with
    | false =>
      simp only [Bool.false_eq_true, if_false] at ho
      obtain ⟨j, op, m2, a2, _, _, _, h, _⟩ := (mem_argMarkOps oob A M _ _ 1).1 ho
      cases h
    | true =>
      simp only [if_true] at ho
      obtain ⟨j, op, m2, a2, _, _, _, h, _⟩ := (mem_argMarkOpsCast oob A M _ _ 1).1 ho
      cases h
  · obtain ⟨a2, b2, h, ha, hb⟩ := mem_mergeOps _ _ ho
    cases h
    exact ⟨ha, hb⟩
  · obtain ⟨_, a2, i, h, _⟩ := mem_collapseOps noStdLibFold A ci M _ ho
    cases h

/-- A fold of a branch body needs the collapse flag and folding enabled. -/
theorem fold_of_bodyOps (cast : Bool) (oob : OutOfRange) (noStdLibFold : Bool)
    (A : libAction) (ci : Instruction) (M : Value → DSNodeHandle) (a : Nat)
    (ho : Op.mark .folded a ∈ bodyOps cast oob noStdLibFold A ci M) :
    (!noStdLibFold && A.collapse) = true := by
  simp only [bodyOps, List.mem_append] at ho
  rcases ho with ho | ho | ho | ho
  · obtain ⟨m2, a2, h, _, hf⟩ := mem_resultMarkOps oob A ci M _ ho
    cases h
    simp [markerFlag] at hf
  · cases cast with
    | false =>
      simp only [Bool.false_eq_true, if_false] at ho
      obtain ⟨j, op, m2, a2, _, _, _, h, hf⟩ := (mem_argMarkOps oob A M _ _ 1).1 ho
      cases h
      simp [markerFlag] at hf
    | true =>
      simp only [if_true] at ho
      obtain ⟨j, op, m2, a2, _, _, _, h, hm, _⟩ := (mem_argMarkOpsCast oob A M _ _ 1).1 ho
      cases h
      exact absurd rfl hm
  · obtain ⟨a2, b2, h, _, _⟩ := mem_mergeOps _ _ ho
    cases h
  · exact (mem_collapseOps noStdLibFold A ci M _ ho).1

/-! ## Slots inside the table arrays, and the three branch bodies -/

theorem markerFlag_eq_tableFlag (oob : OutOfRange) (A : libAction) (m : Marker) (i : Nat)
    (hi : i < numOps) : markerFlag oob A m i = tableFlag A m i := by
  cases m <;> simp [markerFlag, tableFlag, slot, hi]

theorem pointerSlot_lt (M : Value → DSNodeHandle) (ci : Instruction) (i a : Nat)
    (hs : PointerSlot M ci i a) (hn : ci.operands.length ≤ numOps) : i < numOps := by
  obtain ⟨op, hop, _, _⟩ := hs
  unfold slotValue at hop
  by_cases hi : i = 0
  · rw [hi]; decide
  · simp only [hi, if_false] at hop
    have hlt : i < ci.operands.length := by
      by_contra hge
      rw [List.getElem?_eq_none (Nat.le_of_not_lt hge)] at hop
      cases hop
    omega

theorem branchBodies_eq (oob : OutOfRange) (noStdLibFold : Bool) (A : libAction)
    (ci : Instruction) (body : DSGraph × Nat → DSGraph × Nat)
    (hb : body ∈ branchBodies oob noStdLibFold A ci) :
    ∃ cast, ∀ (g : DSGraph) (n : Nat),
      body (g, n) = (runOps (bodyOps cast oob noStdLibFold A ci g.ScalarMap) g,
        n + collapseCount noStdLibFold A ci g.ScalarMap) := by
  simp only [branchBodies, List.mem_cons, List.mem_singleton, List.mem_nil_iff, or_false] at hb
  rcases hb with h | h | h
  · exact ⟨false, fun g n => by rw [h]; exact callBody_eq oob noStdLibFold A ci g n⟩
  · exact ⟨false, fun g n => by rw [h]; exact invokeBody_eq oob noStdLibFold A ci g n⟩
  · exact ⟨true, fun g n => by rw [h]; exact castCallBody_eq oob noStdLibFold A ci g n⟩

/-- A merge of a branch body is one of the merge step. -/
theorem merge_mem_mergeOps (cast : Bool) (oob : OutOfRange) (noStdLibFold : Bool)
    (A : libAction) (ci : Instruction) (M : Value → DSNodeHandle) (a b : Nat)
    (ho : Op.merge a b ∈ bodyOps cast oob noStdLibFold A ci M) :
    Op.merge a b ∈ mergeOps (toMergeList oob A ci M) := by
  simp only [bodyOps, List.mem_append] at ho
  rcases ho with ho | ho | ho | ho
  · obtain ⟨m2, a2, h, _, _⟩ := mem_resultMarkOps oob A ci M _ ho
    cases h
  · cases cast with
    | false =>
      simp only [Bool.false_eq_true, if_false] at ho
      obtain ⟨j, op, m2, a2, _, _, _, h, _⟩ := (mem_argMarkOps oob A M _ _ 1).1 ho
      cases h
    | true =>
      simp only [if_true] at ho
      obtain ⟨j, op, m2, a2, _, _, _, h, _⟩ := (mem_argMarkOpsCast oob A M _ _ 1).1 ho
      cases h
  · exact ho
  · obtain ⟨_, a2, i, h, _⟩ := mem_collapseOps noStdLibFold A ci M _ ho
    cases h

theorem mergeOps_short (l : List Nat) (hl : l.length < 2) : mergeOps l = [] := by
  match l, hl with
  | [], _ => rfl
  | [_], _ => rfl
  | _ :: _ :: _, hl => exact absurd hl (by simp)

theorem collapseCount_zero (noStdLibFold : Bool) (A : libAction) (ci : Instruction)
    (M : Value → DSNodeHandle) (h : noStdLibFold = true ∨ A.collapse = false) :
    collapseCount noStdLibFold A ci M = 0 := by
  unfold collapseCount
  rcases h with h | h <;> simp [h]

theorem functionCount_zero (noStdLibFold : Bool) (A : libAction) (F : Function)
    (MM : Nat → Value → DSNodeHandle) (h : noStdLibFold = true ∨ A.collapse = false) :
    functionCount noStdLibFold A F MM = 0 := by
  unfold functionCount
  apply List.sum_eq_zero
  intro n hn
  obtain ⟨u, _, rfl⟩ := List.mem_map.1 hn
  cases u with
  | callInst ci =>
    simp only [userCount, collapseCount_zero noStdLibFold A ci _ h, ite_self]
  | invokeInst ci =>
    simp only [userCount, collapseCount_zero noStdLibFold A ci _ h, ite_self]
  | constantExpr ce isCast uses =>
    simp only [userCount]
    split
    · apply List.sum_eq_zero
      intro k hk
      obtain ⟨cu, _, rfl⟩ := List.mem_map.1 hk
      cases cu with
      | callInst ci =>
        simp only [ceUserCount, collapseCount_zero noStdLibFold A ci _ h, ite_self]
      | other => rfl
    · rfl
  | other => rfl

/-! ## The claims -/

/-- C1: applying the `strcpy` entry of the table (index 75) with
`processFunction` to a direct call `strcpy(dst, src)` whose two arguments are
pointer-typed and have nodes leaves `dst` and `src` with their handles,
denoting one and the same node; that node carries the read and the modified
marker and is folded, and the graph of the caller has no call site to
`strcpy` left. -/
theorem strcpy_call_merges_marks_folds_erases (oob : OutOfRange) (F : Function) (s : PassState)
    (ci : Instruction) (callee : Operand) (dst src : Value) (a b : Nat)
    (hu : User.callInst ci ∈ F.uses)
    (h0 : callee.val = F.self)
    (hops : ci.operands = [callee, ⟨dst, true⟩, ⟨src, true⟩])
    (hd : (s.DSInfo ci.parent).ScalarMap dst = some a)
    (hs : (s.DSInfo ci.parent).ScalarMap src = some b) :
    (recFuncs[75]?).map RecFunc.name = some (some "strcpy") ∧
    ((processFunction oob false 75 F s).DSInfo ci.parent).ScalarMap dst = some a ∧
    ((processFunction oob false 75 F s).DSInfo ci.parent).ScalarMap src = some b ∧
    ((processFunction oob false 75 F s).DSInfo ci.parent).sameNode a b ∧
    ((processFunction oob false 75 F s).DSInfo ci.parent).carries a .read = true ∧
    ((processFunction oob false 75 F s).DSInfo ci.parent).carries a .modified = true ∧
    ((processFunction oob false 75 F s).DSInfo ci.parent).carries a .folded = true ∧
    ∀ cs ∈ ((processFunction oob false 75 F s).DSInfo ci.parent).FunctionCalls,
      cs.callee ≠ some F.self := by
  have hop0 : ci.operand0Is F.self = true := by simp [Instruction.operand0Is, hops, h0]
  have hm : Matched F ci := Or.inl ⟨hu, hop0⟩
  have hsa : PointerSlot (s.DSInfo ci.parent).ScalarMap ci 1 a :=
    ⟨⟨dst, true⟩, by simp [slotValue, hops], rfl, hd⟩
  have hsb : PointerSlot (s.DSInfo ci.parent).ScalarMap ci 2 b :=
    ⟨⟨src, true⟩, by simp [slotValue, hops], rfl, hs⟩
  obtain ⟨hr, hw, hm1, hm2, hc⟩ := flags_at_75 oob
  refine ⟨name_at_75, ?_, ?_, ?_, ?_, ?_, ?_, ?_⟩
  · rw [final_scalarMap]; exact hd
  · rw [final_scalarMap]; exact hs
  · exact final_merged oob false 75 F s ci hm 1 2 a b hm1 hm2 hsa hsb
  · exact final_marker_direct oob false 75 F s ci hu hop0 1 a .read hsa hr
  · exact final_marker_direct oob false 75 F s ci hu hop0 1 a .modified hsa hw
  · exact final_folded oob 75 F s ci hm 1 a hc hsa
  · exact final_erased oob false 75 F s ci hm

/-- C1, witness: the direct call `%10 = call strcpy(%1, %2)` of `exStrcpy`
in a graph where `%1` and `%2` have the nodes 0 and 1. -/
theorem strcpy_call_witness :
    (User.callInst exCall ∈ exStrcpy.uses ∧ exCall.operands = [⟨100, true⟩, ⟨1, true⟩, ⟨2, true⟩] ∧
      (exState.DSInfo exCall.parent).ScalarMap 1 = some 0 ∧
      (exState.DSInfo exCall.parent).ScalarMap 2 = some 1) ∧
    ((processFunction exOob false 75 exStrcpy exState).DSInfo exCall.parent).sameNode 0 1 ∧
    ((processFunction exOob false 75 exStrcpy exState).DSInfo exCall.parent).carries 0 .folded
      = true :=
  have h := strcpy_call_merges_marks_folds_erases exOob exStrcpy exState exCall ⟨100, true⟩ 1 2
    0 1 (by decide) rfl rfl rfl rfl
  ⟨⟨by decide, rfl, rfl, rfl⟩, h.2.2.2.1, h.2.2.2.2.2.2.1⟩

/-- C2 (as amended): for a direct call of `F` with at most 9 actual
arguments, after `processFunction` every slot that holds a pointer-typed
value with a node has that node carrying each marker whose table flag is set
at the slot; and the direct branch body gives a node a marker it did not
carry before only if a pointer slot with that marker's flag set denotes a
node unified with it afterwards, or the call unified it with a node that
carried the marker before. -/
theorem direct_call_applies_slot_flags (oob : OutOfRange) (noStdLibFold : Bool) (x : Nat)
    (F : Function) (s : PassState) (ci : Instruction)
    (hu : User.callInst ci ∈ F.uses) (h0 : ci.operand0Is F.self = true)
    (hn : ci.operands.length ≤ numOps) :
    (∀ i a m, PointerSlot (s.DSInfo ci.parent).ScalarMap ci i a →
        tableFlag (action x) m i = true →
        ((processFunction oob noStdLibFold x F s).DSInfo ci.parent).carries a m = true) ∧
    (∀ (g : DSGraph) (n k : Nat) (m : Marker), m ≠ Marker.folded →
        (callBody oob noStdLibFold (action x) ci (g, n)).1.carries k m = true →
        g.carries k m = false →
        (∃ i a, PointerSlot g.ScalarMap ci i a ∧ tableFlag (action x) m i = true ∧
            (callBody oob noStdLibFold (action x) ci (g, n)).1.sameNode a k) ∨
        (∃ k2, (callBody oob noStdLibFold (action x) ci (g, n)).1.sameNode k2 k ∧
            ¬ g.sameNode k2 k ∧ g.carries k2 m = true)) := by
  constructor
  · intro i a m hs hf
    have hi := pointerSlot_lt _ ci i a hs hn
    rw [← markerFlag_eq_tableFlag oob (action x) m i hi] at hf
    exact final_marker_direct oob noStdLibFold x F s ci hu h0 i a m hs hf
  · intro g n k m hm hafter hbefore
    rw [callBody_eq] at hafter ⊢
    rcases carries_runOps_inv _ g k m hafter with ⟨k2, hk2, hc⟩ | ⟨a, ha, hk⟩
    · right
      refine ⟨k2, hk2, ?_, hc⟩
      intro hsame
      simp only [DSGraph.carries] at hc hbefore
      simp only [DSGraph.sameNode] at hsame
      rw [hsame, hbefore] at hc
      cases hc
    · left
      obtain ⟨i, hs, hf⟩ := mark_of_bodyOps oob noStdLibFold (action x) ci _ m a hm ha
      have hi := pointerSlot_lt _ ci i a hs hn
      rw [markerFlag_eq_tableFlag oob (action x) m i hi] at hf
      exact ⟨i, a, hs, hf, hk⟩

/-- C2, witness: the direct call `strcpy(%1, %2)` of `exStrcpy`, where the
node of `%1` carries the read marker afterwards. -/
theorem direct_call_applies_slot_flags_witness :
    (User.callInst exCall ∈ exStrcpy.uses ∧ exCall.operand0Is exStrcpy.self = true ∧
      exCall.operands.length ≤ numOps) ∧
    ((processFunction exOob false 75 exStrcpy exState).DSInfo exCall.parent).carries 0 .read
      = true :=
  ⟨⟨by decide, by decide, by decide⟩,
   (direct_call_applies_slot_flags exOob false 75 exStrcpy exState exCall
      (by decide) (by decide) (by decide)).1 1 0 .read
      ⟨⟨1, true⟩, by decide, rfl, by decide⟩ (by rw [action_at_75]; rfl)⟩

/-- C2, counterexample to the claim as stated: in the direct call
`getcwd(%1, %3)` no pointer-typed slot has its read flag set (the `getcwd`
entry has `read[0] = read[1] = false` and `%3` is an integer), yet the node of
the result, which did not carry the read marker, carries it afterwards: the
merge step unified it with the node of `%1`, which carried it before. -/
theorem getcwd_result_acquires_read_marker :
    (recFuncs[7]?).map RecFunc.name = some (some "getcwd") ∧
    exGraphBuf.carries 1 .read = false ∧
    ((processFunction exOob false 7 exGetcwd exStateBuf).DSInfo 0).carries 1 .read = true ∧
    (∀ i a, PointerSlot exGraphBuf.ScalarMap exCallBuf i a →
      tableFlag (action 7) .read i = false) := by
  refine ⟨name_at_7, by decide, by decide, ?_⟩
  rintro i a ⟨op, hop, hp, _⟩
  rw [action_at_7]
  match i, hop with
  | 0, _ => rfl
  | 1, _ => rfl
  | 2, hop =>
    simp [slotValue, exCallBuf] at hop
    rw [← hop] at hp
    cases hp
  | (j + 3), hop =>
    simp [slotValue, exCallBuf] at hop

/-- C3, the code at the failing input: `strlen` (entry 57) has only the read
flag set for its argument and `free` (entry 53) only the heap flag.  Called
through a pointer cast, `strlen(%1)` leaves the node of `%1` read, modified
and heap, and `free(%1)` leaves it without any marker; called directly,
`strlen(%1)` leaves it read only and `free(%1)` heap only. -/
theorem cast_call_ignores_write_and_heap_flags :
    (recFuncs[57]?).map RecFunc.name = some (some "strlen") ∧
    (recFuncs[53]?).map RecFunc.name = some (some "free") ∧
    tableFlag (action 57) .modified 1 = false ∧ tableFlag (action 57) .heap 1 = false ∧
    tableFlag (action 53) .read 1 = false ∧ tableFlag (action 53) .heap 1 = true ∧
    ((processFunction exOob false 57 (exCastOne "strlen") exState).DSInfo 0).nodes 0
      = ⟨true, true, true, false⟩ ∧
    ((processFunction exOob false 57 (exDirectOne "strlen") exState).DSInfo 0).nodes 0
      = ⟨true, false, false, false⟩ ∧
    ((processFunction exOob false 53 (exCastOne "free") exState).DSInfo 0).nodes 0
      = ⟨false, false, false, false⟩ ∧
    ((processFunction exOob false 53 (exDirectOne "free") exState).DSInfo 0).nodes 0
      = ⟨false, false, true, false⟩ := by
  refine ⟨name_at_57, name_at_53, ?_, ?_, ?_, ?_, ?_, ?_, ?_, ?_⟩
  · rw [action_at_57]; rfl
  · rw [action_at_57]; rfl
  · rw [action_at_53]; rfl
  · rw [action_at_53]; rfl
  · decide
  · decide
  · decide
  · decide

/-- C4: for a matched call site, after `processFunction` all slots selected
by `mergeNodes` (slot 0 is the result) that hold a pointer-typed value with
a node denote one single node; a branch body unifies two nodes that were
distinct before only if each of them was denoted by such a selected slot; and
when the merge step collects fewer than two handles, a branch body unifies
nothing. -/
theorem merge_step_unifies_selected_slots (oob : OutOfRange) (noStdLibFold : Bool) (x : Nat)
    (F : Function) (s : PassState) (ci : Instruction) (hm : Matched F ci) :
    (∀ i j a b, slot (action x).mergeNodes oob.mergeNodes i = true →
        slot (action x).mergeNodes oob.mergeNodes j = true →
        PointerSlot (s.DSInfo ci.parent).ScalarMap ci i a →
        PointerSlot (s.DSInfo ci.parent).ScalarMap ci j b →
        ((processFunction oob noStdLibFold x F s).DSInfo ci.parent).sameNode a b) ∧
    (∀ body ∈ branchBodies oob noStdLibFold (action x) ci, ∀ (g : DSGraph) (n u v : Nat),
        ¬ g.sameNode u v → (body (g, n)).1.sameNode u v →
        (∃ i a, slot (action x).mergeNodes oob.mergeNodes i = true ∧
            PointerSlot g.ScalarMap ci i a ∧ g.sameNode u a) ∧
        (∃ j b, slot (action x).mergeNodes oob.mergeNodes j = true ∧
            PointerSlot g.ScalarMap ci j b ∧ g.sameNode v b)) ∧
    (∀ body ∈ branchBodies oob noStdLibFold (action x) ci, ∀ (g : DSGraph) (n : Nat),
        (toMergeResult oob (action x) ci g
          ++ toMergeArguments oob (action x) g 1 ci.operands.tail).length < 2 →
        (body (g, n)).1.forward = g.forward) := by
  refine ⟨?_, ?_, ?_⟩
  · intro i j a b hi hj ha hb
    exact final_merged oob noStdLibFold x F s ci hm i j a b hi hj ha hb
  · intro body hb g n u v hbefore hafter
    obtain ⟨cast, hbody⟩ := branchBodies_eq oob noStdLibFold (action x) ci body hb
    rw [hbody] at hafter
    have hT : ∀ a b, Op.merge a b ∈ bodyOps cast oob noStdLibFold (action x) ci g.ScalarMap →
        a ∈ toMergeList oob (action x) ci g.ScalarMap ∧
        b ∈ toMergeList oob (action x) ci g.ScalarMap :=
      fun a b h => merge_of_bodyOps cast oob noStdLibFold (action x) ci _ a b h
    rcases forward_runOps_inv _ _ g hT u v hafter with h | ⟨⟨c, hc, huc⟩, ⟨d, hd, hvd⟩⟩
    · exact absurd h hbefore
    · obtain ⟨i, hi, hsi⟩ := (mem_toMergeList oob (action x) ci _ c).1 hc
      obtain ⟨j, hj, hsj⟩ := (mem_toMergeList oob (action x) ci _ d).1 hd
      exact ⟨⟨i, c, hi, hsi, huc⟩, ⟨j, d, hj, hsj, hvd⟩⟩
  · intro body hb g n hlen
    obtain ⟨cast, hbody⟩ := branchBodies_eq oob noStdLibFold (action x) ci body hb
    rw [hbody]
    apply forward_runOps_of_no_merge
    intro a b hab
    have h1 := merge_mem_mergeOps cast oob noStdLibFold (action x) ci _ a b hab
    rw [toMerge_eq, List.length_map] at hlen
    rw [mergeOps_short _ hlen] at h1
    cases h1

/-- C4, witness: the direct call `strcpy(%1, %2)` of `exStrcpy` is matched,
and the nodes of `%1` and `%2` are unified afterwards. -/
theorem merge_step_witness :
    Matched exStrcpy exCall ∧
    ((processFunction exOob false 75 exStrcpy exState).DSInfo exCall.parent).sameNode 0 1 :=
  have hm : Matched exStrcpy exCall := Or.inl ⟨by decide, by decide⟩
  ⟨hm, (merge_step_unifies_selected_slots exOob false 75 exStrcpy exState exCall hm).1 1 2 0 1
    (flags_at_75 exOob).2.2.1 (flags_at_75 exOob).2.2.2.1
    ⟨⟨1, true⟩, by decide, rfl, by decide⟩ ⟨⟨2, true⟩, by decide, rfl, by decide⟩⟩

/-- C5 (as amended): with folding enabled, if the collapse flag of the entry
is set, then after `processFunction` the node of every pointer-typed slot
of a matched call that has a node is folded; if the collapse flag is not
set, a node is folded after a branch body only if it, or a node that the
merge step unified with it, was folded before. -/
theorem collapse_flag_decides_folding (oob : OutOfRange) (x : Nat) (F : Function)
    (s : PassState) (ci : Instruction) (hm : Matched F ci) :
    ((action x).collapse = true →
      ∀ i a, PointerSlot (s.DSInfo ci.parent).ScalarMap ci i a →
        ((processFunction oob false x F s).DSInfo ci.parent).carries a .folded = true) ∧
    ((action x).collapse = false →
      ∀ body ∈ branchBodies oob false (action x) ci, ∀ (g : DSGraph) (n k : Nat),
        (body (g, n)).1.carries k .folded = true →
        ∃ k2, (body (g, n)).1.sameNode k2 k ∧ g.carries k2 .folded = true) := by
  constructor
  · intro hc i a ha
    exact final_folded oob x F s ci hm i a hc ha
  · intro hc body hb g n k hafter
    obtain ⟨cast, hbody⟩ := branchBodies_eq oob false (action x) ci body hb
    rw [hbody] at hafter ⊢
    rcases carries_runOps_inv _ g k .folded hafter with h | ⟨a, ha, _⟩
    · exact h
    · have := fold_of_bodyOps cast oob false (action x) ci _ a ha
      simp [hc] at this

/-- C5, witness: the direct call `strcpy(%1, %2)` of `exStrcpy` is matched
and the node of `%2` is folded afterwards. -/
theorem collapse_flag_witness :
    Matched exStrcpy exCall ∧
    ((processFunction exOob false 75 exStrcpy exState).DSInfo exCall.parent).carries 1 .folded
      = true :=
  have hm : Matched exStrcpy exCall := Or.inl ⟨by decide, by decide⟩
  ⟨hm, (collapse_flag_decides_folding exOob 75 exStrcpy exState exCall hm).1
    (flags_at_75 exOob).2.2.2.2 2 1 ⟨⟨2, true⟩, by decide, rfl, by decide⟩⟩

/-- C5, counterexample to the claim as stated: the `getcwd` entry has no
collapse flag, the node of the result of `%10 = call getcwd(%1, %3)` is not
folded before, and it is folded after `processFunction`, because the merge
step unified it with the folded node of `%1`. -/
theorem getcwd_result_folded_without_collapse :
    (recFuncs[7]?).map RecFunc.name = some (some "getcwd") ∧
    (action 7).collapse = false ∧
    exGraphBuf.carries 1 .folded = false ∧
    ((processFunction exOob false 7 exGetcwd exStateBuf).DSInfo 0).carries 1 .folded = true := by
  refine ⟨name_at_7, ?_, by decide, by decide⟩
  rw [action_at_7]

/-- C6, the code at the failing input: `printf` (entry 40) is called with
ten actual arguments, the tenth being the pointer `%2` with node 1.  Slot 9,
the last slot of the table, has the read flag set, but the loop reads
`read[10]`, past the end of the array: when that read yields `false` the node
of `%2` is left without the read marker, when it yields `true` the node is
marked.  What happens to the tenth argument is decided by the read outside
the array, not by slot 9. -/
theorem tenth_argument_read_past_table_arrays :
    (recFuncs[40]?).map RecFunc.name = some (some "printf") ∧
    exCallTen.operands.length = numOps + 1 ∧
    slotValue exCallTen 10 = some ⟨2, true⟩ ∧
    tableFlag (action 40) .read 9 = true ∧
    ((processFunction exOob false 40 exPrintf exState).DSInfo 0).carries 1 .read = false ∧
    ((processFunction exOobTrue false 40 exPrintf exState).DSInfo 0).carries 1 .read = true := by
  refine ⟨name_at_40, by decide, by decide, ?_, by decide, by decide⟩
  rw [action_at_40]; rfl

/-- C7: applying `processFunction(x, F)` twice in succession yields the same
graphs as applying it once: the same scalar maps, unification of nodes,
attributes of nodes and recorded call sites in the graph of every function. -/
theorem processFunction_twice_same_graphs (oob : OutOfRange) (noStdLibFold : Bool) (x : Nat)
    (F : Function) (s : PassState) :
    (processFunction oob noStdLibFold x F (processFunction oob noStdLibFold x F s)).DSInfo
      = (processFunction oob noStdLibFold x F s).DSInfo := by
  rw [(processFunction_eq oob noStdLibFold x F (processFunction oob noStdLibFold x F s)).1]
  rw [(processFunction_eq oob noStdLibFold x F s).1, scalarMaps_runSOps, runSOps_idem]

/-- C8 (as amended): erasing does not stop a later application from
matching the call sites of `F` again.  After `processFunction(x, F)`, applying
an entry `y` with the same descriptor to `F` changes no graph and raises the
statistic once more by the amount of the first application; that amount is
zero, so that the later application changes nothing at all, when folding is
disabled or the collapse flag of the entry is not set. -/
theorem later_application_same_descriptor (oob : OutOfRange) (noStdLibFold : Bool) (x y : Nat)
    (F : Function) (s : PassState) (hxy : action y = action x) :
    (processFunction oob noStdLibFold y F (processFunction oob noStdLibFold x F s)).DSInfo
      = (processFunction oob noStdLibFold x F s).DSInfo ∧
    (processFunction oob noStdLibFold y F
        (processFunction oob noStdLibFold x F s)).NumNodesFoldedInStdLib
      = (processFunction oob noStdLibFold x F s).NumNodesFoldedInStdLib
        + ((processFunction oob noStdLibFold x F s).NumNodesFoldedInStdLib
            - s.NumNodesFoldedInStdLib) ∧
    (noStdLibFold = true ∨ (action x).collapse = false →
      (processFunction oob noStdLibFold y F
          (processFunction oob noStdLibFold x F s)).NumNodesFoldedInStdLib
        = (processFunction oob noStdLibFold x F s).NumNodesFoldedInStdLib) := by
  have h2 := processFunction_eq oob noStdLibFold y F (processFunction oob noStdLibFold x F s)
  have h1 := processFunction_eq oob noStdLibFold x F s
  have hM : scalarMaps (processFunction oob noStdLibFold x F s).DSInfo = scalarMaps s.DSInfo := by
    rw [h1.1, scalarMaps_runSOps]
  rw [hxy, hM] at h2
  refine ⟨?_, ?_, ?_⟩
  · rw [h2.1, h1.1, runSOps_idem]
  · rw [h2.2, h1.2]; omega
  · intro h
    rw [h2.2, functionCount_zero noStdLibFold (action x) F _ h]
    rfl

/-- C8, witness: `fprintf` occurs twice in the table, at the indices 41 and
42, with the same descriptor; the second application to `exFprintf`
changes neither a graph nor the statistic. -/
theorem later_application_witness :
    action 42 = action 41 ∧
    (processFunction exOob false 42 exFprintf (processFunction exOob false 41 exFprintf exState)).DSInfo
      = (processFunction exOob false 41 exFprintf exState).DSInfo ∧
    (processFunction exOob false 42 exFprintf
        (processFunction exOob false 41 exFprintf exState)).NumNodesFoldedInStdLib
      = (processFunction exOob false 41 exFprintf exState).NumNodesFoldedInStdLib :=
  have hxy : action 42 = action 41 := by rw [action_at_41, action_at_42]
  have h := later_application_same_descriptor exOob false 41 42 exFprintf exState hxy
  ⟨hxy, h.1, h.2.2 (Or.inr (by rw [action_at_41]))⟩

/-- C8, counterexample to the claim as stated: after `processFunction` has
processed and erased the call sites of `exStrcpy`, a second application of
the same entry matches the call again and raises the statistic from 3 to 6;
and after the `getcwd` entry was applied to `exGetcwd`, applying the `malloc`
entry (index 50) to it marks the node of the result as heap. -/
theorem later_application_is_not_a_no_op :
    (processFunction exOob false 75 exStrcpy exState).NumNodesFoldedInStdLib = 3 ∧
    (processFunction exOob false 75 exStrcpy
        (processFunction exOob false 75 exStrcpy exState)).NumNodesFoldedInStdLib = 6 ∧
    (∀ cs ∈ ((processFunction exOob false 7 exGetcwd exStateBuf).DSInfo 0).FunctionCalls,
        cs.callee ≠ some exGetcwd.self) ∧
    ((processFunction exOob false 7 exGetcwd exStateBuf).DSInfo 0).carries 1 .heap = false ∧
    ((processFunction exOob false 50 exGetcwd
        (processFunction exOob false 7 exGetcwd exStateBuf)).DSInfo 0).carries 1 .heap = true := by
  refine ⟨by decide, by decide, ?_, by decide, by decide⟩
  exact final_erased exOob false 7 exGetcwd exStateBuf exCallBuf (Or.inl ⟨by decide, by decide⟩)

/-- C9, the code at the failing input: in `%10 = call strcpy(%1, %2)` the
result is pointer-typed but has no node; the only pointer-typed slots with
a node are the two arguments.  `processFunction` with the `strcpy` entry
raises `NumNodesFoldedInStdLib` by 3, one more than the two operand nodes it
folds: the increment for the result is outside the `hasNodeForValue` guard. -/
theorem statistic_counts_result_without_node :
    (recFuncs[75]?).map RecFunc.name = some (some "strcpy") ∧
    exCall.isPointerTy = true ∧
    exGraph.hasNodeForValue exCall.self = false ∧
    (∀ i a, PointerSlot exGraph.ScalarMap exCall i a → i = 1 ∨ i = 2) ∧
    (processFunction exOob false 75 exStrcpy exState).NumNodesFoldedInStdLib
      = exState.NumNodesFoldedInStdLib + 3 := by
  refine ⟨name_at_75, rfl, by decide, ?_, by decide⟩
  rintro i a ⟨op, hop, hp, hM⟩
  match i, hop with
  | 0, hop =>
    simp only [slotValue, if_true, Option.some.injEq] at hop
    rw [← hop] at hM
    simp [exGraph, exCall] at hM
  | 1, _ => exact Or.inl rfl
  | 2, _ => exact Or.inr rfl
  | (j + 3), hop => simp [slotValue, exCall] at hop

theorem tail_map_withoutNodeless (g : DSGraph) (l : List Operand) :
    (l.map (Operand.withoutNodeless g)).tail = l.tail.map (Operand.withoutNodeless g) := by
  cases l <;> rfl

theorem slotOps_nodeless (oob : OutOfRange) (A : libAction) (y : Nat) (g : DSGraph)
    (v : Value) (p : Bool) :
    (if (p && g.hasNodeForValue v) = true then slotOps oob A y (g.ScalarMap v) else [])
      = (if p = true then slotOps oob A y (g.ScalarMap v) else []) := by
  cases hM : g.ScalarMap v <;> cases p <;> simp [DSGraph.hasNodeForValue, hM, slotOps]

theorem argMarkOps_nodeless (oob : OutOfRange) (A : libAction) (g : DSGraph)
    (ops : List Operand) :
    ∀ y, argMarkOps oob A g.ScalarMap y (ops.map (Operand.withoutNodeless g))
      = argMarkOps oob A g.ScalarMap y ops := by
  induction ops with
  | nil => intro y; rfl
  | cons op ops ih =>
    intro y
    simp only [List.map_cons, argMarkOps, ih, Operand.withoutNodeless]
    rw [slotOps_nodeless]

theorem argMarkOpsCast_nodeless (oob : OutOfRange) (A : libAction) (g : DSGraph)
    (ops : List Operand) :
    ∀ y, argMarkOpsCast oob A g.ScalarMap y (ops.map (Operand.withoutNodeless g))
      = argMarkOpsCast oob A g.ScalarMap y ops := by
  induction ops with
  | nil => intro y; rfl
  | cons op ops ih =>
    intro y
    simp only [List.map_cons, argMarkOpsCast, ih, Operand.withoutNodeless]
    congr 1
    cases hM : g.ScalarMap op.val <;> cases hp : op.isPointerTy <;>
      simp [DSGraph.hasNodeForValue, hM, castSlotOps]

theorem toMergeArgs_nodeless (oob : OutOfRange) (A : libAction) (g : DSGraph)
    (ops : List Operand) :
    ∀ y, toMergeArgs oob A g.ScalarMap y (ops.map (Operand.withoutNodeless g))
      = toMergeArgs oob A g.ScalarMap y ops := by
  induction ops with
  | nil => intro y; rfl
  | cons op ops ih =>
    intro y
    simp only [List.map_cons, toMergeArgs, ih, Operand.withoutNodeless]
    congr 1
    cases hM : g.ScalarMap op.val <;> cases hp : op.isPointerTy <;>
      simp [DSGraph.hasNodeForValue, hM]

theorem argFoldOps_nodeless (g : DSGraph) (ops : List Operand) :
    argFoldOps g.ScalarMap (ops.map (Operand.withoutNodeless g)) = argFoldOps g.ScalarMap ops := by
  induction ops with
  | nil => rfl
  | cons op ops ih =>
    simp only [List.map_cons, argFoldOps, ih, Operand.withoutNodeless]
    congr 1
    cases hM : g.ScalarMap op.val <;> cases hp : op.isPointerTy <;>
      simp [DSGraph.hasNodeForValue, hM, foldOps]

theorem bodyOps_nodeless (cast : Bool) (oob : OutOfRange) (noStdLibFold : Bool) (A : libAction)
    (ci : Instruction) (g : DSGraph) :
    bodyOps cast oob noStdLibFold A (ci.withoutNodeless g) g.ScalarMap
      = bodyOps cast oob noStdLibFold A ci g.ScalarMap := by
  have h1 : resultMarkOps oob A (ci.withoutNodeless g) g.ScalarMap
      = resultMarkOps oob A ci g.ScalarMap := by
    simp only [resultMarkOps, Instruction.withoutNodeless]
    rw [slotOps_nodeless]
  have h2 : toMergeList oob A (ci.withoutNodeless g) g.ScalarMap
      = toMergeList oob A ci g.ScalarMap := by
    simp only [toMergeList, Instruction.withoutNodeless, tail_map_withoutNodeless,
      toMergeArgs_nodeless]
    congr 1
    cases hM : g.ScalarMap ci.self <;> cases hp : ci.isPointerTy <;>
      simp [DSGraph.hasNodeForValue, hM]
  have h3 : collapseOps noStdLibFold A (ci.withoutNodeless g) g.ScalarMap
      = collapseOps noStdLibFold A ci g.ScalarMap := by
    simp only [collapseOps, Instruction.withoutNodeless, tail_map_withoutNodeless,
      argFoldOps_nodeless]
    congr 2
    cases hM : g.ScalarMap ci.self <;> cases hp : ci.isPointerTy <;>
      simp [DSGraph.hasNodeForValue, hM, foldOps]
  simp only [bodyOps, h1, h2, h3]
  simp only [Instruction.withoutNodeless, tail_map_withoutNodeless, argMarkOps_nodeless,
    argMarkOpsCast_nodeless]

/-- C10: `processFunction` never creates a node, a value has a node in a
graph afterwards iff it had one before; and each branch body leaves the
graph as it leaves it for the call in which every operand (and result)
without a node is replaced by one that is not pointer-typed: an operand
without a node sets no marker and takes part in no merge and no fold, and
the other operands are processed as they are without it. -/
theorem operands_without_node_are_skipped (oob : OutOfRange) (noStdLibFold : Bool) (x : Nat)
    (F : Function) (s : PassState) :
    (∀ p v, ((processFunction oob noStdLibFold x F s).DSInfo p).hasNodeForValue v
        = (s.DSInfo p).hasNodeForValue v) ∧
    (∀ (ci : Instruction) (g : DSGraph) (n : Nat),
      (callBody oob noStdLibFold (action x) ci (g, n)).1
        = (callBody oob noStdLibFold (action x) (ci.withoutNodeless g) (g, n)).1 ∧
      (invokeBody oob noStdLibFold (action x) ci (g, n)).1
        = (invokeBody oob noStdLibFold (action x) (ci.withoutNodeless g) (g, n)).1 ∧
      (castCallBody oob noStdLibFold (action x) ci (g, n)).1
        = (castCallBody oob noStdLibFold (action x) (ci.withoutNodeless g) (g, n)).1) := by
  constructor
  · intro p v
    simp only [DSGraph.hasNodeForValue, final_scalarMap]
  · intro ci g n
    simp only [callBody_eq, invokeBody_eq, castCallBody_eq, bodyOps_nodeless, and_self]

/-! ## The table scan -/

set_option maxRecDepth 100000 in
theorem recFuncs_endsAtSentinel : endsAtSentinel recFuncs = true := by rfl

set_option maxRecDepth 100000 in
theorem recFuncs_length : recFuncs.length = 180 := by rfl

set_option maxRecDepth 100000 in
theorem findIndex_malloc : findIndex "malloc" recFuncs 0 = some 50 := by rfl

set_option maxRecDepth 100000 in
theorem findIndex_free : findIndex "free" recFuncs 0 = some 53 := by rfl

set_option maxRecDepth 100000 in
theorem names_nodup_without_42 : ((recFuncs.eraseIdx 42).map RecFunc.name).Nodup := by decide

set_option maxRecDepth 8000 in
theorem action_at_50 :
    action 50 = libAction.mk NRET_NARGS YRET_NARGS YRET_NARGS NRET_NARGS false := by rfl

theorem endsAtSentinel_cons (e : RecFunc) (rest : List RecFunc)
    (h : endsAtSentinel (e :: rest) = true) :
    (rest = [] ∧ e.name = none) ∨
    (rest ≠ [] ∧ (∃ nm, e.name = some nm) ∧ endsAtSentinel rest = true) := by
  cases rest with
  | nil =>
    left
    simp only [endsAtSentinel, Option.isNone_iff_eq_none] at h
    exact ⟨rfl, h⟩
  | cons e2 rest2 =>
    right
    simp only [endsAtSentinel, Bool.and_eq_true, Option.isSome_iff_exists] at h
    exact ⟨by simp, h.1, h.2⟩

/-- In an array that ends at its sentinel, the last entry is the only one
with a null name. -/
theorem null_name_iff_last (l : List RecFunc) :
    endsAtSentinel l = true → ∀ (j : Nat) (e : RecFunc), l[j]? = some e →
      (e.name = none ↔ j + 1 = l.length) := by
  induction l with
  | nil => intro h; simp [endsAtSentinel] at h
  | cons e1 rest ih =>
    intro h j e hj
    rcases endsAtSentinel_cons e1 rest h with ⟨hr, hn⟩ | ⟨hr, ⟨nm, hnm⟩, hrest⟩
    · subst hr
      cases j with
      | zero =>
        simp only [List.getElem?_cons_zero, Option.some.injEq] at hj
        subst hj
        simp [hn]
      | succ j => simp at hj
    · cases j with
      | zero =>
        simp only [List.getElem?_cons_zero, Option.some.injEq] at hj
        subst hj
        have hlen : rest.length ≠ 0 := fun h0 => hr (List.length_eq_zero.1 h0)
        simp only [hnm, List.length_cons]
        constructor
        · intro hc; cases hc
        · intro hc; omega
      | succ j =>
        simp only [List.getElem?_cons_succ] at hj
        rw [ih hrest j e hj]
        simp only [List.length_cons]
        omega

/-- The scan over an array that ends at its sentinel stays inside it and
applies `processFunction` to its targets in order. -/
theorem tableScan_eq (oob : OutOfRange) (noStdLibFold : Bool) (M : Module)
    (l : List RecFunc) :
    endsAtSentinel l = true → ∀ (x : Nat) (s : PassState),
      tableScan oob noStdLibFold M l x s
        = some ((scanTargets M l x).foldl
            (fun s t => processFunction oob noStdLibFold t.1 t.2 s) s) := by
  induction l with
  | nil => intro h; simp [endsAtSentinel] at h
  | cons e1 rest ih =>
    intro h x s
    rcases endsAtSentinel_cons e1 rest h with ⟨_, hn⟩ | ⟨_, ⟨nm, hnm⟩, hrest⟩
    · simp [tableScan, scanTargets, hn]
    · simp only [tableScan, scanTargets, hnm, List.foldl_append]
      rw [ih hrest]
      congr 2
      unfold scanEntry
      cases hF : M.getFunction nm with
      | none => rfl
      | some F =>
        by_cases hd : F.isDeclaration = true
        · simp [hd]
        · simp [hd]

theorem getFunction_name (M : Module) (nm : String) (F : Function)
    (h : M.getFunction nm = some F) : F.name = nm := by
  have := List.find?_some h
  simpa using this

theorem mem_scanTargets (M : Module) (l : List RecFunc) :
    ∀ (x y : Nat) (F : Function), (y, F) ∈ scanTargets M l x →
      ∃ j e, l[j]? = some e ∧ y = x + j ∧ e.name = some F.name ∧ F.isDeclaration = true ∧
        M.getFunction F.name = some F := by
  induction l with
  | nil => intro x y F h; simp [scanTargets] at h
  | cons e1 rest ih =>
    intro x y F h
    cases hnm : e1.name with
    | none => simp [scanTargets, hnm] at h
    | some nm =>
      simp only [scanTargets, hnm, List.mem_append] at h
      rcases h with h | h
      · cases hF : M.getFunction nm with
        | none => simp [hF] at h
        | some F1 =>
          by_cases hd : F1.isDeclaration = true
          · simp only [hF, hd, if_true, List.mem_singleton, Prod.mk.injEq] at h
            obtain ⟨hy, hFF⟩ := h
            subst hFF
            have hname := getFunction_name M nm F hF
            refine ⟨0, e1, by simp, by omega, ?_, hd, ?_⟩
            · rw [hnm, hname]
            · rw [hname]; exact hF
          · simp [hF, hd] at h
      · obtain ⟨j, e, hj, hy, hn, hd, hg⟩ := ih (x + 1) y F h
        exact ⟨j + 1, e, by simpa using hj, by omega, hn, hd, hg⟩

theorem scanTargets_complete (M : Module) (l : List RecFunc) :
    endsAtSentinel l = true → ∀ (x j : Nat) (e : RecFunc) (nm : String) (F : Function),
      l[j]? = some e → e.name = some nm → M.getFunction nm = some F →
      F.isDeclaration = true → (x + j, F) ∈ scanTargets M l x := by
  induction l with
  | nil => intro h; simp [endsAtSentinel] at h
  | cons e1 rest ih =>
    intro h x j e nm F hj hnm hF hd
    rcases endsAtSentinel_cons e1 rest h with ⟨hr, hn⟩ | ⟨_, ⟨nm1, hnm1⟩, hrest⟩
    · subst hr
      cases j with
      | zero =>
        simp only [List.getElem?_cons_zero, Option.some.injEq] at hj
        subst hj
        rw [hn] at hnm
        cases hnm
      | succ j => simp at hj
    · simp only [scanTargets, hnm1, List.mem_append]
      cases j with
      | zero =>
        left
        simp only [List.getElem?_cons_zero, Option.some.injEq] at hj
        subst hj
        rw [hnm1] at hnm
        cases hnm
        simp [hF, hd]
      | succ j =>
        right
        have := ih hrest (x + 1) j e nm F (by simpa using hj) hnm hF hd
        have hx : x + 1 + j = x + (j + 1) := by omega
        rw [hx] at this
        exact this

/-- C11, the code at the failing input: the entries 41 and 42 of `recFuncs`
both have the name `fprintf`, so two entries before the sentinel have the
same name.  The two entries carry the same descriptor, and without entry 42
no name occurs twice. -/
theorem fprintf_is_listed_twice :
    (recFuncs[41]?).map RecFunc.name = some (some "fprintf") ∧
    (recFuncs[42]?).map RecFunc.name = some (some "fprintf") ∧
    action 41 = action 42 ∧
    ((recFuncs.eraseIdx 42).map RecFunc.name).Nodup :=
  ⟨names_at_41_42.1, names_at_41_42.2, by rw [action_at_41, action_at_42],
    names_nodup_without_42⟩

/-- C12: the last entry of `recFuncs` (index 179) is the only entry with a
null name; the table scan stays inside the array and applies
`processFunction` to its targets, which include every named entry whose name
is that of a declaration of the module; a function is given entry `x` only
if its name equals the name of entry `x` exactly, it is a declaration, and it
is what `getFunction` returns for that name; and a function whose name
equals no name of the table is given no entry. -/
theorem table_scan_is_exact_name_lookup (oob : OutOfRange) (noStdLibFold : Bool) (M : Module)
    (s : PassState) :
    recFuncs.length = 180 ∧
    (∀ (i : Nat) (e : RecFunc), recFuncs[i]? = some e → (e.name = none ↔ i = 179)) ∧
    tableScan oob noStdLibFold M recFuncs 0 s
      = some ((scanTargets M recFuncs 0).foldl
          (fun s t => processFunction oob noStdLibFold t.1 t.2 s) s) ∧
    (∀ (i : Nat) (e : RecFunc) (nm : String) (F : Function), recFuncs[i]? = some e →
      e.name = some nm → M.getFunction nm = some F → F.isDeclaration = true →
      (i, F) ∈ scanTargets M recFuncs 0) ∧
    (∀ (x : Nat) (F : Function), (x, F) ∈ scanTargets M recFuncs 0 →
      (recFuncs[x]?).map RecFunc.name = some (some F.name) ∧ F.isDeclaration = true ∧
      M.getFunction F.name = some F) ∧
    (∀ F : Function, (∀ e ∈ recFuncs, e.name ≠ some F.name) →
      ∀ x, (x, F) ∉ scanTargets M recFuncs 0) := by
  refine ⟨recFuncs_length, ?_, ?_, ?_, ?_, ?_⟩
  · intro i e hi
    rw [null_name_iff_last recFuncs recFuncs_endsAtSentinel i e hi, recFuncs_length]
    omega
  · exact tableScan_eq oob noStdLibFold M recFuncs recFuncs_endsAtSentinel 0 s
  · intro i e nm F hi hnm hF hd
    have := scanTargets_complete M recFuncs recFuncs_endsAtSentinel 0 i e nm F hi hnm hF hd
    simpa using this
  · intro x F h
    obtain ⟨j, e, hj, hx, hn, hd, hg⟩ := mem_scanTargets M recFuncs 0 x F h
    have hxj : x = j := by omega
    subst hxj
    exact ⟨by rw [hj]; simp [hn], hd, hg⟩
  · intro F hF x h
    obtain ⟨j, e, hj, _, hn, _, _⟩ := mem_scanTargets M recFuncs 0 x F h
    exact hF e (List.getElem?_mem hj) hn

/-! ## Descriptors that set no marker on the arguments -/

theorem slot_false_of_all_false (oob : Nat → Bool) (i : Nat) (hi : i < numOps) :
    slot NRET_NARGS oob i = false ∧ (0 < i → slot YRET_NARGS oob i = false) ∧
    (1 < i → slot NRET_YNARGS oob i = false) := by
  unfold numOps at hi
  interval_cases i <;> simp [slot, numOps, NRET_NARGS, YRET_NARGS, NRET_YNARGS]

theorem argMarkOps_nil (oob : OutOfRange) (A : libAction) (M : Value → DSNodeHandle)
    (ops : List Operand) :
    ∀ y : Nat, (∀ j, j < ops.length → slot A.read oob.read (y + j) = false ∧
        slot A.write oob.write (y + j) = false ∧ slot A.heap oob.heap (y + j) = false) →
      argMarkOps oob A M y ops = [] := by
  induction ops with
  | nil => intro y _; rfl
  | cons op ops ih =>
    intro y h
    have h0 := h 0 (by simp)
    simp only [Nat.add_zero] at h0
    have hrest : argMarkOps oob A M (y + 1) ops = [] := by
      apply ih
      intro j hj
      have := h (j + 1) (by simp; omega)
      have e : y + (j + 1) = y + 1 + j := by omega
      rw [e] at this
      exact this
    simp only [argMarkOps, hrest, List.append_nil]
    cases hM : M op.val <;> simp [slotOps, h0.1, h0.2.1, h0.2.2]

theorem argMarkOpsCast_nil (oob : OutOfRange) (A : libAction) (M : Value → DSNodeHandle)
    (ops : List Operand) :
    ∀ y : Nat, (∀ j, j < ops.length → slot A.read oob.read (y + j) = false) →
      argMarkOpsCast oob A M y ops = [] := by
  induction ops with
  | nil => intro y _; rfl
  | cons op ops ih =>
    intro y h
    have h0 := h 0 (by simp)
    simp only [Nat.add_zero] at h0
    have hrest : argMarkOpsCast oob A M (y + 1) ops = [] := by
      apply ih
      intro j hj
      have := h (j + 1) (by simp; omega)
      have e : y + (j + 1) = y + 1 + j := by omega
      rw [e] at this
      exact this
    simp [argMarkOpsCast, hrest, h0]

theorem toMergeArgs_nil (oob : OutOfRange) (A : libAction) (M : Value → DSNodeHandle)
    (ops : List Operand) :
    ∀ y : Nat, (∀ j, j < ops.length → slot A.mergeNodes oob.mergeNodes (y + j) = false) →
      toMergeArgs oob A M y ops = [] := by
  induction ops with
  | nil => intro y _; rfl
  | cons op ops ih =>
    intro y h
    have h0 := h 0 (by simp)
    simp only [Nat.add_zero] at h0
    have hrest : toMergeArgs oob A M (y + 1) ops = [] := by
      apply ih
      intro j hj
      have := h (j + 1) (by simp; omega)
      have e : y + (j + 1) = y + 1 + j := by omega
      rw [e] at this
      exact this
    simp [toMergeArgs, hrest, h0]

theorem tail_length_lt (ci : Instruction) (hn : ci.operands.length ≤ numOps) (y j : Nat)
    (hy : 1 ≤ y) (hj : j + (y - 1) < ci.operands.tail.length) : y + j < numOps := by
  have : ci.operands.tail.length = ci.operands.length - 1 := by simp
  omega

/-- The branch bodies with the `malloc` descriptor, for a call within the
slots of the table: only the result is marked, modified and heap. -/
theorem bodyOps_malloc (cast : Bool) (oob : OutOfRange) (noStdLibFold : Bool)
    (ci : Instruction) (M : Value → DSNodeHandle) (hn : ci.operands.length ≤ numOps) :
    bodyOps cast oob noStdLibFold (action 50) ci M
      = (if ci.isPointerTy then
          (match M ci.self with
            | some a => [Op.mark .modified a, Op.mark .heap a]
            | none => [])
        else []) := by
  rw [action_at_50]
  have hlt : ∀ j, j < ci.operands.tail.length → 1 + j < numOps :=
    fun j hj => tail_length_lt ci hn 1 j (by omega) (by simpa using hj)
  have h1 : argMarkOps oob ⟨NRET_NARGS, YRET_NARGS, YRET_NARGS, NRET_NARGS, false⟩ M 1
      ci.operands.tail = [] := by
    apply argMarkOps_nil
    intro j hj
    have hs := hlt j hj
    exact ⟨(slot_false_of_all_false _ _ hs).1, (slot_false_of_all_false _ _ hs).2.1 (by omega),
      (slot_false_of_all_false _ _ hs).2.1 (by omega)⟩
  have h2 : argMarkOpsCast oob ⟨NRET_NARGS, YRET_NARGS, YRET_NARGS, NRET_NARGS, false⟩ M 1
      ci.operands.tail = [] := by
    apply argMarkOpsCast_nil
    intro j hj
    exact (slot_false_of_all_false _ _ (hlt j hj)).1
  have h3 : toMergeArgs oob ⟨NRET_NARGS, YRET_NARGS, YRET_NARGS, NRET_NARGS, false⟩ M 1
      ci.operands.tail = [] := by
    apply toMergeArgs_nil
    intro j hj
    exact (slot_false_of_all_false _ _ (hlt j hj)).1
  have h0 : slot NRET_NARGS oob.mergeNodes 0 = false := rfl
  simp only [bodyOps, h1, h2, ite_self, toMergeList, h3, h0, collapseOps, Bool.and_false,
    Bool.false_eq_true, if_false, mergeOps, List.append_nil, resultMarkOps]
  by_cases hp : ci.isPointerTy = true
  · cases hM : M ci.self <;> simp [hp, slotOps, slot, numOps, NRET_NARGS, YRET_NARGS]
  · simp [hp]

/-- The direct branch body with the `free` descriptor, for a call within
the slots of the table: only the first argument is marked, heap. -/
theorem bodyOps_free (oob : OutOfRange) (noStdLibFold : Bool)
    (ci : Instruction) (M : Value → DSNodeHandle) (hn : ci.operands.length ≤ numOps) :
    bodyOps false oob noStdLibFold (action 53) ci M
      = (match ci.operands[1]? with
          | some op =>
            if op.isPointerTy then
              (match M op.val with
                | some a => [Op.mark .heap a]
                | none => [])
            else []
          | none => []) := by
  rw [action_at_53]
  have h3 : toMergeArgs oob ⟨NRET_NARGS, NRET_NARGS, NRET_YNARGS, NRET_NARGS, false⟩ M 1
      ci.operands.tail = [] := by
    apply toMergeArgs_nil
    intro j hj
    exact (slot_false_of_all_false _ _
      (tail_length_lt ci hn 1 j (by omega) (by simpa using hj))).1
  have h0 : slot NRET_NARGS oob.mergeNodes 0 = false := rfl
  have hr : resultMarkOps oob ⟨NRET_NARGS, NRET_NARGS, NRET_YNARGS, NRET_NARGS, false⟩ ci M
      = [] := by
    unfold resultMarkOps
    cases hM : M ci.self <;> simp [slotOps, slot, numOps, NRET_NARGS, NRET_YNARGS]
  simp only [bodyOps, hr, toMergeList, h3, h0, collapseOps, Bool.and_false,
    Bool.false_eq_true, if_false, mergeOps, List.append_nil, List.nil_append]
  cases hops : ci.operands with
  | nil => simp [argMarkOps]
  | cons c rest =>
    cases rest with
    | nil => simp [argMarkOps]
    | cons op rest2 =>
      have hlen : rest2.length + 2 ≤ numOps := by
        rw [hops] at hn; simpa using hn
      have h1 : argMarkOps oob ⟨NRET_NARGS, NRET_NARGS, NRET_YNARGS, NRET_NARGS, false⟩ M 2
          rest2 = [] := by
        apply argMarkOps_nil
        intro j hj
        have hs : 2 + j < numOps := by omega
        exact ⟨(slot_false_of_all_false _ _ hs).1, (slot_false_of_all_false _ _ hs).1,
          (slot_false_of_all_false _ _ hs).2.2 (by omega)⟩
      simp only [List.tail_cons, argMarkOps, h1, List.append_nil, List.getElem?_cons_succ,
        List.getElem?_cons_zero]
      by_cases hp : op.isPointerTy = true
      · cases hM : M op.val <;> simp [hp, slotOps, slot, numOps, NRET_NARGS, NRET_YNARGS]
      · simp [hp]

/-- The index searches of `runOnModule` stop at the indices 50 and 53,
whose entries are named `malloc` and `free`; every reported allocation
wrapper that the module has is processed with entry 50 and every reported
deallocation wrapper with entry 53.  For a call within the slots of the
table, each branch body with the `malloc` entry marks the node of a
pointer-typed result modified and heap and does nothing else, and the
direct branch body with the `free` entry marks the node of a pointer-typed
first argument heap and does nothing else. -/
theorem wrappers_get_malloc_and_free_entries (oob : OutOfRange) (noStdLibFold : Bool)
    (A : AllocIdentify) (M : Module) (s : PassState) :
    (recFuncs[50]?).map RecFunc.name = some (some "malloc") ∧
    (recFuncs[53]?).map RecFunc.name = some (some "free") ∧
    allocStage oob noStdLibFold A M s
      = some (A.allocs.foldl
          (fun s nm =>
            match M.getFunction nm with
            | some F => processFunction oob noStdLibFold 50 F s
            | none => s) s) ∧
    deallocStage oob noStdLibFold A M s
      = some (A.deallocs.foldl
          (fun s nm =>
            match M.getFunction nm with
            | some F => processFunction oob noStdLibFold 53 F s
            | none => s) s) ∧
    (∀ (ci : Instruction) (g : DSGraph) (n : Nat), ci.operands.length ≤ numOps →
      ∀ body ∈ branchBodies oob noStdLibFold (action 50) ci,
        body (g, n)
          = (if ci.isPointerTy then
              (g.setModifiedMarker (g.getNodeForValue ci.self)).setHeapMarker
                (g.getNodeForValue ci.self)
            else g, n)) ∧
    (∀ (ci : Instruction) (g : DSGraph) (n : Nat), ci.operands.length ≤ numOps →
      callBody oob noStdLibFold (action 53) ci (g, n)
        = (match ci.operands[1]? with
            | some op =>
              if op.isPointerTy then g.setHeapMarker (g.getNodeForValue op.val) else g
            | none => g, n)) := by
  refine ⟨name_at_50, name_at_53, ?_, ?_, ?_, ?_⟩
  · simp only [allocStage, findIndex_malloc, wrapperLoop]
  · simp only [deallocStage, findIndex_free, wrapperLoop]
  · intro ci g n hn body hb
    obtain ⟨cast, hbody⟩ := branchBodies_eq oob noStdLibFold (action 50) ci body hb
    rw [hbody, bodyOps_malloc cast oob noStdLibFold ci _ hn]
    have hc : collapseCount noStdLibFold (action 50) ci g.ScalarMap = 0 :=
      collapseCount_zero _ _ _ _ (Or.inr (by rw [action_at_50]))
    rw [hc]
    by_cases hp : ci.isPointerTy = true
    · cases hM : g.ScalarMap ci.self with
      | none =>
        simp [hp, hM, DSGraph.getNodeForValue, DSGraph.setModifiedMarker,
          DSGraph.setHeapMarker, runOps_nil]
      | some a =>
        simp [hp, hM, DSGraph.getNodeForValue, DSGraph.setModifiedMarker,
          DSGraph.setHeapMarker, runOps, Op.run, DSGraph.setNode, DSNode.set]
    · simp [hp, runOps_nil]
  · intro ci g n hn
    rw [callBody_eq, bodyOps_free oob noStdLibFold ci _ hn]
    have hc : collapseCount noStdLibFold (action 53) ci g.ScalarMap = 0 :=
      collapseCount_zero _ _ _ _ (Or.inr (by rw [action_at_53]))
    rw [hc]
    cases hop : ci.operands[1]? with
    | none => simp [runOps_nil]
    | some op =>
      by_cases hp : op.isPointerTy = true
      · cases hM : g.ScalarMap op.val with
        | none =>
          simp [hp, hM, DSGraph.getNodeForValue, DSGraph.setHeapMarker, runOps_nil]
        | some a =>
          simp [hp, hM, DSGraph.getNodeForValue, DSGraph.setHeapMarker, runOps, Op.run,
            DSGraph.setNode, DSNode.set]
      · simp [hp, runOps_nil]

/-! ## `processRuntimeCheck` -/

theorem DSGraph.grows_of_le {g g' : DSGraph} (h : g.le g') : g.grows g' :=
  ⟨fun v a hv => by rw [h.map]; exact hv, h.same, h.attr, h.calls⟩

theorem DSGraph.grows_refl (g : DSGraph) : g.grows g :=
  DSGraph.grows_of_le (DSGraph.le_refl g)

theorem DSGraph.grows_trans {g1 g2 g3 : DSGraph} (h12 : g1.grows g2) (h23 : g2.grows g3) :
    g1.grows g3 :=
  ⟨fun v a hv => h23.map v a (h12.map v a hv), fun a b h => h23.same a b (h12.same a b h),
   fun a m h => h23.attr a m (h12.attr a m h), fun cs h => h12.calls cs (h23.calls cs h)⟩

theorem nodeFor_grows (newNode : DSGraph → Nat) (g : DSGraph) (v : Value) :
    g.grows (g.nodeFor newNode v).1 := by
  unfold DSGraph.nodeFor
  cases hM : g.ScalarMap v with
  | some a => exact DSGraph.grows_refl g
  | none =>
    refine ⟨?_, fun _ _ h => h, fun _ _ h => h, fun _ h => h⟩
    intro w a hw
    by_cases hwv : w = v
    · rw [hwv, hM] at hw; cases hw
    · simp [hwv, hw]

/-- On a value that has a node, the creating look-up is the plain look-up
and leaves the graph as it is. -/
theorem nodeFor_of_hasNode (newNode : DSGraph → Nat) (g : DSGraph) (v : Value)
    (h : g.hasNodeForValue v = true) :
    (g.nodeFor newNode v).1 = g ∧ g.getNodeForValue v = some (g.nodeFor newNode v).2 := by
  unfold DSGraph.nodeFor DSGraph.getNodeForValue
  cases hM : g.ScalarMap v with
  | some a => exact ⟨rfl, rfl⟩
  | none => simp [DSGraph.hasNodeForValue, hM] at h

theorem nodeFor_map (newNode : DSGraph → Nat) (g : DSGraph) (v : Value) :
    (g.nodeFor newNode v).1.ScalarMap v = some (g.nodeFor newNode v).2 := by
  unfold DSGraph.nodeFor
  cases hM : g.ScalarMap v with
  | some a => simp [hM]
  | none => simp

theorem mergeWith_grows (g : DSGraph) (a b : Nat) :
    g.grows (g.mergeWith (some a) (some b)) :=
  DSGraph.grows_of_le (Op.run_le (Op.merge a b) g)

theorem runtimeCheckCall_grows (newNode : DSGraph → Nat) (ci : Instruction) (op : Operand)
    (g : DSGraph) : g.grows (runtimeCheckCall newNode ci op g) := by
  unfold runtimeCheckCall
  exact DSGraph.grows_trans (nodeFor_grows newNode g ci.self)
    (DSGraph.grows_trans (nodeFor_grows newNode _ op.val) (mergeWith_grows _ _ _))

theorem runtimeCheckCall_shareNode (newNode : DSGraph → Nat) (ci : Instruction) (op : Operand)
    (g : DSGraph) : (runtimeCheckCall newNode ci op g).shareNode ci.self op.val := by
  unfold runtimeCheckCall
  refine ⟨(g.nodeFor newNode ci.self).2,
    ((g.nodeFor newNode ci.self).1.nodeFor newNode op.val).2, ?_, ?_, ?_⟩
  · apply (mergeWith_grows _ _ _).map
    apply (nodeFor_grows newNode _ op.val).map
    exact nodeFor_map newNode g ci.self
  · apply (mergeWith_grows _ _ _).map
    exact nodeFor_map newNode _ op.val
  · exact Op.post_run (Op.merge _ _) _

theorem shareNode_grows {g g' : DSGraph} (h : g.grows g') (v w : Value)
    (hs : g.shareNode v w) : g'.shareNode v w := by
  obtain ⟨r, a, hr, ha, hra⟩ := hs
  exact ⟨r, a, h.map v r hr, h.map w a ha, h.same r a hra⟩

theorem runtimeCheckUser_grows (newNode : DSGraph → Nat) (F : Function) (arg : Nat)
    (s s1 : PassState) (u : User) (h : runtimeCheckUser newNode F arg s u = some s1) (p : Nat) :
    (s.DSInfo p).grows (s1.DSInfo p) := by
  cases u with
  | callInst ci =>
    simp only [runtimeCheckUser] at h
    by_cases h0 : ci.operand0Is F.self = true
    · simp only [h0, if_true] at h
      cases hop : ci.operands[arg]? with
      | none => simp [hop] at h
      | some op =>
        simp only [hop, Option.some.injEq] at h
        subst h
        simp only [PassState.setDSGraph, PassState.getDSGraph]
        by_cases hp : p = ci.parent
        · simp only [hp, if_true]
          exact runtimeCheckCall_grows newNode ci op _
        · simp only [hp, if_false]
          exact DSGraph.grows_refl _
    · simp only [h0, Bool.false_eq_true, if_false, Option.some.injEq] at h
      subst h
      exact DSGraph.grows_refl _
  | invokeInst ci =>
    simp only [runtimeCheckUser, Option.some.injEq] at h
    subst h; exact DSGraph.grows_refl _
  | constantExpr ce c us =>
    simp only [runtimeCheckUser, Option.some.injEq] at h
    subst h; exact DSGraph.grows_refl _
  | other =>
    simp only [runtimeCheckUser, Option.some.injEq] at h
    subst h; exact DSGraph.grows_refl _

theorem runtimeCheckLoop_grows (newNode : DSGraph → Nat) (F : Function) (arg : Nat)
    (us : List User) :
    ∀ (s s1 : PassState), runtimeCheckLoop newNode F arg us s = some s1 →
      ∀ p, (s.DSInfo p).grows (s1.DSInfo p) := by
  induction us with
  | nil =>
    intro s s1 h p
    simp only [runtimeCheckLoop, Option.some.injEq] at h
    subst h; exact DSGraph.grows_refl _
  | cons u us ih =>
    intro s s1 h p
    simp only [runtimeCheckLoop] at h
    cases hu : runtimeCheckUser newNode F arg s u with
    | none => simp [hu] at h
    | some s2 =>
      simp only [hu] at h
      exact DSGraph.grows_trans (runtimeCheckUser_grows newNode F arg s s2 u hu p)
        (ih s2 s1 h p)

/-- After the loop, the result of every direct call it has met shares its
node with the operand at the index. -/
theorem runtimeCheckLoop_shareNode (newNode : DSGraph → Nat) (F : Function) (arg : Nat)
    (us : List User) :
    ∀ (s s1 : PassState), runtimeCheckLoop newNode F arg us s = some s1 →
      ∀ (ci : Instruction) (op : Operand), User.callInst ci ∈ us →
        ci.operand0Is F.self = true → ci.operands[arg]? = some op →
        (s1.DSInfo ci.parent).shareNode ci.self op.val := by
  induction us with
  | nil => intro s s1 _ ci op hmem; cases hmem
  | cons u us ih =>
    intro s s1 h ci op hmem h0 hop
    simp only [runtimeCheckLoop] at h
    cases hu : runtimeCheckUser newNode F arg s u with
    | none => simp [hu] at h
    | some s2 =>
      simp only [hu] at h
      rcases List.mem_cons.1 hmem with hhead | htail
      · subst hhead
        simp only [runtimeCheckUser, h0, if_true, hop, Option.some.injEq] at hu
        subst hu
        apply shareNode_grows (runtimeCheckLoop_grows newNode F arg us _ s1 h ci.parent)
        simp only [PassState.setDSGraph, PassState.getDSGraph, if_true]
        exact runtimeCheckCall_shareNode newNode ci op _
      · exact ih s2 s1 h ci op htail h0 hop

/-- The loop returns a state when every direct call it meets has an operand
at the index. -/
theorem runtimeCheckLoop_total (newNode : DSGraph → Nat) (F : Function) (arg : Nat)
    (us : List User) :
    (∀ ci, User.callInst ci ∈ us → ci.operand0Is F.self = true →
      ∃ op, ci.operands[arg]? = some op) →
    ∀ s : PassState, ∃ s1, runtimeCheckLoop newNode F arg us s = some s1 := by
  induction us with
  | nil => intro _ s; exact ⟨s, rfl⟩
  | cons u us ih =>
    intro hall s
    have hrest := ih (fun ci hci => hall ci (List.mem_cons_of_mem u hci))
    have hstep : ∃ s2, runtimeCheckUser newNode F arg s u = some s2 := by
      cases u with
      | callInst ci =>
        by_cases h0 : ci.operand0Is F.self = true
        · obtain ⟨op, hop⟩ := hall ci (List.mem_cons_self _ _) h0
          exact ⟨s.setDSGraph ci.parent
            (runtimeCheckCall newNode ci op (s.getDSGraph ci.parent)),
            by simp only [runtimeCheckUser, h0, if_true, hop]⟩
        · exact ⟨s, by simp [runtimeCheckUser, h0]⟩
      | invokeInst ci => exact ⟨s, rfl⟩
      | constantExpr ce c us2 => exact ⟨s, rfl⟩
      | other => exact ⟨s, rfl⟩
    obtain ⟨s2, hs2⟩ := hstep
    obtain ⟨s1, hs1⟩ := hrest s2
    exact ⟨s1, by simp only [runtimeCheckLoop, hs2, hs1]⟩

theorem eraseCallsTo_le (F : Function) (s : PassState) (p : Nat) :
    (s.DSInfo p).le ((eraseCallsTo F s).DSInfo p) := by
  rw [(eraseCallsTo_eq F s).1]
  exact runSOps_le _ s.DSInfo p

theorem matched_erase_ops (F : Function) (ci : Instruction) (hm : Matched F ci) :
    (ci.parent, Op.erase F.self) ∈ (F.uses.map (eraseUserOps F)).flatten := by
  simp only [List.mem_flatten, List.mem_map]
  rcases hm with ⟨hu, h0⟩ | ⟨hu, h0⟩ | ⟨ce, uses, hu, hcu, h0⟩
  · exact ⟨_, ⟨_, hu, rfl⟩, by simp [eraseUserOps, h0]⟩
  · exact ⟨_, ⟨_, hu, rfl⟩, by simp [eraseUserOps, h0]⟩
  · refine ⟨_, ⟨_, hu, rfl⟩, ?_⟩
    simp only [eraseUserOps, if_true, List.mem_flatten, List.mem_map]
    exact ⟨_, ⟨_, hcu, rfl⟩, by simp [eraseCEUserOps, h0]⟩

/-- After `eraseCallsTo`, the graph of a matched call site has no call site
to `F`. -/
theorem erased_after_eraseCallsTo (F : Function) (s : PassState) (ci : Instruction)
    (hm : Matched F ci) :
    ∀ cs ∈ ((eraseCallsTo F s).DSInfo ci.parent).FunctionCalls, cs.callee ≠ some F.self := by
  rw [(eraseCallsTo_eq F s).1]
  exact post_runSOps _ s.DSInfo (ci.parent, Op.erase F.self) (matched_erase_ops F ci hm)

theorem processRuntimeCheck_grows (newNode : DSGraph → Nat) (M : Module) (name : String)
    (arg : Nat) (s s1 : PassState) (h : processRuntimeCheck newNode M name arg s = some s1)
    (p : Nat) : (s.DSInfo p).grows (s1.DSInfo p) := by
  unfold processRuntimeCheck at h
  cases hF : M.getFunction name with
  | none =>
    simp only [hF, Option.some.injEq] at h
    subst h; exact DSGraph.grows_refl _
  | some F =>
    simp only [hF] at h
    cases hl : runtimeCheckLoop newNode F arg F.uses s with
    | none => simp [hl] at h
    | some s2 =>
      simp only [hl, Option.some.injEq] at h
      subst h
      exact DSGraph.grows_trans (runtimeCheckLoop_grows newNode F arg F.uses s s2 hl p)
        (DSGraph.grows_of_le (eraseCallsTo_le F s2 p))

/-- C14: the run-time checks of `runOnModule` are `sc.boundscheck` and
`sc.boundscheckui` with index 3 and `sc.exactcheck2` and `sc.get_actual_val`
with index 2.  When the module has no function of the name,
`processRuntimeCheck` returns the state unchanged.  When it has one and
every direct call of it has an operand at the index, `processRuntimeCheck`
returns a state in which, for every direct call, the result and the operand
at the index have nodes and denote the same node, and the graph of the
caller has no call site to the function. -/
theorem runtime_check_merges_result_with_argument (newNode : DSGraph → Nat) (M : Module)
    (name : String) (arg : Nat) (s : PassState) :
    runtimeChecks = [("sc.boundscheck", 3), ("sc.boundscheckui", 3), ("sc.exactcheck2", 2),
      ("sc.get_actual_val", 2)] ∧
    (M.getFunction name = none → processRuntimeCheck newNode M name arg s = some s) ∧
    (∀ F, M.getFunction name = some F →
      (∀ ci, User.callInst ci ∈ F.uses → ci.operand0Is F.self = true →
        ∃ op, ci.operands[arg]? = some op) →
      ∃ s1, processRuntimeCheck newNode M name arg s = some s1 ∧
        ∀ (ci : Instruction) (op : Operand), User.callInst ci ∈ F.uses →
          ci.operand0Is F.self = true → ci.operands[arg]? = some op →
          (s1.DSInfo ci.parent).shareNode ci.self op.val ∧
          ∀ cs ∈ (s1.DSInfo ci.parent).FunctionCalls, cs.callee ≠ some F.self) := by
  refine ⟨rfl, ?_, ?_⟩
  · intro hF
    simp only [processRuntimeCheck, hF]
  · intro F hF hall
    obtain ⟨s2, hs2⟩ := runtimeCheckLoop_total newNode F arg F.uses hall s
    refine ⟨eraseCallsTo F s2, by simp only [processRuntimeCheck, hF, hs2], ?_⟩
    intro ci op hu h0 hop
    constructor
    · apply shareNode_grows (DSGraph.grows_of_le (eraseCallsTo_le F s2 ci.parent))
      exact runtimeCheckLoop_shareNode newNode F arg F.uses s s2 hs2 ci op hu h0 hop
    · exact erased_after_eraseCallsTo F s2 ci (Or.inl ⟨hu, h0⟩)

/-- C14, witness: the module whose only function is `sc.boundscheck`, called
once directly by `%10 = call @100(%1, %1, %2)`; afterwards `%10` and `%2`
denote the same node. -/
theorem runtime_check_witness :
    (exCheckModule [User.callInst exCheckCall]).getFunction "sc.boundscheck"
      = some (exCheckFunction [User.callInst exCheckCall]) ∧
    ∃ s1, processRuntimeCheck exNewNode (exCheckModule [User.callInst exCheckCall])
        "sc.boundscheck" 3 exStateCheck = some s1 ∧
      (s1.DSInfo 0).shareNode 10 2 :=
  have hF : (exCheckModule [User.callInst exCheckCall]).getFunction "sc.boundscheck"
      = some (exCheckFunction [User.callInst exCheckCall]) := by rfl
  have h := (runtime_check_merges_result_with_argument exNewNode
    (exCheckModule [User.callInst exCheckCall]) "sc.boundscheck" 3 exStateCheck).2.2 _ hF
    (by
      intro ci hci _
      simp only [exCheckFunction, List.mem_singleton, User.callInst.injEq] at hci
      subst hci
      exact ⟨⟨2, true⟩, rfl⟩)
  ⟨hF, h.choose, h.choose_spec.1,
    (h.choose_spec.2 exCheckCall ⟨2, true⟩ (by simp [exCheckFunction]) (by decide) rfl).1⟩

theorem mergeWith_carries (g : DSGraph) (a b : Nat) (m : Marker) :
    (g.mergeWith (some a) (some b)).carries a m = (g.carries a m || g.carries b m) ∧
    (g.mergeWith (some a) (some b)).carries b m = (g.carries a m || g.carries b m) := by
  simp only [DSGraph.mergeWith, DSGraph.carries]
  by_cases hab : g.forward a = g.forward b
  · simp [hab]
  · have hba : ¬ g.forward b = g.forward a := fun h => hab h.symm
    simp [hab, DSNode.has_or]

/-- C16: every node that carries the read, modified, heap or folded
attribute before `processFunction` carries it afterwards, and so does every
node before and after `processRuntimeCheck`, whenever that returns; the node
that a handle denotes afterwards is the unified one.  A merge gives the
unified node the OR of the attributes of the two nodes, so that a merge
with a folded node yields a folded node. -/
theorem effect_application_never_clears_attribute :
    (∀ (oob : OutOfRange) (noStdLibFold : Bool) (x : Nat) (F : Function) (s : PassState)
        (p a : Nat) (m : Marker), (s.DSInfo p).carries a m = true →
        ((processFunction oob noStdLibFold x F s).DSInfo p).carries a m = true) ∧
    (∀ (newNode : DSGraph → Nat) (M : Module) (name : String) (arg : Nat) (s s1 : PassState),
        processRuntimeCheck newNode M name arg s = some s1 →
        ∀ (p a : Nat) (m : Marker), (s.DSInfo p).carries a m = true →
          (s1.DSInfo p).carries a m = true) ∧
    (∀ (g : DSGraph) (a b : Nat) (m : Marker),
        (g.mergeWith (some a) (some b)).sameNode a b ∧
        (g.mergeWith (some a) (some b)).carries a m = (g.carries a m || g.carries b m) ∧
        (g.mergeWith (some a) (some b)).carries b m = (g.carries a m || g.carries b m)) := by
  refine ⟨?_, ?_, ?_⟩
  · intro oob noStdLibFold x F s p a m h
    exact (processFunction_le oob noStdLibFold x F s p).attr a m h
  · intro newNode M name arg s s1 hs p a m h
    exact (processRuntimeCheck_grows newNode M name arg s s1 hs p).attr a m h
  · intro g a b m
    exact ⟨Op.post_run (Op.merge a b) g, (mergeWith_carries g a b m).1,
      (mergeWith_carries g a b m).2⟩

/-- C20, the code at the failing input: `sc.boundscheck` is called once,
by `%10 = call(%1, %1, %2)`, where `%10` has node 2 and `%2` has node 1, and
the graph records the call site.  When the call is direct,
`processRuntimeCheck` leaves the two values on one node and removes the
call site.  When the callee is a pointer cast of the function, or the call
is an invoke, the call site is removed all the same, but the nodes 2 and 1
are not merged. -/
theorem runtime_check_erases_without_merging :
    runtimeChecks.head? = some ("sc.boundscheck", 3) ∧
    exGraphCheck.FunctionCalls = [⟨10, some 100⟩] ∧
    exGraphCheck.ScalarMap 10 = some 2 ∧ exGraphCheck.ScalarMap 2 = some 1 ∧
    (processRuntimeCheck exNewNode (exCheckModule [User.callInst exCheckCall])
        "sc.boundscheck" 3 exStateCheck).map
      (fun s => ((s.DSInfo 0).FunctionCalls, (s.DSInfo 0).forward 2, (s.DSInfo 0).forward 1))
      = some ([], 2, 2) ∧
    (processRuntimeCheck exNewNode
        (exCheckModule [User.constantExpr 101 true [CEUser.callInst exCheckCallCast]])
        "sc.boundscheck" 3 exStateCheck).map
      (fun s => ((s.DSInfo 0).FunctionCalls, (s.DSInfo 0).forward 2, (s.DSInfo 0).forward 1))
      = some ([], 2, 1) ∧
    (processRuntimeCheck exNewNode (exCheckModule [User.invokeInst exCheckCall])
        "sc.boundscheck" 3 exStateCheck).map
      (fun s => ((s.DSInfo 0).FunctionCalls, (s.DSInfo 0).forward 2, (s.DSInfo 0).forward 1))
      = some ([], 2, 1) := by
  refine ⟨rfl, rfl, rfl, rfl, ?_, ?_, ?_⟩ <;> decide

/-! ## `runOnModule` only lets the graphs grow -/

theorem state_grows_refl (s : PassState) : s.grows s := fun _ => DSGraph.grows_refl _

theorem state_grows_trans {s1 s2 s3 : PassState} (h12 : s1.grows s2) (h23 : s2.grows s3) :
    s1.grows s3 := fun p => DSGraph.grows_trans (h12 p) (h23 p)

theorem eraseCallsTo_grows (F : Function) (s : PassState) : s.grows (eraseCallsTo F s) :=
  fun p => DSGraph.grows_of_le (eraseCallsTo_le F s p)

theorem processFunction_grows (oob : OutOfRange) (noStdLibFold : Bool) (x : Nat) (F : Function)
    (s : PassState) : s.grows (processFunction oob noStdLibFold x F s) :=
  fun p => DSGraph.grows_of_le (processFunction_le oob noStdLibFold x F s p)

theorem foldl_grows {α : Type} (f : PassState → α → PassState)
    (hf : ∀ (s : PassState) (u : α), s.grows (f s u)) (l : List α) :
    ∀ s : PassState, s.grows (l.foldl f s) := by
  induction l with
  | nil => intro s; exact state_grows_refl s
  | cons u l ih => intro s; exact state_grows_trans (hf s u) (ih (f s u))

theorem eraseReadNone_step_grows (s : PassState) (I : Function) :
    s.grows
      (if (I.isDeclaration && I.doesNotAccessMemory && !I.returnIsPointerTy) = true then
        eraseCallsTo I s
      else s) := by
  split
  · exact eraseCallsTo_grows I s
  · exact state_grows_refl s

theorem eraseReadNone_grows (M : Module) (s : PassState) : s.grows (eraseReadNone M s) :=
  foldl_grows _ eraseReadNone_step_grows M.functions s

theorem eraseNoPointer_step_grows (s : PassState) (I : Function) :
    s.grows
      (if (I.isDeclaration && !I.isVarArg && !I.returnIsPointerTy) = true then
        (if (!hasPtr I) = true then eraseCallsTo I s else s)
      else s) := by
  split
  · split
    · exact eraseCallsTo_grows I s
    · exact state_grows_refl s
  · exact state_grows_refl s

theorem eraseNoPointer_grows (M : Module) (s : PassState) : s.grows (eraseNoPointer M s) :=
  foldl_grows _ eraseNoPointer_step_grows M.functions s

theorem scanEntry_grows (oob : OutOfRange) (noStdLibFold : Bool) (M : Module) (x : Nat)
    (nm : String) (s : PassState) : s.grows (scanEntry oob noStdLibFold M x nm s) := by
  unfold scanEntry
  split
  · split
    · exact processFunction_grows _ _ _ _ _
    · exact state_grows_refl s
  · exact state_grows_refl s

theorem tableScan_grows (oob : OutOfRange) (noStdLibFold : Bool) (M : Module)
    (l : List RecFunc) :
    ∀ (x : Nat) (s s1 : PassState), tableScan oob noStdLibFold M l x s = some s1 →
      s.grows s1 := by
  induction l with
  | nil => intro x s s1 h; simp [tableScan] at h
  | cons e rest ih =>
    intro x s s1 h
    cases hn : e.name with
    | none =>
      simp only [tableScan, hn, Option.some.injEq] at h
      subst h; exact state_grows_refl s
    | some nm =>
      simp only [tableScan, hn] at h
      exact state_grows_trans (scanEntry_grows oob noStdLibFold M x nm s) (ih _ _ _ h)

theorem wrapperLoop_grows (oob : OutOfRange) (noStdLibFold : Bool) (M : Module) (x : Nat)
    (names : List String) (s : PassState) :
    s.grows (wrapperLoop oob noStdLibFold M x names s) := by
  have hstep : ∀ (s : PassState) (nm : String),
      s.grows (match M.getFunction nm with
        | some F => processFunction oob noStdLibFold x F s
        | none => s) := by
    intro s nm
    cases M.getFunction nm with
    | none => exact state_grows_refl s
    | some F => exact processFunction_grows _ _ _ _ _
  exact foldl_grows _ hstep names s

theorem runtimeCheckStage_grows (newNode : DSGraph → Nat) (M : Module)
    (cs : List (String × Nat)) :
    ∀ (s s1 : PassState), runtimeCheckStage newNode M cs s = some s1 → s.grows s1 := by
  induction cs with
  | nil =>
    intro s s1 h
    simp only [runtimeCheckStage, Option.some.injEq] at h
    subst h; exact state_grows_refl s
  | cons c cs ih =>
    intro s s1 h
    simp only [runtimeCheckStage] at h
    cases hc : processRuntimeCheck newNode M c.1 c.2 s with
    | none => simp [hc] at h
    | some s2 =>
      simp only [hc] at h
      exact state_grows_trans
        (fun p => processRuntimeCheck_grows newNode M c.1 c.2 s s2 hc p) (ih s2 s1 h)

/-- What `runOnModule` returns has grown from the state after the two
erase loops. -/
theorem runOnModule_grows (oob : OutOfRange) (noStdLibFold DisableStdLib : Bool)
    (newNode : DSGraph → Nat) (A : AllocIdentify) (M : Module) (s s1 : PassState)
    (h : runOnModule oob noStdLibFold DisableStdLib newNode A M s = some s1) :
    (eraseNoPointer M (eraseReadNone M s)).grows s1 := by
  unfold runOnModule at h
  cases hD : DisableStdLib with
  | true =>
    simp only [hD, Bool.not_true, Bool.false_eq_true, if_false, Option.some.injEq] at h
    subst h; exact state_grows_refl _
  | false =>
    simp only [hD, Bool.not_false, if_true] at h
    cases h2 : tableScan oob noStdLibFold M recFuncs 0 (eraseNoPointer M (eraseReadNone M s)) with
    | none => simp [h2] at h
    | some s2 =>
      simp only [h2] at h
      simp only [allocStage, findIndex_malloc, deallocStage, findIndex_free] at h
      exact state_grows_trans (tableScan_grows _ _ _ _ _ _ _ h2)
        (state_grows_trans (wrapperLoop_grows oob noStdLibFold M 50 A.allocs s2)
          (state_grows_trans (wrapperLoop_grows oob noStdLibFold M 53 A.deallocs _)
            (runtimeCheckStage_grows newNode M runtimeChecks _ s1 h)))

/-- After the second erase loop, the call sites of every declaration of the
module that is not varargs, does not return a pointer and takes no pointer
are erased. -/
theorem eraseNoPointer_erased (l : List Function) (F : Function) (hF : F ∈ l)
    (hd : F.isDeclaration = true) (hv : F.isVarArg = false) (hr : F.returnIsPointerTy = false)
    (ha : hasPtr F = false) (ci : Instruction) (hm : Matched F ci) :
    ∀ s : PassState,
      ∀ cs ∈ ((l.foldl
          (fun (s : PassState) (I : Function) =>
            if (I.isDeclaration && !I.isVarArg && !I.returnIsPointerTy) = true then
              (if (!hasPtr I) = true then eraseCallsTo I s else s)
            else s) s).DSInfo ci.parent).FunctionCalls,
        cs.callee ≠ some F.self := by
  induction l with
  | nil => cases hF
  | cons I l ih =>
    intro s
    simp only [List.foldl_cons]
    rcases List.mem_cons.1 hF with h | h
    · subst h
      simp only [hd, hv, hr, ha, Bool.not_false, Bool.and_self, if_true]
      intro cs hcs
      have hg := foldl_grows _ eraseNoPointer_step_grows l (eraseCallsTo F s) ci.parent
      exact erased_after_eraseCallsTo F s ci hm cs (hg.calls cs hcs)
    · exact ih h _

theorem removeFunctionCalls_sameNodes (g : DSGraph) (f : Value) :
    g.sameNodes (g.removeFunctionCalls f) := ⟨rfl, rfl, rfl⟩

theorem erase_ops_sameNodes (l : List SOp) (hl : ∀ o ∈ l, ∃ f, o.2 = Op.erase f) :
    ∀ (D : Nat → DSGraph) (p : Nat), (D p).sameNodes (runSOps l D p) := by
  induction l with
  | nil => intro D p; exact ⟨rfl, rfl, rfl⟩
  | cons o l ih =>
    intro D p
    rw [runSOps_cons]
    have h2 := ih (fun o2 h2 => hl o2 (List.mem_cons_of_mem o h2)) (o.run D) p
    obtain ⟨f, hf⟩ := hl o (List.mem_cons_self o l)
    have h1 : (D p).sameNodes (o.run D p) := by
      unfold SOp.run
      by_cases hp : p = o.1
      · simp only [hp, if_true, hf]
        exact removeFunctionCalls_sameNodes _ f
      · simp only [hp, if_false]
        exact ⟨rfl, rfl, rfl⟩
    exact ⟨h2.1.trans h1.1, h2.2.1.trans h1.2.1, h2.2.2.trans h1.2.2⟩

theorem eraseUserOps_erase (F : Function) (o : SOp)
    (ho : o ∈ (F.uses.map (eraseUserOps F)).flatten) : ∃ f, o.2 = Op.erase f := by
  simp only [List.mem_flatten, List.mem_map] at ho
  obtain ⟨l, ⟨u, _, rfl⟩, hol⟩ := ho
  cases u with
  | callInst ci =>
    simp only [eraseUserOps] at hol
    split at hol
    · simp only [List.mem_singleton] at hol; exact ⟨F.self, by rw [hol]⟩
    · cases hol
  | invokeInst ci =>
    simp only [eraseUserOps] at hol
    split at hol
    · simp only [List.mem_singleton] at hol; exact ⟨F.self, by rw [hol]⟩
    · cases hol
  | constantExpr ce c us =>
    simp only [eraseUserOps] at hol
    split at hol
    · simp only [List.mem_flatten, List.mem_map] at hol
      obtain ⟨l2, ⟨cu, _, rfl⟩, hol2⟩ := hol
      cases cu with
      | callInst ci =>
        simp only [eraseCEUserOps] at hol2
        split at hol2
        · simp only [List.mem_singleton] at hol2; exact ⟨F.self, by rw [hol2]⟩
        · cases hol2
      | other => cases hol2
    · cases hol
  | other => cases hol

/-- The method `eraseCallsTo` changes no node: it only removes call sites. -/
theorem eraseCallsTo_sameNodes (F : Function) (s : PassState) (p : Nat) :
    (s.DSInfo p).sameNodes ((eraseCallsTo F s).DSInfo p) := by
  rw [(eraseCallsTo_eq F s).1]
  exact erase_ops_sameNodes _ (eraseUserOps_erase F) s.DSInfo p

/-! ## Calls without a pointer-typed operand -/

theorem argOps_nil_of_no_pointer (oob : OutOfRange) (A : libAction) (M : Value → DSNodeHandle)
    (ops : List Operand) (h : ∀ op ∈ ops, op.isPointerTy = false) :
    ∀ y : Nat, argMarkOps oob A M y ops = [] ∧ argMarkOpsCast oob A M y ops = [] ∧
      toMergeArgs oob A M y ops = [] ∧ argFoldOps M ops = [] ∧ argFoldCount M ops = 0 := by
  induction ops with
  | nil => intro y; exact ⟨rfl, rfl, rfl, rfl, rfl⟩
  | cons op ops ih =>
    intro y
    have hop := h op (List.mem_cons_self _ _)
    obtain ⟨h1, h2, h3, h4, h5⟩ := ih (fun o ho => h o (List.mem_cons_of_mem _ ho)) (y + 1)
    simp [argMarkOps, argMarkOpsCast, toMergeArgs, argFoldOps, argFoldCount, hop, h1, h2, h3,
      h4, h5]

theorem bodyOps_nil_of_no_pointer (cast : Bool) (oob : OutOfRange) (noStdLibFold : Bool)
    (A : libAction) (ci : Instruction) (M : Value → DSNodeHandle)
    (hr : ci.isPointerTy = false) (h : ∀ op ∈ ci.operands.tail, op.isPointerTy = false) :
    bodyOps cast oob noStdLibFold A ci M = [] ∧ collapseCount noStdLibFold A ci M = 0 := by
  obtain ⟨h1, h2, h3, h4, h5⟩ := argOps_nil_of_no_pointer oob A M ci.operands.tail h 1
  simp [bodyOps, resultMarkOps, toMergeList, collapseOps, collapseCount, mergeOps, hr, h1, h2,
    h3, h4, h5]

theorem functionOps_of_no_pointer (oob : OutOfRange) (noStdLibFold : Bool) (A : libAction)
    (F : Function) (MM : Nat → Value → DSNodeHandle)
    (h : ∀ ci, Matched F ci →
      ci.isPointerTy = false ∧ ∀ op ∈ ci.operands.tail, op.isPointerTy = false) :
    functionOps oob noStdLibFold A F MM = (F.uses.map (eraseUserOps F)).flatten ∧
    functionCount noStdLibFold A F MM = 0 := by
  have hu : ∀ u ∈ F.uses, userOps oob noStdLibFold A F MM u = [] ∧
      userCount noStdLibFold A F MM u = 0 := by
    intro u hmem
    cases u with
    | callInst ci =>
      by_cases h0 : ci.operand0Is F.self = true
      · obtain ⟨hr, hops⟩ := h ci (Or.inl ⟨hmem, h0⟩)
        obtain ⟨hb, hc⟩ := bodyOps_nil_of_no_pointer false oob noStdLibFold A ci (MM ci.parent)
          hr hops
        simp [userOps, userCount, h0, hb, hc, atGraph]
      · simp [userOps, userCount, h0]
    | invokeInst ci =>
      by_cases h0 : ci.operand0Is F.self = true
      · obtain ⟨hr, hops⟩ := h ci (Or.inr (Or.inl ⟨hmem, h0⟩))
        obtain ⟨hb, hc⟩ := bodyOps_nil_of_no_pointer false oob noStdLibFold A ci (MM ci.parent)
          hr hops
        simp [userOps, userCount, h0, hb, hc, atGraph]
      · simp [userOps, userCount, h0]
    | constantExpr ce c us =>
      cases c with
      | false => simp [userOps, userCount]
      | true =>
        have hcu : ∀ cu ∈ us, ceUserOps oob noStdLibFold A ce MM cu = [] ∧
            ceUserCount noStdLibFold A ce MM cu = 0 := by
          intro cu hcmem
          cases cu with
          | callInst ci =>
            by_cases h0 : ci.operand0Is ce = true
            · obtain ⟨hr, hops⟩ := h ci (Or.inr (Or.inr ⟨ce, us, hmem, hcmem, h0⟩))
              obtain ⟨hb, hc⟩ := bodyOps_nil_of_no_pointer true oob noStdLibFold A ci
                (MM ci.parent) hr hops
              simp [ceUserOps, ceUserCount, h0, hb, hc, atGraph]
            · simp [ceUserOps, ceUserCount, h0]
          | other => exact ⟨rfl, rfl⟩
        constructor
        · simp only [userOps, if_true, List.flatten_eq_nil_iff, List.mem_map]
          rintro l ⟨cu, hcmem, rfl⟩
          exact (hcu cu hcmem).1
        · simp only [userCount, if_true]
          apply List.sum_eq_zero
          intro n hn
          obtain ⟨cu, hcmem, rfl⟩ := List.mem_map.1 hn
          exact (hcu cu hcmem).2
    | other => exact ⟨rfl, rfl⟩
  constructor
  · unfold functionOps
    have : (F.uses.map (userOps oob noStdLibFold A F MM)).flatten = [] := by
      simp only [List.flatten_eq_nil_iff, List.mem_map]
      rintro l ⟨u, hmem, rfl⟩
      exact (hu u hmem).1
    rw [this, List.nil_append]
  · unfold functionCount
    apply List.sum_eq_zero
    intro n hn
    obtain ⟨u, hmem, rfl⟩ := List.mem_map.1 hn
    exact (hu u hmem).2

theorem hasPtr_false (F : Function) (h : ∀ t ∈ F.argIsPointerTy, t = false) :
    hasPtr F = false := by
  unfold hasPtr
  rw [List.any_eq_false]
  intro t ht
  simp [h t ht]

set_option maxRecDepth 100000 in
theorem runOnModule_exVarArgs :
    (runOnModule exOob false false exNewNode exNoWrappers ⟨[exVarArgs]⟩ exState).map
      (fun s => (s.DSInfo 0).FunctionCalls) = some [⟨10, some 100⟩, ⟨11, some 200⟩] := by
  decide

set_option maxRecDepth 100000 in
theorem runOnModule_exNoPointer :
    ∃ s1, runOnModule exOob false false exNewNode exNoWrappers ⟨[exNoPointer]⟩ exState
      = some s1 := by
  have h : (runOnModule exOob false false exNewNode exNoWrappers ⟨[exNoPointer]⟩
      exState).isSome = true := by decide
  exact Option.isSome_iff_exists.1 h

/-! ## The `InvokeInst` branch and the `CallInst` branch -/

theorem slot_indep (arr : List Bool) (b b' : Nat → Bool) (y : Nat) (hy : y < numOps) :
    slot arr b y = slot arr b' y := by
  simp [slot, hy]

theorem markSlot_indep (oob oob' : OutOfRange) (A : libAction) (y : Nat) (v : Value)
    (g : DSGraph) (hy : y < numOps) : markSlot oob A y v g = markSlot oob' A y v g := by
  unfold markSlot
  rw [slot_indep A.read oob.read oob'.read y hy, slot_indep A.write oob.write oob'.write y hy,
    slot_indep A.heap oob.heap oob'.heap y hy]

theorem markResult_indep (oob oob' : OutOfRange) (A : libAction) (ci : Instruction)
    (g : DSGraph) : markResult oob A ci g = markResult oob' A ci g := by
  unfold markResult
  rw [markSlot_indep oob oob' A 0 ci.self g (by decide)]

theorem markArguments_indep (oob oob' : OutOfRange) (A : libAction) (ops : List Operand) :
    ∀ (y : Nat) (g : DSGraph), y + ops.length ≤ numOps →
      markArguments oob A y ops g = markArguments oob' A y ops g := by
  induction ops with
  | nil => intro y g _; rfl
  | cons op ops ih =>
    intro y g h
    simp only [List.length_cons] at h
    simp only [markArguments]
    rw [markSlot_indep oob oob' A y op.val g (by omega), ih (y + 1) _ (by omega)]

theorem toMergeResult_indep (oob oob' : OutOfRange) (A : libAction) (ci : Instruction)
    (g : DSGraph) : toMergeResult oob A ci g = toMergeResult oob' A ci g := by
  unfold toMergeResult
  rw [slot_indep A.mergeNodes oob.mergeNodes oob'.mergeNodes 0 (by decide)]

theorem toMergeArguments_indep (oob oob' : OutOfRange) (A : libAction) (g : DSGraph)
    (ops : List Operand) :
    ∀ (y : Nat), y + ops.length ≤ numOps →
      toMergeArguments oob A g y ops = toMergeArguments oob' A g y ops := by
  induction ops with
  | nil => intro y _; rfl
  | cons op ops ih =>
    intro y h
    simp only [List.length_cons] at h
    simp only [toMergeArguments]
    rw [slot_indep A.mergeNodes oob.mergeNodes oob'.mergeNodes y (by omega),
      ih (y + 1) (by omega)]

theorem tail_fits (ci : Instruction) (hn : ci.operands.length ≤ numOps) :
    1 + ci.operands.tail.length ≤ numOps := by
  have h : ci.operands.tail.length = ci.operands.length - 1 := by simp
  have h10 : (1 : Nat) ≤ numOps := by decide
  omega

/-- For a call within the slots of the table, the body of the `CallInst`
branch does not depend on what reads past the table arrays yield. -/
theorem callBody_indep (oob oob' : OutOfRange) (noStdLibFold : Bool) (A : libAction)
    (ci : Instruction) (hn : ci.operands.length ≤ numOps) (gn : DSGraph × Nat) :
    callBody oob noStdLibFold A ci gn = callBody oob' noStdLibFold A ci gn := by
  have ht := tail_fits ci hn
  simp only [callBody, mergeStep]
  rw [markResult_indep oob oob', markArguments_indep oob oob' A _ 1 _ ht,
    toMergeResult_indep oob oob', toMergeArguments_indep oob oob' A _ _ 1 ht]

/-- C21: for every table entry `x` and every instruction with at most 9
arguments (operand 0 is the callee, so at most `numOps` operands), the body
of the `InvokeInst` branch of `processFunction` maps every graph and count to
the same graph and count as the body of the `CallInst` branch does for the
same instruction, whatever the reads past the table arrays would yield in
either branch; both bodies run the same list of primitive updates (markers,
merges, folds) and add the same number to the statistic; one iteration of the
loop of `processFunction` gives the same state for the instruction as a
direct invoke and as a direct call of `F`; and so does `processFunction` on a
function whose one use is that instruction. -/
theorem invoke_branch_agrees_with_call_branch (oob oob' : OutOfRange) (noStdLibFold : Bool)
    (x : Nat) (F : Function) (ci : Instruction) (s : PassState)
    (hn : ci.operands.length ≤ numOps) :
    (∀ gn : DSGraph × Nat,
      invokeBody oob noStdLibFold (action x) ci gn
        = callBody oob' noStdLibFold (action x) ci gn) ∧
    (∀ (g : DSGraph) (n : Nat),
      invokeBody oob noStdLibFold (action x) ci (g, n)
        = (runOps (bodyOps false oob' noStdLibFold (action x) ci g.ScalarMap) g,
            n + collapseCount noStdLibFold (action x) ci g.ScalarMap) ∧
      callBody oob' noStdLibFold (action x) ci (g, n)
        = (runOps (bodyOps false oob' noStdLibFold (action x) ci g.ScalarMap) g,
            n + collapseCount noStdLibFold (action x) ci g.ScalarMap)) ∧
    processUser oob noStdLibFold (action x) F s (User.invokeInst ci)
      = processUser oob' noStdLibFold (action x) F s (User.callInst ci) ∧
    eraseUser F s (User.invokeInst ci) = eraseUser F s (User.callInst ci) ∧
    processFunction oob noStdLibFold x { F with uses := [User.invokeInst ci] } s
      = processFunction oob' noStdLibFold x { F with uses := [User.callInst ci] } s := by
  have hb : ∀ gn : DSGraph × Nat,
      invokeBody oob noStdLibFold (action x) ci gn
        = callBody oob' noStdLibFold (action x) ci gn := by
    intro gn
    rw [← callBody_indep oob oob' noStdLibFold (action x) ci hn gn]
    simp only [invokeBody, callBody]
  have hfun : invokeBody oob noStdLibFold (action x) ci
      = callBody oob' noStdLibFold (action x) ci := funext hb
  have hu : processUser oob noStdLibFold (action x) F s (User.invokeInst ci)
      = processUser oob' noStdLibFold (action x) F s (User.callInst ci) := by
    simp only [processUser, hfun]
  refine ⟨hb, ?_, hu, ?_, ?_⟩
  · intro g n
    refine ⟨?_, callBody_eq oob' noStdLibFold (action x) ci g n⟩
    rw [hb (g, n)]
    exact callBody_eq oob' noStdLibFold (action x) ci g n
  · simp only [eraseUser]
  · simp only [processFunction, eraseCallsTo, List.foldl_cons, List.foldl_nil, processUser,
      eraseUser, hfun]

/-- C21, witness: the instruction `%10 = invoke strcpy(%1, %2)` with the
`strcpy` entry; the two branches give the same state, in which the node of
`%1` carries the read marker and the statistic stands at 3. -/
theorem invoke_branch_witness :
    exCall.operands.length ≤ numOps ∧
    processUser exOob false (action 75) exStrcpy exState (User.invokeInst exCall)
      = processUser exOobTrue false (action 75) exStrcpy exState (User.callInst exCall) ∧
    ((processUser exOob false (action 75) exStrcpy exState (User.invokeInst exCall)).DSInfo
      0).carries 0 .read = true ∧
    (processUser exOob false (action 75) exStrcpy exState
      (User.invokeInst exCall)).NumNodesFoldedInStdLib = 3 :=
  ⟨by decide,
    (invoke_branch_agrees_with_call_branch exOob exOobTrue false 75 exStrcpy exCall exState
      (by decide)).2.2.1,
    by rw [action_at_75]; decide, by rw [action_at_75]; decide⟩

/-! ## Name matching in the table scan and in the wrapper loops -/

theorem getFunction_dropNamed (M : Module) (name nm : String) :
    (M.dropNamed name).getFunction nm = if nm = name then none else M.getFunction nm := by
  unfold Module.getFunction Module.dropNamed
  simp only [List.find?_filter]
  by_cases h : nm = name
  · subst h
    simp only [if_true, List.find?_eq_none]
    intro F _
    by_cases hF : F.name = nm <;> simp [hF]
  · simp only [h, if_false]
    congr 1
    funext F
    by_cases hF : F.name = nm
    · have : F.name ≠ name := fun hc => h (hF ▸ hc)
      simp [hF, this]
      exact fun hc => this (hF ▸ hc)
    · simp [hF]

/-- A function that has a body makes no difference to any step of the
table scan. -/
theorem scanEntry_dropNamed (oob : OutOfRange) (noStdLibFold : Bool) (M : Module)
    (F : Function) (hF : M.getFunction F.name = some F) (hd : F.isDeclaration = false)
    (x : Nat) (nm : String) (s : PassState) :
    scanEntry oob noStdLibFold M x nm s
      = scanEntry oob noStdLibFold (M.dropNamed F.name) x nm s := by
  unfold scanEntry
  rw [getFunction_dropNamed]
  by_cases h : nm = F.name
  · subst h
    simp [hF, hd]
  · simp [h]

theorem tableScan_dropNamed (oob : OutOfRange) (noStdLibFold : Bool) (M : Module)
    (F : Function) (hF : M.getFunction F.name = some F) (hd : F.isDeclaration = false)
    (l : List RecFunc) :
    ∀ (x : Nat) (s : PassState),
      tableScan oob noStdLibFold M l x s
        = tableScan oob noStdLibFold (M.dropNamed F.name) l x s := by
  induction l with
  | nil => intro x s; rfl
  | cons e rest ih =>
    intro x s
    cases hn : e.name with
    | none => simp [tableScan, hn]
    | some nm =>
      simp only [tableScan, hn]
      rw [scanEntry_dropNamed oob noStdLibFold M F hF hd, ih]

/-- The wrapper loop applies `processFunction` to every function that
`getFunction` finds for a reported name. -/
theorem wrapperLoop_eq (oob : OutOfRange) (noStdLibFold : Bool) (M : Module) (x : Nat)
    (names : List String) :
    ∀ s : PassState,
      wrapperLoop oob noStdLibFold M x names s
        = (names.filterMap M.getFunction).foldl
            (fun s G => processFunction oob noStdLibFold x G s) s := by
  induction names with
  | nil => intro s; rfl
  | cons nm names ih =>
    intro s
    have hstep := ih
    unfold wrapperLoop at hstep ⊢
    simp only [List.foldl_cons]
    cases hG : M.getFunction nm with
    | none => simp only [List.filterMap_cons, hG]; exact hstep s
    | some G => simp only [List.filterMap_cons, hG, List.foldl_cons]; exact hstep _

/-- After a loop of `processFunction` steps, the call sites of every
function that one of the steps was for are erased. -/
theorem erased_after_steps {α : Type} (f : PassState → α → PassState)
    (hf : ∀ (s : PassState) (u : α), s.grows (f s u)) (l : List α) (t : α) (ht : t ∈ l)
    (F : Function) (ci : Instruction)
    (hstep : ∀ s : PassState,
      ∀ cs ∈ ((f s t).DSInfo ci.parent).FunctionCalls, cs.callee ≠ some F.self) :
    ∀ s : PassState,
      ∀ cs ∈ ((l.foldl f s).DSInfo ci.parent).FunctionCalls, cs.callee ≠ some F.self := by
  induction l with
  | nil => cases ht
  | cons u l ih =>
    intro s
    simp only [List.foldl_cons]
    rcases List.mem_cons.1 ht with h | h
    · subst h
      intro cs hcs
      exact hstep s cs ((foldl_grows f hf l (f s t) ci.parent).calls cs hcs)
    · exact ih h _

/-- What `runOnModule` returns, with the summaries enabled, has grown from
what the table scan returns. -/
theorem runOnModule_after_scan (oob : OutOfRange) (noStdLibFold : Bool)
    (newNode : DSGraph → Nat) (A : AllocIdentify) (M : Module) (s s2 : PassState)
    (h : runOnModule oob noStdLibFold false newNode A M s = some s2) :
    ∃ s1, tableScan oob noStdLibFold M recFuncs 0 (eraseNoPointer M (eraseReadNone M s))
        = some s1 ∧ s1.grows s2 := by
  unfold runOnModule at h
  simp only [Bool.not_false, if_true] at h
  cases h2 : tableScan oob noStdLibFold M recFuncs 0 (eraseNoPointer M (eraseReadNone M s)) with
  | none => simp [h2] at h
  | some s1 =>
    simp only [h2] at h
    simp only [allocStage, findIndex_malloc, deallocStage, findIndex_free] at h
    exact ⟨s1, rfl,
      state_grows_trans (wrapperLoop_grows oob noStdLibFold M 50 A.allocs s1)
        (state_grows_trans (wrapperLoop_grows oob noStdLibFold M 53 A.deallocs _)
          (runtimeCheckStage_grows newNode M runtimeChecks _ s2 h))⟩

theorem tableScan_exBodyModule :
    (tableScan exOob false exBodyModule recFuncs 0 exState).map
      (fun s => ((s.DSInfo 0).FunctionCalls, (s.DSInfo 0).nodes 0, s.NumNodesFoldedInStdLib))
      = some ([⟨10, some 100⟩, ⟨11, some 200⟩], exBlank, 0) := by
  decide

theorem tableScan_exStrcpy :
    (tableScan exOob false ⟨[exStrcpy]⟩ recFuncs 0 exState).map
      (fun s => ((s.DSInfo 0).FunctionCalls, (s.DSInfo 0).nodes 0, s.NumNodesFoldedInStdLib))
      = some ([⟨11, some 200⟩], ⟨true, true, false, true⟩, 3) := by
  decide

theorem allocStage_exBodyModule :
    (allocStage exOob false exStrcpyWrapper exBodyModule exState).map
      (fun s => ((s.DSInfo 0).FunctionCalls, (s.DSInfo 0).nodes 1))
      = some ([⟨11, some 200⟩], exBlank) := by
  decide

/-- C22: let `F` be the function of the module that `getFunction` finds for
the name of table entry `x`.  The table scan returns the state that
`processFunction` gives for its targets in order, and `F` with `x` is among
them iff `F` is a declaration.  If it is, every call site that
`eraseCallsTo` matches for `F` is erased after the scan and in whatever
`runOnModule` returns with the summaries enabled.  If `F` has a body, it is a
target of the scan at no index, the step of the scan for entry `x` leaves
every state as it is, and the scan returns what it returns for the module
without `F`.  The wrapper loops apply `processFunction`, with the entries 50
(`malloc`) and 53 (`free`), to every function that `getFunction` finds for a
reported name, a declaration or not, and erase its matched call sites. -/
theorem table_scan_takes_declarations_only (oob : OutOfRange) (noStdLibFold : Bool)
    (newNode : DSGraph → Nat) (A : AllocIdentify) (M : Module) (s : PassState)
    (F : Function) (x : Nat)
    (hx : (recFuncs[x]?).map RecFunc.name = some (some F.name))
    (hF : M.getFunction F.name = some F) :
    tableScan oob noStdLibFold M recFuncs 0 s
      = some ((scanTargets M recFuncs 0).foldl
          (fun s t => processFunction oob noStdLibFold t.1 t.2 s) s) ∧
    ((x, F) ∈ scanTargets M recFuncs 0 ↔ F.isDeclaration = true) ∧
    (F.isDeclaration = true → ∀ ci, Matched F ci →
      (∀ cs ∈ (((scanTargets M recFuncs 0).foldl
          (fun s t => processFunction oob noStdLibFold t.1 t.2 s) s).DSInfo
            ci.parent).FunctionCalls, cs.callee ≠ some F.self) ∧
      (∀ s2, runOnModule oob noStdLibFold false newNode A M s = some s2 →
        ∀ cs ∈ (s2.DSInfo ci.parent).FunctionCalls, cs.callee ≠ some F.self)) ∧
    (F.isDeclaration = false →
      (∀ y, (y, F) ∉ scanTargets M recFuncs 0) ∧
      (∀ s0, scanEntry oob noStdLibFold M x F.name s0 = s0) ∧
      (∀ s0, tableScan oob noStdLibFold M recFuncs 0 s0
        = tableScan oob noStdLibFold (M.dropNamed F.name) recFuncs 0 s0)) ∧
    allocStage oob noStdLibFold A M s
      = some ((A.allocs.filterMap M.getFunction).foldl
          (fun s G => processFunction oob noStdLibFold 50 G s) s) ∧
    deallocStage oob noStdLibFold A M s
      = some ((A.deallocs.filterMap M.getFunction).foldl
          (fun s G => processFunction oob noStdLibFold 53 G s) s) ∧
    (∀ (G : Function) (nm : String), M.getFunction nm = some G →
      (nm ∈ A.allocs →
        G ∈ A.allocs.filterMap M.getFunction ∧
        ∀ ci, Matched G ci →
          ∀ cs ∈ (((A.allocs.filterMap M.getFunction).foldl
              (fun s G => processFunction oob noStdLibFold 50 G s) s).DSInfo
                ci.parent).FunctionCalls, cs.callee ≠ some G.self) ∧
      (nm ∈ A.deallocs →
        G ∈ A.deallocs.filterMap M.getFunction ∧
        ∀ ci, Matched G ci →
          ∀ cs ∈ (((A.deallocs.filterMap M.getFunction).foldl
              (fun s G => processFunction oob noStdLibFold 53 G s) s).DSInfo
                ci.parent).FunctionCalls, cs.callee ≠ some G.self)) := by
  obtain ⟨e, he, hen⟩ := Option.map_eq_some'.1 hx
  have hscan := fun s0 =>
    tableScan_eq oob noStdLibFold M recFuncs recFuncs_endsAtSentinel 0 s0
  have hmem : F.isDeclaration = true → (x, F) ∈ scanTargets M recFuncs 0 := by
    intro hd
    have := scanTargets_complete M recFuncs recFuncs_endsAtSentinel 0 x e F.name F he hen hF hd
    simpa using this
  have hnot : ∀ y, (y, F) ∈ scanTargets M recFuncs 0 → F.isDeclaration = true := by
    intro y hy
    obtain ⟨_, _, _, _, _, hd, _⟩ := mem_scanTargets M recFuncs 0 y F hy
    exact hd
  have hpf : ∀ (s : PassState) (t : Nat × Function),
      s.grows (processFunction oob noStdLibFold t.1 t.2 s) :=
    fun s t => processFunction_grows oob noStdLibFold t.1 t.2 s
  have hwrap : ∀ (y : Nat) (names : List String) (G : Function) (nm : String),
      M.getFunction nm = some G → nm ∈ names →
      G ∈ names.filterMap M.getFunction ∧
      ∀ ci, Matched G ci →
        ∀ cs ∈ (((names.filterMap M.getFunction).foldl
            (fun s G => processFunction oob noStdLibFold y G s) s).DSInfo
              ci.parent).FunctionCalls, cs.callee ≠ some G.self := by
    intro y names G nm hG hnm
    have hin : G ∈ names.filterMap M.getFunction := List.mem_filterMap.2 ⟨nm, hnm, hG⟩
    refine ⟨hin, fun ci hm => ?_⟩
    exact erased_after_steps (fun s G => processFunction oob noStdLibFold y G s)
      (fun s G => processFunction_grows oob noStdLibFold y G s) _ G hin G ci
      (fun s0 => final_erased oob noStdLibFold y G s0 ci hm) s
  refine ⟨hscan s, ⟨hnot x, hmem⟩, ?_, ?_, ?_, ?_, ?_⟩
  · intro hd ci hm
    have herased : ∀ s0 : PassState, ∀ cs ∈ (((scanTargets M recFuncs 0).foldl
          (fun s t => processFunction oob noStdLibFold t.1 t.2 s) s0).DSInfo
            ci.parent).FunctionCalls, cs.callee ≠ some F.self :=
      erased_after_steps (fun s t => processFunction oob noStdLibFold t.1 t.2 s) hpf _ (x, F)
        (hmem hd) F ci (fun s0 => final_erased oob noStdLibFold x F s0 ci hm)
    refine ⟨herased s, ?_⟩
    intro s2 hs2 cs hcs
    obtain ⟨s1, hs1, hg⟩ := runOnModule_after_scan oob noStdLibFold newNode A M s s2 hs2
    rw [hscan] at hs1
    cases hs1
    exact herased _ cs ((hg ci.parent).calls cs hcs)
  · intro hd
    refine ⟨?_, ?_, ?_⟩
    · intro y hy
      rw [hnot y hy] at hd
      cases hd
    · intro s0
      simp [scanEntry, hF, hd]
    · intro s0
      exact tableScan_dropNamed oob noStdLibFold M F hF hd recFuncs 0 s0
  · simp only [allocStage, findIndex_malloc, wrapperLoop_eq]
  · simp only [deallocStage, findIndex_free, wrapperLoop_eq]
  · intro G nm hG
    exact ⟨hwrap 50 A.allocs G nm hG, hwrap 53 A.deallocs G nm hG⟩

/-- C22, witness: the module whose only function is `exStrcpyBody`, a
function named `strcpy` with a body, reported as an allocation wrapper.  It
is no target of the table scan, which leaves the two call sites, the nodes
and the statistic as they were (for the declaration `exStrcpy` it erases the
call site and marks and folds the node), while the loop over the allocation
wrappers processes it and erases its call site. -/
theorem table_scan_declarations_witness :
    ((recFuncs[75]?).map RecFunc.name = some (some exStrcpyBody.name) ∧
      exBodyModule.getFunction exStrcpyBody.name = some exStrcpyBody) ∧
    (75, exStrcpyBody) ∉ scanTargets exBodyModule recFuncs 0 ∧
    (tableScan exOob false exBodyModule recFuncs 0 exState).map
      (fun s => ((s.DSInfo 0).FunctionCalls, (s.DSInfo 0).nodes 0, s.NumNodesFoldedInStdLib))
      = some ([⟨10, some 100⟩, ⟨11, some 200⟩], exBlank, 0) ∧
    (tableScan exOob false ⟨[exStrcpy]⟩ recFuncs 0 exState).map
      (fun s => ((s.DSInfo 0).FunctionCalls, (s.DSInfo 0).nodes 0, s.NumNodesFoldedInStdLib))
      = some ([⟨11, some 200⟩], ⟨true, true, false, true⟩, 3) ∧
    exStrcpyBody ∈ exStrcpyWrapper.allocs.filterMap exBodyModule.getFunction ∧
    (allocStage exOob false exStrcpyWrapper exBodyModule exState).map
      (fun s => ((s.DSInfo 0).FunctionCalls, (s.DSInfo 0).nodes 1))
      = some ([⟨11, some 200⟩], exBlank) :=
  have h := table_scan_takes_declarations_only exOob false exNewNode exStrcpyWrapper
    exBodyModule exState exStrcpyBody 75 name_at_75 rfl
  ⟨⟨name_at_75, rfl⟩, (h.2.2.2.1 rfl).1 75, tableScan_exBodyModule, tableScan_exStrcpy,
    ((h.2.2.2.2.2.2 exStrcpyBody "strcpy" rfl).1 (by simp [exStrcpyWrapper])).1,
    allocStage_exBodyModule⟩

/-- C13: the index searches of `runOnModule` stop at the entries 50 and 53,
named `malloc` and `free`, and `my_free`, reported as a deallocation wrapper,
is among the functions that the loop over the deallocation wrappers
processes with entry 53.  Where `my_free(%1)` is called directly,
`runOnModule` marks the node of `%1` heap and nothing else and erases the
call site.  Where the same call is made through a pointer cast of `my_free`,
`runOnModule` erases the call site and leaves the node of `%1` without any
marker: the cast-wrapped branch tests `read[1]`, which the `free` entry does
not set, and never `heap[1]`. -/
theorem cast_wrapped_deallocation_wrapper_is_not_marked :
    findIndex "malloc" recFuncs 0 = some 50 ∧ findIndex "free" recFuncs 0 = some 53 ∧
    (recFuncs[50]?).map RecFunc.name = some (some "malloc") ∧
    (recFuncs[53]?).map RecFunc.name = some (some "free") ∧
    slot (action 53).heap exOob.heap 1 = true ∧ slot (action 53).read exOob.read 1 = false ∧
    exMyFreeCast ∈ exDeallocs.deallocs.filterMap (Module.mk [exMyFreeCast]).getFunction ∧
    exCallOne.operands.tail = exCallOneCast.operands.tail ∧
    exState.getDSGraph 0 = exGraph ∧ exGraph.ScalarMap 1 = some 0 ∧ exGraph.nodes 0 = exBlank ∧
    (runOnModule exOob false false exNewNode exDeallocs ⟨[exMyFree]⟩ exState).map
      (fun s => ((s.DSInfo 0).nodes 0, (s.DSInfo 0).nodes 1, (s.DSInfo 0).FunctionCalls))
      = some (⟨false, false, true, false⟩, exBlank, [⟨11, some 200⟩]) ∧
    (runOnModule exOob false false exNewNode exDeallocs ⟨[exMyFreeCast]⟩ exState).map
      (fun s => ((s.DSInfo 0).nodes 0, (s.DSInfo 0).nodes 1, (s.DSInfo 0).FunctionCalls))
      = some (exBlank, exBlank, [⟨11, some 200⟩]) := by
  refine ⟨findIndex_malloc, findIndex_free, name_at_50, name_at_53, ?_, ?_, ?_, rfl, rfl, rfl,
    rfl, by decide, by decide⟩
  · rw [action_at_53]; rfl
  · rw [action_at_53]; rfl
  · simp [exDeallocs, Module.getFunction, exMyFreeCast]

/-! ## What `runOnModule` does apart from the call sites to one function -/

theorem passState_eq (s t : PassState) (h1 : s.DSInfo = t.DSInfo)
    (h2 : s.NumNodesFoldedInStdLib = t.NumNodesFoldedInStdLib) : s = t := by
  cases s; cases t
  simp only at h1 h2
  subst h1; subst h2
  rfl

theorem removeFunctionCalls_comm (g : DSGraph) (a b : Value) :
    (g.removeFunctionCalls a).removeFunctionCalls b
      = (g.removeFunctionCalls b).removeFunctionCalls a := by
  simp only [DSGraph.removeFunctionCalls, List.filter_filter]
  congr 1
  apply List.filter_congr
  intro cs _
  exact Bool.and_comm _ _

theorem removeFunctionCalls_idem (g : DSGraph) (f : Value) :
    (g.removeFunctionCalls f).removeFunctionCalls f = g.removeFunctionCalls f := by
  simp only [DSGraph.removeFunctionCalls, List.filter_filter, Bool.and_self]

theorem mergeWith_drop (g : DSGraph) (a b : DSNodeHandle) (f : Value) :
    (g.mergeWith a b).removeFunctionCalls f = (g.removeFunctionCalls f).mergeWith a b := by
  cases a with
  | none => rfl
  | some a =>
    cases b with
    | none => rfl
    | some b =>
      simp only [DSGraph.mergeWith, DSGraph.removeFunctionCalls]
      split <;> rfl

theorem op_run_drop (o : Op) (g : DSGraph) (f : Value) :
    (o.run g).removeFunctionCalls f = o.run (g.removeFunctionCalls f) := by
  cases o with
  | mark m a => rfl
  | merge a b => exact mergeWith_drop g (some a) (some b) f
  | erase h => exact removeFunctionCalls_comm g h f

theorem sop_run_drop (o : SOp) (D : Nat → DSGraph) (f : Value) :
    (fun p => (o.run D p).removeFunctionCalls f)
      = o.run (fun p => (D p).removeFunctionCalls f) := by
  funext p
  simp only [SOp.run]
  split
  · exact op_run_drop o.2 (D p) f
  · rfl

theorem runSOps_drop (l : List SOp) (f : Value) :
    ∀ D : Nat → DSGraph,
      (fun p => (runSOps l D p).removeFunctionCalls f)
        = runSOps l (fun p => (D p).removeFunctionCalls f) := by
  induction l with
  | nil => intro D; rfl
  | cons o l ih =>
    intro D
    simp only [runSOps, List.foldl_cons] at ih ⊢
    rw [ih (o.run D), sop_run_drop]

/-- Erasing the call sites to `f` makes no difference once the call sites
to `f` are left out. -/
theorem runSOps_drop_erase (l : List SOp) (f : Value) (hl : ∀ o ∈ l, o.2 = Op.erase f) :
    ∀ D : Nat → DSGraph,
      (fun p => (runSOps l D p).removeFunctionCalls f)
        = (fun p => (D p).removeFunctionCalls f) := by
  induction l with
  | nil => intro D; rfl
  | cons o l ih =>
    intro D
    simp only [runSOps, List.foldl_cons] at ih ⊢
    rw [ih (fun o1 h1 => hl o1 (List.mem_cons_of_mem _ h1)) (o.run D)]
    funext p
    simp only [SOp.run]
    split
    · rw [hl o (List.mem_cons_self _ _)]
      exact removeFunctionCalls_idem (D p) f
    · rfl

theorem eraseUserOps_erase_self (F : Function) (o : SOp)
    (ho : o ∈ (F.uses.map (eraseUserOps F)).flatten) : o.2 = Op.erase F.self := by
  simp only [List.mem_flatten, List.mem_map] at ho
  obtain ⟨l, ⟨u, _, rfl⟩, hol⟩ := ho
  cases u with
  | callInst ci =>
    simp only [eraseUserOps] at hol
    split at hol
    · simp only [List.mem_singleton] at hol; rw [hol]
    · cases hol
  | invokeInst ci =>
    simp only [eraseUserOps] at hol
    split at hol
    · simp only [List.mem_singleton] at hol; rw [hol]
    · cases hol
  | constantExpr ce c us =>
    simp only [eraseUserOps] at hol
    split at hol
    · simp only [List.mem_flatten, List.mem_map] at hol
      obtain ⟨l2, ⟨cu, _, rfl⟩, hol2⟩ := hol
      cases cu with
      | callInst ci =>
        simp only [eraseCEUserOps] at hol2
        split at hol2
        · simp only [List.mem_singleton] at hol2; rw [hol2]
        · cases hol2
      | other => cases hol2
    · cases hol
  | other => cases hol

theorem dropCallsTo_idem (f : Value) (s : PassState) :
    (s.dropCallsTo f).dropCallsTo f = s.dropCallsTo f :=
  passState_eq _ _ (funext fun p => removeFunctionCalls_idem (s.DSInfo p) f) rfl

theorem processFunction_drop (oob : OutOfRange) (noStdLibFold : Bool) (x : Nat) (G : Function)
    (s : PassState) (f : Value) :
    (processFunction oob noStdLibFold x G s).dropCallsTo f
      = processFunction oob noStdLibFold x G (s.dropCallsTo f) := by
  obtain ⟨h1, h2⟩ := processFunction_eq oob noStdLibFold x G s
  obtain ⟨h3, h4⟩ := processFunction_eq oob noStdLibFold x G (s.dropCallsTo f)
  apply passState_eq
  · rw [h3]
    show (fun p => ((processFunction oob noStdLibFold x G s).DSInfo p).removeFunctionCalls f) = _
    rw [h1, runSOps_drop]
    rfl
  · rw [h4]
    show (processFunction oob noStdLibFold x G s).NumNodesFoldedInStdLib = _
    rw [h2]
    rfl

theorem eraseCallsTo_drop (G : Function) (s : PassState) (f : Value) :
    (eraseCallsTo G s).dropCallsTo f = eraseCallsTo G (s.dropCallsTo f) := by
  obtain ⟨h1, h2⟩ := eraseCallsTo_eq G s
  obtain ⟨h3, h4⟩ := eraseCallsTo_eq G (s.dropCallsTo f)
  apply passState_eq
  · rw [h3]
    show (fun p => ((eraseCallsTo G s).DSInfo p).removeFunctionCalls f) = _
    rw [h1, runSOps_drop]
    rfl
  · rw [h4]
    show (eraseCallsTo G s).NumNodesFoldedInStdLib = _
    rw [h2]
    rfl

theorem eraseCallsTo_drop_self (F : Function) (s : PassState) :
    (eraseCallsTo F s).dropCallsTo F.self = s.dropCallsTo F.self := by
  obtain ⟨h1, h2⟩ := eraseCallsTo_eq F s
  apply passState_eq
  · show (fun p => ((eraseCallsTo F s).DSInfo p).removeFunctionCalls F.self) = _
    rw [h1, runSOps_drop_erase _ F.self (fun o ho => eraseUserOps_erase_self F o ho)]
    rfl
  · exact h2

theorem processFunction_drop_self (oob : OutOfRange) (noStdLibFold : Bool) (x : Nat)
    (F : Function) (s : PassState)
    (hno : ∀ ci, Matched F ci →
      ci.isPointerTy = false ∧ ∀ op ∈ ci.operands.tail, op.isPointerTy = false) :
    (processFunction oob noStdLibFold x F s).dropCallsTo F.self = s.dropCallsTo F.self := by
  obtain ⟨h1, h2⟩ := processFunction_eq oob noStdLibFold x F s
  obtain ⟨hops, hcnt⟩ := functionOps_of_no_pointer oob noStdLibFold (action x) F
    (scalarMaps s.DSInfo) hno
  apply passState_eq
  · show (fun p => ((processFunction oob noStdLibFold x F s).DSInfo p).removeFunctionCalls
      F.self) = _
    rw [h1, hops, runSOps_drop_erase _ F.self (fun o ho => eraseUserOps_erase_self F o ho)]
    rfl
  · show (processFunction oob noStdLibFold x F s).NumNodesFoldedInStdLib = _
    rw [h2, hcnt]
    rfl

/-! ## The stages of `runOnModule` apart from the call sites to one function -/

theorem nodeFor_drop (newNode : DSGraph → Nat)
    (hnew : ∀ (g : DSGraph) (f : Value), newNode (g.removeFunctionCalls f) = newNode g)
    (g : DSGraph) (v f : Value) :
    (g.removeFunctionCalls f).nodeFor newNode v
      = (((g.nodeFor newNode v).1).removeFunctionCalls f, (g.nodeFor newNode v).2) := by
  unfold DSGraph.nodeFor
  have hmap : (g.removeFunctionCalls f).ScalarMap = g.ScalarMap := rfl
  rw [hmap, hnew]
  cases g.ScalarMap v <;> rfl

theorem runtimeCheckCall_drop (newNode : DSGraph → Nat)
    (hnew : ∀ (g : DSGraph) (f : Value), newNode (g.removeFunctionCalls f) = newNode g)
    (ci : Instruction) (op : Operand) (g : DSGraph) (f : Value) :
    (runtimeCheckCall newNode ci op g).removeFunctionCalls f
      = runtimeCheckCall newNode ci op (g.removeFunctionCalls f) := by
  simp only [runtimeCheckCall]
  rw [nodeFor_drop newNode hnew g ci.self f, nodeFor_drop newNode hnew _ op.val f,
    mergeWith_drop]

theorem setDSGraph_drop (s : PassState) (p : Nat) (g : DSGraph) (f : Value) :
    (s.setDSGraph p g).dropCallsTo f
      = (s.dropCallsTo f).setDSGraph p (g.removeFunctionCalls f) := by
  apply passState_eq
  · funext q
    simp only [PassState.dropCallsTo, PassState.setDSGraph]
    split <;> rfl
  · rfl

theorem runtimeCheckUser_drop (newNode : DSGraph → Nat)
    (hnew : ∀ (g : DSGraph) (f : Value), newNode (g.removeFunctionCalls f) = newNode g)
    (G : Function) (arg : Nat) (s : PassState) (u : User) (f : Value) :
    (runtimeCheckUser newNode G arg s u).map (PassState.dropCallsTo f)
      = runtimeCheckUser newNode G arg (s.dropCallsTo f) u := by
  cases u with
  | callInst ci =>
    simp only [runtimeCheckUser]
    split
    · cases hop : ci.operands[arg]? with
      | none => rfl
      | some op =>
        simp only [Option.map_some', setDSGraph_drop, runtimeCheckCall_drop newNode hnew]
        rfl
    · rfl
  | invokeInst ci => rfl
  | constantExpr ce c us => rfl
  | other => rfl

theorem runtimeCheckLoop_drop (newNode : DSGraph → Nat)
    (hnew : ∀ (g : DSGraph) (f : Value), newNode (g.removeFunctionCalls f) = newNode g)
    (G : Function) (arg : Nat) (f : Value) (us : List User) :
    ∀ s : PassState,
      (runtimeCheckLoop newNode G arg us s).map (PassState.dropCallsTo f)
        = runtimeCheckLoop newNode G arg us (s.dropCallsTo f) := by
  induction us with
  | nil => intro s; rfl
  | cons u us ih =>
    intro s
    simp only [runtimeCheckLoop]
    rw [← runtimeCheckUser_drop newNode hnew G arg s u f]
    cases runtimeCheckUser newNode G arg s u with
    | none => rfl
    | some s1 => exact ih s1

theorem processRuntimeCheck_drop (newNode : DSGraph → Nat)
    (hnew : ∀ (g : DSGraph) (f : Value), newNode (g.removeFunctionCalls f) = newNode g)
    (M : Module) (name : String) (arg : Nat) (s : PassState) (f : Value) :
    (processRuntimeCheck newNode M name arg s).map (PassState.dropCallsTo f)
      = processRuntimeCheck newNode M name arg (s.dropCallsTo f) := by
  unfold processRuntimeCheck
  cases M.getFunction name with
  | none => rfl
  | some G =>
    simp only
    rw [← runtimeCheckLoop_drop newNode hnew G arg f G.uses s]
    cases runtimeCheckLoop newNode G arg G.uses s with
    | none => rfl
    | some s1 => simp only [Option.map_some', eraseCallsTo_drop]

theorem runtimeCheckStage_drop (newNode : DSGraph → Nat)
    (hnew : ∀ (g : DSGraph) (f : Value), newNode (g.removeFunctionCalls f) = newNode g)
    (M : Module) (f : Value) (cs : List (String × Nat)) :
    ∀ s : PassState,
      (runtimeCheckStage newNode M cs s).map (PassState.dropCallsTo f)
        = runtimeCheckStage newNode M cs (s.dropCallsTo f) := by
  induction cs with
  | nil => intro s; rfl
  | cons c cs ih =>
    intro s
    simp only [runtimeCheckStage]
    rw [← processRuntimeCheck_drop newNode hnew M c.1 c.2 s f]
    cases processRuntimeCheck newNode M c.1 c.2 s with
    | none => rfl
    | some s1 => exact ih s1

theorem foldl_drop {α : Type} (step : PassState → α → PassState) (f : Value)
    (hstep : ∀ (s : PassState) (u : α),
      (step s u).dropCallsTo f = step (s.dropCallsTo f) u) (l : List α) :
    ∀ s : PassState, (l.foldl step s).dropCallsTo f = l.foldl step (s.dropCallsTo f) := by
  induction l with
  | nil => intro s; rfl
  | cons u l ih => intro s; simp only [List.foldl_cons]; rw [ih, hstep]

theorem eraseReadNone_drop (M : Module) (s : PassState) (f : Value) :
    (eraseReadNone M s).dropCallsTo f = eraseReadNone M (s.dropCallsTo f) := by
  unfold eraseReadNone
  apply foldl_drop
  intro s I
  split
  · exact eraseCallsTo_drop I s f
  · rfl

theorem eraseNoPointer_drop (M : Module) (s : PassState) (f : Value) :
    (eraseNoPointer M s).dropCallsTo f = eraseNoPointer M (s.dropCallsTo f) := by
  unfold eraseNoPointer
  apply foldl_drop
  intro s I
  split
  · split
    · exact eraseCallsTo_drop I s f
    · rfl
  · rfl

theorem scanEntry_drop (oob : OutOfRange) (noStdLibFold : Bool) (M : Module) (x : Nat)
    (nm : String) (s : PassState) (f : Value) :
    (scanEntry oob noStdLibFold M x nm s).dropCallsTo f
      = scanEntry oob noStdLibFold M x nm (s.dropCallsTo f) := by
  unfold scanEntry
  cases M.getFunction nm with
  | none => rfl
  | some G =>
    simp only
    split
    · exact processFunction_drop oob noStdLibFold x G s f
    · rfl

theorem tableScan_drop (oob : OutOfRange) (noStdLibFold : Bool) (M : Module) (f : Value)
    (l : List RecFunc) :
    ∀ (x : Nat) (s : PassState),
      (tableScan oob noStdLibFold M l x s).map (PassState.dropCallsTo f)
        = tableScan oob noStdLibFold M l x (s.dropCallsTo f) := by
  induction l with
  | nil => intro x s; rfl
  | cons e rest ih =>
    intro x s
    cases hn : e.name with
    | none => simp [tableScan, hn]
    | some nm =>
      simp only [tableScan, hn]
      rw [ih, scanEntry_drop]

theorem wrapperLoop_drop (oob : OutOfRange) (noStdLibFold : Bool) (M : Module) (x : Nat)
    (names : List String) (s : PassState) (f : Value) :
    (wrapperLoop oob noStdLibFold M x names s).dropCallsTo f
      = wrapperLoop oob noStdLibFold M x names (s.dropCallsTo f) := by
  unfold wrapperLoop
  apply foldl_drop
  intro s nm
  cases M.getFunction nm with
  | none => rfl
  | some G => exact processFunction_drop oob noStdLibFold x G s f

/-- Leaving out the call sites to `f` before `runOnModule` or after it
comes to the same. -/
theorem runOnModule_drop (oob : OutOfRange) (noStdLibFold DisableStdLib : Bool)
    (newNode : DSGraph → Nat)
    (hnew : ∀ (g : DSGraph) (f : Value), newNode (g.removeFunctionCalls f) = newNode g)
    (A : AllocIdentify) (M : Module) (s : PassState) (f : Value) :
    (runOnModule oob noStdLibFold DisableStdLib newNode A M s).map (PassState.dropCallsTo f)
      = runOnModule oob noStdLibFold DisableStdLib newNode A M (s.dropCallsTo f) := by
  unfold runOnModule
  simp only [← eraseReadNone_drop, ← eraseNoPointer_drop]
  cases DisableStdLib with
  | true => rfl
  | false =>
    simp only [Bool.not_false, if_true]
    rw [← tableScan_drop]
    cases tableScan oob noStdLibFold M recFuncs 0 (eraseNoPointer M (eraseReadNone M s)) with
    | none => rfl
    | some s2 =>
      simp only [Option.map_some', allocStage, findIndex_malloc, deallocStage, findIndex_free,
        ← wrapperLoop_drop]
      exact runtimeCheckStage_drop newNode hnew M f runtimeChecks _

/-! ## A declaration without pointers and the module without it -/

theorem eraseCallsTo_of_free (F : Function) (s : PassState)
    (hs : s.dropCallsTo F.self = s) : eraseCallsTo F s = s :=
  calc eraseCallsTo F s = eraseCallsTo F (s.dropCallsTo F.self) := by rw [hs]
    _ = (eraseCallsTo F s).dropCallsTo F.self := (eraseCallsTo_drop F s F.self).symm
    _ = s.dropCallsTo F.self := eraseCallsTo_drop_self F s
    _ = s := hs

theorem processFunction_of_free (oob : OutOfRange) (noStdLibFold : Bool) (x : Nat)
    (F : Function) (s : PassState)
    (hno : ∀ ci, Matched F ci →
      ci.isPointerTy = false ∧ ∀ op ∈ ci.operands.tail, op.isPointerTy = false)
    (hs : s.dropCallsTo F.self = s) : processFunction oob noStdLibFold x F s = s :=
  calc processFunction oob noStdLibFold x F s
      = processFunction oob noStdLibFold x F (s.dropCallsTo F.self) := by rw [hs]
    _ = (processFunction oob noStdLibFold x F s).dropCallsTo F.self :=
        (processFunction_drop oob noStdLibFold x F s F.self).symm
    _ = s.dropCallsTo F.self := processFunction_drop_self oob noStdLibFold x F s hno
    _ = s := hs

/-- A loop over the functions of the module whose step for `F` leaves a
state without call sites to `F` as it is gives, on such a state, what it
gives for the module without `F`. -/
theorem foldl_dropNamed (step : PassState → Function → PassState) (F : Function)
    (hcomm : ∀ (s : PassState) (G : Function),
      (step s G).dropCallsTo F.self = step (s.dropCallsTo F.self) G)
    (hself : ∀ s : PassState, s.dropCallsTo F.self = s → step s F = s)
    (l : List Function) (huniq : ∀ G ∈ l, G.name = F.name → G = F) :
    ∀ s : PassState, s.dropCallsTo F.self = s →
      l.foldl step s = (l.filter (fun G => !decide (G.name = F.name))).foldl step s := by
  induction l with
  | nil => intro s _; rfl
  | cons G l ih =>
    intro s hs
    have hl : ∀ G1 ∈ l, G1.name = F.name → G1 = F :=
      fun G1 h1 => huniq G1 (List.mem_cons_of_mem _ h1)
    by_cases hG : G.name = F.name
    · have hGF : G = F := huniq G (List.mem_cons_self _ _) hG
      subst hGF
      simp only [List.foldl_cons, List.filter_cons, decide_True, Bool.not_true,
        Bool.false_eq_true, if_false]
      rw [hself s hs]
      exact ih hl s hs
    · simp only [List.foldl_cons, List.filter_cons, hG, decide_False, Bool.not_false, if_true]
      apply ih hl
      rw [hcomm, hs]

theorem eraseReadNone_dropNamed (M : Module) (F : Function)
    (huniq : ∀ G ∈ M.functions, G.name = F.name → G = F) (s : PassState)
    (hs : s.dropCallsTo F.self = s) :
    eraseReadNone M s = eraseReadNone (M.dropNamed F.name) s := by
  unfold eraseReadNone Module.dropNamed
  apply foldl_dropNamed _ F _ _ M.functions huniq s hs
  · intro s G
    split
    · exact eraseCallsTo_drop G s F.self
    · rfl
  · intro s hs
    split
    · exact eraseCallsTo_of_free F s hs
    · rfl

theorem eraseNoPointer_dropNamed (M : Module) (F : Function)
    (huniq : ∀ G ∈ M.functions, G.name = F.name → G = F) (s : PassState)
    (hs : s.dropCallsTo F.self = s) :
    eraseNoPointer M s = eraseNoPointer (M.dropNamed F.name) s := by
  unfold eraseNoPointer Module.dropNamed
  apply foldl_dropNamed _ F _ _ M.functions huniq s hs
  · intro s G
    split
    · split
      · exact eraseCallsTo_drop G s F.self
      · rfl
    · rfl
  · intro s hs
    split
    · split
      · exact eraseCallsTo_of_free F s hs
      · rfl
    · rfl

theorem scanEntry_of_free (oob : OutOfRange) (noStdLibFold : Bool) (M : Module)
    (F : Function) (hF : M.getFunction F.name = some F)
    (hno : ∀ ci, Matched F ci →
      ci.isPointerTy = false ∧ ∀ op ∈ ci.operands.tail, op.isPointerTy = false)
    (x : Nat) (nm : String) (s : PassState) (hs : s.dropCallsTo F.self = s) :
    scanEntry oob noStdLibFold M x nm s
      = scanEntry oob noStdLibFold (M.dropNamed F.name) x nm s := by
  unfold scanEntry
  rw [getFunction_dropNamed]
  by_cases h : nm = F.name
  · subst h
    simp only [hF, if_true]
    split
    · exact processFunction_of_free oob noStdLibFold x F s hno hs
    · rfl
  · simp only [h, if_false]

theorem tableScan_of_free (oob : OutOfRange) (noStdLibFold : Bool) (M : Module)
    (F : Function) (hF : M.getFunction F.name = some F)
    (hno : ∀ ci, Matched F ci →
      ci.isPointerTy = false ∧ ∀ op ∈ ci.operands.tail, op.isPointerTy = false)
    (l : List RecFunc) :
    ∀ (x : Nat) (s : PassState), s.dropCallsTo F.self = s →
      tableScan oob noStdLibFold M l x s
        = tableScan oob noStdLibFold (M.dropNamed F.name) l x s := by
  induction l with
  | nil => intro x s _; rfl
  | cons e rest ih =>
    intro x s hs
    cases hn : e.name with
    | none => simp [tableScan, hn]
    | some nm =>
      simp only [tableScan, hn]
      rw [← scanEntry_of_free oob noStdLibFold M F hF hno x nm s hs]
      apply ih
      rw [scanEntry_drop, hs]

theorem wrapperLoop_of_free (oob : OutOfRange) (noStdLibFold : Bool) (M : Module)
    (F : Function) (hF : M.getFunction F.name = some F)
    (hno : ∀ ci, Matched F ci →
      ci.isPointerTy = false ∧ ∀ op ∈ ci.operands.tail, op.isPointerTy = false)
    (x : Nat) (names : List String) :
    ∀ s : PassState, s.dropCallsTo F.self = s →
      wrapperLoop oob noStdLibFold M x names s
        = wrapperLoop oob noStdLibFold (M.dropNamed F.name) x names s := by
  induction names with
  | nil => intro s _; rfl
  | cons nm names ih =>
    intro s hs
    unfold wrapperLoop at ih ⊢
    simp only [List.foldl_cons]
    rw [getFunction_dropNamed]
    by_cases h : nm = F.name
    · subst h
      simp only [hF, if_true]
      rw [processFunction_of_free oob noStdLibFold x F s hno hs]
      exact ih s hs
    · simp only [h, if_false]
      apply ih
      cases M.getFunction nm with
      | none => exact hs
      | some G => simp only; rw [processFunction_drop, hs]

theorem runtimeCheckStage_dropNamed (newNode : DSGraph → Nat) (M : Module) (name : String)
    (cs : List (String × Nat)) (hcs : ∀ c ∈ cs, c.1 ≠ name) :
    ∀ s : PassState,
      runtimeCheckStage newNode M cs s = runtimeCheckStage newNode (M.dropNamed name) cs s := by
  induction cs with
  | nil => intro s; rfl
  | cons c cs ih =>
    intro s
    have hc : c.1 ≠ name := hcs c (List.mem_cons_self _ _)
    have hp : processRuntimeCheck newNode (M.dropNamed name) c.1 c.2 s
        = processRuntimeCheck newNode M c.1 c.2 s := by
      unfold processRuntimeCheck
      rw [getFunction_dropNamed]
      simp only [hc, if_false]
    simp only [runtimeCheckStage, hp]
    cases processRuntimeCheck newNode M c.1 c.2 s with
    | none => rfl
    | some s1 => exact ih (fun c1 h1 => hcs c1 (List.mem_cons_of_mem _ h1)) s1

theorem getFunction_of_unique (M : Module) (F : Function) (hF : F ∈ M.functions)
    (huniq : ∀ G ∈ M.functions, G.name = F.name → G = F) :
    M.getFunction F.name = some F := by
  unfold Module.getFunction
  cases h : M.functions.find? (fun G => decide (G.name = F.name)) with
  | none =>
    have := List.find?_eq_none.1 h F hF
    simp at this
  | some G =>
    have hmem := List.mem_of_find?_eq_some h
    have hname := List.find?_some h
    simp only [decide_eq_true_eq] at hname
    rw [huniq G hmem hname]

/-- On a state without call sites to `F`, when no matched call site of `F`
passes or returns a pointer and `F` is none of the run-time checks,
`runOnModule` gives what it gives for the module without `F`. -/
theorem runOnModule_of_free (oob : OutOfRange) (noStdLibFold DisableStdLib : Bool)
    (newNode : DSGraph → Nat) (A : AllocIdentify) (M : Module) (F : Function)
    (hF : F ∈ M.functions) (huniq : ∀ G ∈ M.functions, G.name = F.name → G = F)
    (hno : ∀ ci, Matched F ci →
      ci.isPointerTy = false ∧ ∀ op ∈ ci.operands.tail, op.isPointerTy = false)
    (hname : ∀ c ∈ runtimeChecks, c.1 ≠ F.name)
    (s : PassState) (hs : s.dropCallsTo F.self = s) :
    runOnModule oob noStdLibFold DisableStdLib newNode A M s
      = runOnModule oob noStdLibFold DisableStdLib newNode A (M.dropNamed F.name) s := by
  have hg := getFunction_of_unique M F hF huniq
  have h1 : (eraseReadNone M s).dropCallsTo F.self = eraseReadNone M s := by
    rw [eraseReadNone_drop, hs]
  have h2 : (eraseNoPointer M (eraseReadNone M s)).dropCallsTo F.self
      = eraseNoPointer M (eraseReadNone M s) := by
    rw [eraseNoPointer_drop, h1]
  unfold runOnModule
  simp only
  rw [← eraseReadNone_dropNamed M F huniq s hs, ← eraseNoPointer_dropNamed M F huniq _ h1]
  cases DisableStdLib with
  | true => rfl
  | false =>
    simp only [Bool.not_false, if_true]
    rw [← tableScan_of_free oob noStdLibFold M F hg hno recFuncs 0 _ h2]
    have h3 := tableScan_drop oob noStdLibFold M F.self recFuncs 0
      (eraseNoPointer M (eraseReadNone M s))
    rw [h2] at h3
    cases hscan : tableScan oob noStdLibFold M recFuncs 0
        (eraseNoPointer M (eraseReadNone M s)) with
    | none => rfl
    | some s2 =>
      rw [hscan] at h3
      simp only [Option.map_some', Option.some.injEq] at h3
      have h4 : (wrapperLoop oob noStdLibFold M 50 A.allocs s2).dropCallsTo F.self
          = wrapperLoop oob noStdLibFold M 50 A.allocs s2 := by
        rw [wrapperLoop_drop, h3]
      simp only [allocStage, findIndex_malloc, deallocStage, findIndex_free]
      rw [← wrapperLoop_of_free oob noStdLibFold M F hg hno 50 A.allocs s2 h3,
        ← wrapperLoop_of_free oob noStdLibFold M F hg hno 53 A.deallocs _ h4]
      exact runtimeCheckStage_dropNamed newNode M F.name runtimeChecks hname _

/-- Apart from the call sites to `F`, `runOnModule` returns what it returns
for the module without `F`. -/
theorem runOnModule_apart (oob : OutOfRange) (noStdLibFold DisableStdLib : Bool)
    (newNode : DSGraph → Nat)
    (hnew : ∀ (g : DSGraph) (f : Value), newNode (g.removeFunctionCalls f) = newNode g)
    (A : AllocIdentify) (M : Module) (F : Function)
    (hF : F ∈ M.functions) (huniq : ∀ G ∈ M.functions, G.name = F.name → G = F)
    (hno : ∀ ci, Matched F ci →
      ci.isPointerTy = false ∧ ∀ op ∈ ci.operands.tail, op.isPointerTy = false)
    (hname : ∀ c ∈ runtimeChecks, c.1 ≠ F.name) (s : PassState) :
    (runOnModule oob noStdLibFold DisableStdLib newNode A M s).map
        (PassState.dropCallsTo F.self)
      = (runOnModule oob noStdLibFold DisableStdLib newNode A (M.dropNamed F.name) s).map
        (PassState.dropCallsTo F.self) := by
  rw [runOnModule_drop oob noStdLibFold DisableStdLib newNode hnew A M s F.self,
    runOnModule_drop oob noStdLibFold DisableStdLib newNode hnew A (M.dropNamed F.name) s F.self]
  exact runOnModule_of_free oob noStdLibFold DisableStdLib newNode A M F hF huniq hno hname _
    (dropCallsTo_idem F.self s)

theorem runOnModule_exExactCheck :
    (runOnModule exOob false false exNewNode exNoWrappers ⟨[exExactCheck]⟩ exState).map
      (fun s => ((s.DSInfo 0).ScalarMap 10, (s.DSInfo 0).ScalarMap 4))
      = some (some 99, some 99) := by
  decide

theorem runOnModule_without_exExactCheck :
    (runOnModule exOob false false exNewNode exNoWrappers
      ((Module.mk [exExactCheck]).dropNamed "sc.exactcheck2") exState).map
      (fun s => ((s.DSInfo 0).ScalarMap 10, (s.DSInfo 0).ScalarMap 4))
      = some (none, none) := by
  decide

theorem runOnModule_exKillCast :
    (runOnModule exOob false false exNewNode exNoWrappers ⟨[exKillCast]⟩ exState).map
      (fun s => (s.DSInfo 0).nodes 0) = some ⟨true, true, true, false⟩ := by
  decide

theorem runOnModule_without_exKillCast :
    (runOnModule exOob false false exNewNode exNoWrappers
      ((Module.mk [exKillCast]).dropNamed "kill") exState).map
      (fun s => (s.DSInfo 0).nodes 0) = some exBlank := by
  decide

theorem matched_exNoPointer (ci : Instruction) (h : Matched exNoPointer ci) : ci = exCallInt := by
  rcases h with ⟨h, _⟩ | ⟨h, _⟩ | ⟨ce, us, h, _⟩
  · simpa [exNoPointer] using h
  · simp [exNoPointer] at h
  · simp [exNoPointer] at h

/-- C15 (as amended): a declaration of the module that is not varargs, does
not return a pointer and has no pointer-typed formal argument has the call
sites that `eraseCallsTo` matches erased in whatever `runOnModule` returns.
If moreover it is the only function of its name, it is none of the run-time
checks, and none of its matched call sites passes or returns a pointer, then
no node marker, merge or fold is performed on its account: with the call
sites to it left out of every graph, `runOnModule` returns the graphs and the
statistic that it returns for the module without the function (the handle of
a node that the graph creates is taken not to depend on the recorded call
sites).  Besides, `eraseCallsTo` changes no node of any graph and not the
statistic, and when no matched call site passes or returns a pointer,
`processFunction` with any entry leaves the graphs as `eraseCallsTo` leaves
them and the statistic as it was. -/
theorem no_pointer_declaration_is_only_erased (oob : OutOfRange)
    (noStdLibFold DisableStdLib : Bool) (newNode : DSGraph → Nat) (A : AllocIdentify)
    (M : Module) (s : PassState) (F : Function)
    (hF : F ∈ M.functions) (hd : F.isDeclaration = true) (hv : F.isVarArg = false)
    (hr : F.returnIsPointerTy = false) (ha : ∀ t ∈ F.argIsPointerTy, t = false) :
    (∀ s1, runOnModule oob noStdLibFold DisableStdLib newNode A M s = some s1 →
      ∀ ci, Matched F ci →
        ∀ cs ∈ (s1.DSInfo ci.parent).FunctionCalls, cs.callee ≠ some F.self) ∧
    ((∀ G ∈ M.functions, G.name = F.name → G = F) →
      (∀ c ∈ runtimeChecks, c.1 ≠ F.name) →
      (∀ ci, Matched F ci →
        ci.isPointerTy = false ∧ ∀ op ∈ ci.operands.tail, op.isPointerTy = false) →
      (∀ (g : DSGraph) (f : Value), newNode (g.removeFunctionCalls f) = newNode g) →
      (runOnModule oob noStdLibFold DisableStdLib newNode A M s).map
          (PassState.dropCallsTo F.self)
        = (runOnModule oob noStdLibFold DisableStdLib newNode A (M.dropNamed F.name) s).map
          (PassState.dropCallsTo F.self)) ∧
    (∀ (s0 : PassState) (p : Nat), (s0.DSInfo p).sameNodes ((eraseCallsTo F s0).DSInfo p) ∧
      (eraseCallsTo F s0).NumNodesFoldedInStdLib = s0.NumNodesFoldedInStdLib) ∧
    ((∀ ci, Matched F ci →
        ci.isPointerTy = false ∧ ∀ op ∈ ci.operands.tail, op.isPointerTy = false) →
      ∀ (x : Nat) (s0 : PassState),
        (processFunction oob noStdLibFold x F s0).DSInfo = (eraseCallsTo F s0).DSInfo ∧
        (processFunction oob noStdLibFold x F s0).NumNodesFoldedInStdLib
          = s0.NumNodesFoldedInStdLib) := by
  refine ⟨?_, ?_, ?_, ?_⟩
  · intro s1 hs1 ci hm cs hcs
    have hg := runOnModule_grows oob noStdLibFold DisableStdLib newNode A M s s1 hs1 ci.parent
    exact eraseNoPointer_erased M.functions F hF hd hv hr (hasPtr_false F ha) ci hm
      (eraseReadNone M s) cs (hg.calls cs hcs)
  · intro huniq hname hno hnew
    exact runOnModule_apart oob noStdLibFold DisableStdLib newNode hnew A M F hF huniq hno
      hname s
  · intro s0 p
    exact ⟨eraseCallsTo_sameNodes F s0 p, (eraseCallsTo_eq F s0).2⟩
  · intro hno x s0
    obtain ⟨hops, hcnt⟩ := functionOps_of_no_pointer oob noStdLibFold (action x) F
      (scalarMaps s0.DSInfo) hno
    rw [(processFunction_eq oob noStdLibFold x F s0).1,
      (processFunction_eq oob noStdLibFold x F s0).2, hops, hcnt, (eraseCallsTo_eq F s0).1]
    exact ⟨rfl, rfl⟩

/-- C15, witness: the module whose only function is the declaration
`exNoPointer`; `runOnModule` returns a state, in it the graph of the caller
has no call site to the function, and with the call sites to the function
left out it is the state that `runOnModule` returns for the module without
the function. -/
theorem no_pointer_declaration_witness :
    (exNoPointer ∈ (Module.mk [exNoPointer]).functions ∧ exNoPointer.isDeclaration = true ∧
      exNoPointer.isVarArg = false ∧ exNoPointer.returnIsPointerTy = false) ∧
    (∃ s1, runOnModule exOob false false exNewNode exNoWrappers ⟨[exNoPointer]⟩ exState
        = some s1 ∧
      ∀ cs ∈ (s1.DSInfo 0).FunctionCalls, cs.callee ≠ some exNoPointer.self) ∧
    (runOnModule exOob false false exNewNode exNoWrappers ⟨[exNoPointer]⟩ exState).map
        (PassState.dropCallsTo exNoPointer.self)
      = (runOnModule exOob false false exNewNode exNoWrappers
          ((Module.mk [exNoPointer]).dropNamed exNoPointer.name) exState).map
        (PassState.dropCallsTo exNoPointer.self) :=
  have hm : Matched exNoPointer exCallInt := Or.inl ⟨by simp [exNoPointer], by decide⟩
  have h := no_pointer_declaration_is_only_erased exOob false false exNewNode exNoWrappers
    ⟨[exNoPointer]⟩ exState exNoPointer (by simp) rfl rfl rfl
    (by intro t ht; simp [exNoPointer] at ht; exact ht)
  ⟨⟨by simp, rfl, rfl, rfl⟩,
    ⟨runOnModule_exNoPointer.choose, runOnModule_exNoPointer.choose_spec,
      h.1 _ runOnModule_exNoPointer.choose_spec exCallInt hm⟩,
    h.2.1 (by intro G hG _; simpa using hG) (by decide)
      (by
        intro ci hci
        rw [matched_exNoPointer ci hci]
        refine ⟨rfl, ?_⟩
        intro op hop
        simp [exCallInt] at hop
        rw [hop])
      (fun _ _ => rfl)⟩

/-- C15, counterexamples to the claim as stated, each a declaration with an
integer result and no pointer-typed formal argument.  `exVarArgs` is
varargs: after `runOnModule` the call site to it (call 10, callee 100) is
still recorded in the graph of the caller.  `exExactCheck` is not varargs and
is named `sc.exactcheck2`: `runOnModule` gives the values `%10` and `%4` of
its call, which had no node, one merged node, which it does not for the
module without the function.  `exKillCast` is not varargs and is named
`kill`, and is called through a pointer cast with the pointer `%1`:
`runOnModule` marks the node of `%1`, which it leaves without a marker for
the module without the function. -/
theorem no_pointer_declarations_with_other_effects :
    (exVarArgs.isDeclaration = true ∧ exVarArgs.returnIsPointerTy = false ∧
      (∀ t ∈ exVarArgs.argIsPointerTy, t = false) ∧
      Matched exVarArgs exCallInt ∧
      exCallInt.isPointerTy = false ∧
      (∀ op ∈ exCallInt.operands.tail, op.isPointerTy = false) ∧
      (runOnModule exOob false false exNewNode exNoWrappers ⟨[exVarArgs]⟩ exState).map
        (fun s => (s.DSInfo 0).FunctionCalls) = some [⟨10, some 100⟩, ⟨11, some 200⟩]) ∧
    (exExactCheck.isDeclaration = true ∧ exExactCheck.isVarArg = false ∧
      exExactCheck.returnIsPointerTy = false ∧
      (∀ t ∈ exExactCheck.argIsPointerTy, t = false) ∧
      Matched exExactCheck exCallTwoInt ∧
      (exState.DSInfo 0).ScalarMap 10 = none ∧ (exState.DSInfo 0).ScalarMap 4 = none ∧
      (runOnModule exOob false false exNewNode exNoWrappers ⟨[exExactCheck]⟩ exState).map
        (fun s => ((s.DSInfo 0).ScalarMap 10, (s.DSInfo 0).ScalarMap 4))
        = some (some 99, some 99) ∧
      (runOnModule exOob false false exNewNode exNoWrappers
        ((Module.mk [exExactCheck]).dropNamed "sc.exactcheck2") exState).map
        (fun s => ((s.DSInfo 0).ScalarMap 10, (s.DSInfo 0).ScalarMap 4))
        = some (none, none)) ∧
    (exKillCast.isDeclaration = true ∧ exKillCast.isVarArg = false ∧
      exKillCast.returnIsPointerTy = false ∧
      (∀ t ∈ exKillCast.argIsPointerTy, t = false) ∧
      Matched exKillCast exCallOneCast ∧
      (exState.DSInfo 0).ScalarMap 1 = some 0 ∧ (exState.DSInfo 0).nodes 0 = exBlank ∧
      (runOnModule exOob false false exNewNode exNoWrappers ⟨[exKillCast]⟩ exState).map
        (fun s => (s.DSInfo 0).nodes 0) = some ⟨true, true, true, false⟩ ∧
      (runOnModule exOob false false exNewNode exNoWrappers
        ((Module.mk [exKillCast]).dropNamed "kill") exState).map
        (fun s => (s.DSInfo 0).nodes 0) = some exBlank) := by
  refine ⟨⟨rfl, rfl, ?_, Or.inl ⟨by simp [exVarArgs], by decide⟩, rfl, ?_,
      runOnModule_exVarArgs⟩,
    ⟨rfl, rfl, rfl, ?_, Or.inl ⟨by simp [exExactCheck], by decide⟩, rfl, rfl,
      runOnModule_exExactCheck, runOnModule_without_exExactCheck⟩,
    ⟨rfl, rfl, rfl, ?_, Or.inr (Or.inr ⟨101, [CEUser.callInst exCallOneCast],
        by simp [exKillCast], by simp, by decide⟩), rfl, rfl,
      runOnModule_exKillCast, runOnModule_without_exKillCast⟩⟩
  · intro t ht; simp [exVarArgs] at ht; exact ht
  · intro op hop; simp [exCallInt] at hop; rw [hop]
  · intro t ht; simp [exExactCheck] at ht; exact ht
  · intro t ht; simp [exKillCast] at ht; exact ht

end StdLibPass

namespace PoolAllocate

/-! ## `getFunctionInfo` -/

theorem count_ne_zero_iff (m : FunctionInfoMap) (F : FunctionPtr) :
    count m F ≠ 0 ↔ ∃ e, m.find? (fun e => decide (e.1 = F)) = some e := by
  unfold count
  cases hf : m.find? (fun e => decide (e.1 = F)) with
  | none =>
    have hany : m.any (fun e => decide (e.1 = F)) = false := by
      rw [List.any_eq_false]
      intro e he
      have := List.find?_eq_none.1 hf e he
      simpa using this
    simp [hany]
  | some e =>
    have hany : m.any (fun e => decide (e.1 = F)) = true := by
      rw [List.any_eq_true]
      exact ⟨e, List.mem_of_find?_eq_some hf, by simpa using List.find?_some hf⟩
    simp [hany]

/-- C17: when `F` is a key of `FunctionInfo`, `getFunctionInfo(F)` returns
the entry stored under `F`, the same as `getFuncInfo(F)`; otherwise it
returns the first entry whose `Clone` is `F`, an entry of the map, when
there is one, and null when there is none.  In every case the map is left
as it was. -/
theorem getFunctionInfo_finds_original_or_clone (m : FunctionInfoMap) (F : FunctionPtr) :
    (getFunctionInfo m F).1 = m ∧
    (∀ e, m.find? (fun e => decide (e.1 = F)) = some e →
      (getFunctionInfo m F).2 = some e ∧ e.1 = F ∧ e ∈ m ∧
      (getFunctionInfo m F).2 = getFuncInfo m F) ∧
    ((∀ e ∈ m, e.1 ≠ F) →
      (∀ e, (getFunctionInfo m F).2 = some e → e ∈ m ∧ e.2.Clone = F) ∧
      ((∃ e ∈ m, e.2.Clone = F) → ∃ e, (getFunctionInfo m F).2 = some e) ∧
      ((∀ e ∈ m, e.2.Clone ≠ F) → (getFunctionInfo m F).2 = none)) := by
  refine ⟨?_, ?_, ?_⟩
  · unfold getFunctionInfo
    by_cases hc : count m F ≠ 0
    · obtain ⟨e, he⟩ := (count_ne_zero_iff m F).1 hc
      simp [hc, subscript, he]
    · simp [hc]
  · intro e he
    have hc : count m F ≠ 0 := (count_ne_zero_iff m F).2 ⟨e, he⟩
    have hk : e.1 = F := by simpa using List.find?_some he
    refine ⟨?_, hk, List.mem_of_find?_eq_some he, ?_⟩
    · simp [getFunctionInfo, hc, subscript, he]
    · simp [getFunctionInfo, hc, subscript, he, getFuncInfo]
  · intro hno
    have hc : ¬ count m F ≠ 0 := by
      rw [count_ne_zero_iff]
      rintro ⟨e, he⟩
      exact hno e (List.mem_of_find?_eq_some he) (by simpa using List.find?_some he)
    have hres : (getFunctionInfo m F).2 = m.find? (fun e => decide (e.2.Clone = F)) := by
      simp [getFunctionInfo, hc]
    refine ⟨?_, ?_, ?_⟩
    · intro e he
      rw [hres] at he
      exact ⟨List.mem_of_find?_eq_some he, by simpa using List.find?_some he⟩
    · rintro ⟨e, hem, hcl⟩
      rw [hres]
      cases hf : m.find? (fun e => decide (e.2.Clone = F)) with
      | some e2 => exact ⟨e2, rfl⟩
      | none =>
        have := List.find?_eq_none.1 hf e hem
        simp [hcl] at this
    · intro hnc
      rw [hres, List.find?_eq_none]
      intro e he
      simpa using hnc e he

end PoolAllocate

namespace PoolAllocate

/-! ## The equivalence classes of procedures -/

open Relation in
theorem eqvGen_of_sub {r p : FunctionPtr → FunctionPtr → Prop}
    (h : ∀ x y, r x y → EqvGen p x y) {u v : FunctionPtr} (huv : EqvGen r u v) :
    EqvGen p u v := by
  induction huv with
  | rel x y hxy => exact h x y hxy
  | refl x => exact EqvGen.refl x
  | symm x y _ ih => exact EqvGen.symm x y ih
  | trans x y z _ _ ih1 ih2 => exact EqvGen.trans x y z ih1 ih2

theorem unionSets_iff (ec : EquivalenceClasses) (a b u v : FunctionPtr) :
    unionSets ec a b u = unionSets ec a b v ↔
      ec u = ec v ∨ (ec u = ec a ∧ ec v = ec b) ∨ (ec u = ec b ∧ ec v = ec a) := by
  unfold unionSets
  split_ifs with hu hv hv
  · constructor
    · intro _; left; exact hu.trans hv.symm
    · intro _; rfl
  · constructor
    · intro h; right; right; exact ⟨hu, h.symm⟩
    · rintro (h | ⟨_, h2⟩ | ⟨_, h2⟩)
      · exact absurd (h.symm.trans hu) hv
      · exact absurd h2 hv
      · exact h2.symm
  · constructor
    · intro h; right; left; exact ⟨h, hv⟩
    · rintro (h | ⟨h1, _⟩ | ⟨h1, _⟩)
      · exact absurd (h.trans hv) hu
      · exact h1
      · exact absurd h1 hu
  · constructor
    · intro h; left; exact h
    · rintro (h | ⟨_, h2⟩ | ⟨h1, _⟩)
      · exact h
      · exact absurd h2 hv
      · exact absurd h1 hu

/-- The unions of a list of pairs, run in order. -/
theorem foldl_unionSets_iff (ps : List (FunctionPtr × FunctionPtr)) :
    ∀ (ec : EquivalenceClasses) (u v : FunctionPtr),
      (ps.foldl (fun ec p => unionSets ec p.1 p.2) ec) u
          = (ps.foldl (fun ec p => unionSets ec p.1 p.2) ec) v ↔
        Relation.EqvGen (fun x y => ec x = ec y ∨ (x, y) ∈ ps) u v := by
  induction ps with
  | nil =>
    intro ec u v
    simp only [List.foldl_nil, List.not_mem_nil, or_false]
    constructor
    · intro h; exact Relation.EqvGen.rel u v h
    · intro h
      induction h with
      | rel x y hxy => exact hxy
      | refl x => rfl
      | symm x y _ ih => exact ih.symm
      | trans x y z _ _ ih1 ih2 => exact ih1.trans ih2
  | cons p ps ih =>
    intro ec u v
    simp only [List.foldl_cons]
    rw [ih]
    constructor
    · apply eqvGen_of_sub
      rintro x y (h | h)
      · rcases (unionSets_iff ec p.1 p.2 x y).1 h with h1 | ⟨h1, h2⟩ | ⟨h1, h2⟩
        · exact Relation.EqvGen.rel x y (Or.inl h1)
        · exact Relation.EqvGen.trans x p.1 y (Relation.EqvGen.rel x p.1 (Or.inl h1))
            (Relation.EqvGen.trans p.1 p.2 y
              (Relation.EqvGen.rel p.1 p.2 (Or.inr (List.mem_cons_self _ _)))
              (Relation.EqvGen.rel p.2 y (Or.inl h2.symm)))
        · exact Relation.EqvGen.trans x p.2 y (Relation.EqvGen.rel x p.2 (Or.inl h1))
            (Relation.EqvGen.trans p.2 p.1 y
              (Relation.EqvGen.symm p.1 p.2
                (Relation.EqvGen.rel p.1 p.2 (Or.inr (List.mem_cons_self _ _))))
              (Relation.EqvGen.rel p.1 y (Or.inl h2.symm)))
      · exact Relation.EqvGen.rel x y (Or.inr (List.mem_cons_of_mem _ h))
    · apply eqvGen_of_sub
      rintro x y (h | h)
      · exact Relation.EqvGen.rel x y (Or.inl ((unionSets_iff ec p.1 p.2 x y).2 (Or.inl h)))
      · rcases List.mem_cons.1 h with h1 | h1
        · refine Relation.EqvGen.rel x y (Or.inl ?_)
          rw [← h1]
          exact (unionSets_iff ec x y x y).2 (Or.inr (Or.inl ⟨rfl, rfl⟩))
        · exact Relation.EqvGen.rel x y (Or.inr h1)


theorem unionTargets_eq (ts : List FunctionPtr) (ec : EquivalenceClasses) :
    unionTargets ec ts = (targetPairs ts).foldl (fun ec p => unionSets ec p.1 p.2) ec := by
  cases ts with
  | nil => rfl
  | cons f rest =>
    simp only [unionTargets, targetPairs, List.foldl_map]

theorem foldl_unionTargets_eq (sites : List (List FunctionPtr)) :
    ∀ ec : EquivalenceClasses,
      sites.foldl unionTargets ec
        = ((sites.map targetPairs).flatten).foldl (fun ec p => unionSets ec p.1 p.2) ec := by
  induction sites with
  | nil => intro ec; rfl
  | cons ts sites ih =>
    intro ec
    simp only [List.foldl_cons, List.map_cons, List.flatten_cons, List.foldl_append]
    rw [ih, unionTargets_eq]

theorem mem_targetPairs (ts : List FunctionPtr) (x y : FunctionPtr)
    (h : (x, y) ∈ targetPairs ts) : x ∈ ts ∧ y ∈ ts := by
  cases ts with
  | nil => cases h
  | cons f rest =>
    simp only [targetPairs, List.mem_map, Prod.mk.injEq] at h
    obtain ⟨g, hg, hx, hy⟩ := h
    subst hx; subst hy
    exact ⟨List.mem_cons_self _ _, List.mem_cons_of_mem _ hg⟩

theorem eqvGen_pairs_of_mem (ts : List FunctionPtr) (x y : FunctionPtr)
    (hx : x ∈ ts) (hy : y ∈ ts) :
    Relation.EqvGen (fun u v => u = v ∨ (u, v) ∈ targetPairs ts) x y := by
  cases ts with
  | nil => cases hx
  | cons f rest =>
    have key : ∀ z, z ∈ f :: rest →
        Relation.EqvGen (fun u v => u = v ∨ (u, v) ∈ targetPairs (f :: rest)) f z := by
      intro z hz
      rcases List.mem_cons.1 hz with h | h
      · rw [h]; exact Relation.EqvGen.refl f
      · apply Relation.EqvGen.rel
        right
        simp only [targetPairs, List.mem_map, Prod.mk.injEq]
        exact ⟨z, h, trivial, rfl⟩
    exact Relation.EqvGen.trans x f y (Relation.EqvGen.symm f x (key x hx)) (key y hy)

/-- Two procedures are in the same class iff they are connected through
shared target sets. -/
theorem sameClass_iff_connected (sites : List (List FunctionPtr)) (a b : FunctionPtr) :
    sameClass (buildIndirectFunctionSets sites) a b ↔
      Relation.EqvGen (shareCallSite sites) a b := by
  unfold sameClass buildIndirectFunctionSets
  rw [foldl_unionTargets_eq, foldl_unionSets_iff]
  constructor
  · apply eqvGen_of_sub
    rintro x y (h | h)
    · rw [h]; exact Relation.EqvGen.refl y
    · simp only [List.mem_flatten, List.mem_map] at h
      obtain ⟨l, ⟨ts, hts, rfl⟩, hxy⟩ := h
      obtain ⟨hx, hy⟩ := mem_targetPairs ts x y hxy
      exact Relation.EqvGen.rel x y ⟨ts, hts, hx, hy⟩
  · apply eqvGen_of_sub
    rintro x y ⟨ts, hts, hx, hy⟩
    refine Relation.EqvGen.mono ?_ (eqvGen_pairs_of_mem ts x y hx hy)
    rintro u v (h | h)
    · exact Or.inl h
    · right
      simp only [List.mem_flatten, List.mem_map]
      exact ⟨_, ⟨ts, hts, rfl⟩, h⟩

/-- C18: in the classes that `buildIndirectFunctionSets` builds from the
target sets of the indirect call sites, two procedures are in the same class
iff they are connected through shared target sets; hence for every
permutation of the call sites, and every reordering within the target sets,
the same procedures are in the same class. -/
theorem classes_do_not_depend_on_order (sites1 sites2 : List (List FunctionPtr)) :
    (∀ a b, sameClass (buildIndirectFunctionSets sites1) a b ↔
      Relation.EqvGen (shareCallSite sites1) a b) ∧
    (sites1.Perm sites2 →
      ∀ a b, sameClass (buildIndirectFunctionSets sites1) a b ↔
        sameClass (buildIndirectFunctionSets sites2) a b) ∧
    ((∀ a b, shareCallSite sites1 a b ↔ shareCallSite sites2 a b) →
      ∀ a b, sameClass (buildIndirectFunctionSets sites1) a b ↔
        sameClass (buildIndirectFunctionSets sites2) a b) := by
  have hrel : (∀ a b, shareCallSite sites1 a b ↔ shareCallSite sites2 a b) →
      ∀ a b, sameClass (buildIndirectFunctionSets sites1) a b ↔
        sameClass (buildIndirectFunctionSets sites2) a b := by
    intro h a b
    rw [sameClass_iff_connected, sameClass_iff_connected]
    constructor
    · exact Relation.EqvGen.mono (fun x y hxy => (h x y).1 hxy)
    · exact Relation.EqvGen.mono (fun x y hxy => (h x y).2 hxy)
  refine ⟨sameClass_iff_connected sites1, ?_, hrel⟩
  intro hperm
  apply hrel
  intro a b
  unfold shareCallSite
  constructor
  · rintro ⟨ts, hts, h⟩; exact ⟨ts, hperm.mem_iff.1 hts, h⟩
  · rintro ⟨ts, hts, h⟩; exact ⟨ts, hperm.mem_iff.2 hts, h⟩

/-- C18, witness: the call sites with the target sets `[1, 2]` and `[2, 3]`
in either order put the procedures 1 and 3 in the same class. -/
theorem classes_order_witness :
    [[1, 2], [2, 3]].Perm [[2, 3], [1, 2]] ∧
    sameClass (buildIndirectFunctionSets [[1, 2], [2, 3]]) 1 3 ∧
    sameClass (buildIndirectFunctionSets [[2, 3], [1, 2]]) 1 3 :=
  have hp : [[1, 2], [2, 3]].Perm [[2, 3], [1, 2]] := List.Perm.swap _ _ _
  have h1 : sameClass (buildIndirectFunctionSets [[1, 2], [2, 3]]) 1 3 := by
    unfold sameClass; decide
  ⟨hp, h1, ((classes_do_not_depend_on_order [[1, 2], [2, 3]] [[2, 3], [1, 2]]).2.1 hp 1 3).1 h1⟩

end PoolAllocate
namespace PoolAllocate

/-! ## The pool arguments of an equivalence class -/

theorem foldl_max_ge (l : List Nat) :
    ∀ init : Nat, init ≤ l.foldl max init ∧ ∀ x ∈ l, x ≤ l.foldl max init := by
  induction l with
  | nil => intro init; exact ⟨Nat.le_refl _, fun x hx => by cases hx⟩
  | cons y l ih =>
    intro init
    obtain ⟨h1, h2⟩ := ih (max init y)
    simp only [List.foldl_cons]
    refine ⟨Nat.le_trans (Nat.le_max_left _ _) h1, ?_⟩
    intro x hx
    rcases List.mem_cons.1 hx with h | h
    · rw [h]; exact Nat.le_trans (Nat.le_max_right _ _) h1
    · exact h2 x h

theorem foldl_max_le (l : List Nat) (k : Nat) :
    ∀ init : Nat, init ≤ k → (∀ x ∈ l, x ≤ k) → l.foldl max init ≤ k := by
  induction l with
  | nil => intro init h _; exact h
  | cons y l ih =>
    intro init h hl
    simp only [List.foldl_cons]
    apply ih
    · exact Nat.max_le.2 ⟨h, hl y (List.mem_cons_self _ _)⟩
    · exact fun x hx => hl x (List.mem_cons_of_mem _ hx)

theorem foldl_max_mem (l : List Nat) :
    ∀ init : Nat, l.foldl max init = init ∨ l.foldl max init ∈ l := by
  induction l with
  | nil => intro init; left; rfl
  | cons y l ih =>
    intro init
    simp only [List.foldl_cons]
    rcases ih (max init y) with h | h
    · rw [h]
      rcases Nat.le_total init y with hle | hle
      · right; rw [Nat.max_eq_right hle]; exact List.mem_cons_self _ _
      · left; exact Nat.max_eq_left hle
    · right; exact List.mem_cons_of_mem _ h

theorem classPoolSlots_ge (ec : EquivalenceClasses) (procs : List FunctionPtr)
    (needs : FunctionPtr → Nat) (p q : FunctionPtr) (hq : q ∈ procs) (hs : sameClass ec q p) :
    needs q ≤ classPoolSlots ec procs needs p := by
  unfold classPoolSlots
  apply (foldl_max_ge _ 0).2
  simp only [List.mem_map, List.mem_filter, decide_eq_true_eq]
  exact ⟨q, ⟨hq, hs⟩, rfl⟩

theorem classPoolSlots_le (ec : EquivalenceClasses) (procs : List FunctionPtr)
    (needs : FunctionPtr → Nat) (p : FunctionPtr) (k : Nat)
    (h : ∀ q ∈ procs, sameClass ec q p → needs q ≤ k) :
    classPoolSlots ec procs needs p ≤ k := by
  unfold classPoolSlots
  apply foldl_max_le _ k 0 (Nat.zero_le _)
  intro x hx
  simp only [List.mem_map, List.mem_filter, decide_eq_true_eq] at hx
  obtain ⟨q, ⟨hq, hs⟩, rfl⟩ := hx
  exact h q hq hs

theorem classPoolSlots_attained (ec : EquivalenceClasses) (procs : List FunctionPtr)
    (needs : FunctionPtr → Nat) (p : FunctionPtr) :
    classPoolSlots ec procs needs p = 0 ∨
    ∃ q ∈ procs, sameClass ec q p ∧ needs q = classPoolSlots ec procs needs p := by
  unfold classPoolSlots
  rcases foldl_max_mem ((procs.filter (fun q => decide (ec q = ec p))).map needs) 0 with h | h
  · left; exact h
  · right
    simp only [List.mem_map, List.mem_filter, decide_eq_true_eq] at h
    obtain ⟨q, ⟨hq, hs⟩, hn⟩ := h
    exact ⟨q, hq, hs, hn⟩

theorem classPoolSlots_congr (ec : EquivalenceClasses) (procs : List FunctionPtr)
    (needs : FunctionPtr → Nat) (p q : FunctionPtr) (hs : sameClass ec p q) :
    classPoolSlots ec procs needs p = classPoolSlots ec procs needs q := by
  unfold sameClass at hs
  unfold classPoolSlots
  rw [hs]

theorem poolParamCount_of_reachable (sites : List (List FunctionPtr)) (procs : List FunctionPtr)
    (needs : FunctionPtr → Nat) (p : FunctionPtr) (h : reachableIndirect sites p = true) :
    poolParamCount sites procs needs p
      = classPoolSlots (buildIndirectFunctionSets sites) procs needs p := by
  unfold poolParamCount
  simp [h]

theorem reachableIndirect_of_mem (sites : List (List FunctionPtr)) (ts : List FunctionPtr)
    (p : FunctionPtr) (hts : ts ∈ sites) (hp : p ∈ ts) : reachableIndirect sites p = true := by
  unfold reachableIndirect
  rw [List.any_eq_true]
  exact ⟨ts, hts, by simpa using hp⟩

/-- C19: the procedures of one class that are reachable through indirect
calls share one pool-parameter count, the count of the class, which is the
maximum of the needs of its members: no member needs more, and some member
needs as much unless the count is 0.  The class has no entry in
`EqClass2LastPoolArg` iff none of its members needs a pool.  When `a` and `b`
are in the target set of one indirect call site, `a` needs 2 pools, `b`
needs none and no member of the class needs more than 2, the count is 2 for
both and `b` does not use 2 of the descriptor parameters of its clone. -/
theorem class_members_share_pool_parameter_count (sites : List (List FunctionPtr))
    (procs : List FunctionPtr) (needs : FunctionPtr → Nat) :
    (∀ p q, reachableIndirect sites p = true → reachableIndirect sites q = true →
      sameClass (buildIndirectFunctionSets sites) p q →
      poolParamCount sites procs needs p = poolParamCount sites procs needs q ∧
      poolParamCount sites procs needs p
        = classPoolSlots (buildIndirectFunctionSets sites) procs needs p) ∧
    (∀ p, ∀ q ∈ procs, sameClass (buildIndirectFunctionSets sites) q p →
      needs q ≤ classPoolSlots (buildIndirectFunctionSets sites) procs needs p) ∧
    (∀ p, classPoolSlots (buildIndirectFunctionSets sites) procs needs p = 0 ∨
      ∃ q ∈ procs, sameClass (buildIndirectFunctionSets sites) q p ∧
        needs q = classPoolSlots (buildIndirectFunctionSets sites) procs needs p) ∧
    (∀ p, EqClass2LastPoolArg (buildIndirectFunctionSets sites) procs needs p = none ↔
      ∀ q ∈ procs, sameClass (buildIndirectFunctionSets sites) q p → needs q = 0) ∧
    (∀ (a b : FunctionPtr) (ts : List FunctionPtr), ts ∈ sites → a ∈ ts → b ∈ ts →
      a ∈ procs → needs a = 2 → needs b = 0 →
      (∀ q ∈ procs, sameClass (buildIndirectFunctionSets sites) q a → needs q ≤ 2) →
      poolParamCount sites procs needs a = 2 ∧ poolParamCount sites procs needs b = 2 ∧
      unusedPoolParams sites procs needs b = 2) := by
  refine ⟨?_, ?_, ?_, ?_, ?_⟩
  · intro p q hp hq hs
    rw [poolParamCount_of_reachable sites procs needs p hp,
      poolParamCount_of_reachable sites procs needs q hq]
    exact ⟨classPoolSlots_congr _ procs needs p q hs, rfl⟩
  · intro p q hq hs
    exact classPoolSlots_ge _ procs needs p q hq hs
  · intro p
    exact classPoolSlots_attained _ procs needs p
  · intro p
    unfold EqClass2LastPoolArg
    constructor
    · intro h q hq hs
      by_cases h0 : classPoolSlots (buildIndirectFunctionSets sites) procs needs p = 0
      · have := classPoolSlots_ge _ procs needs p q hq hs
        omega
      · simp [h0] at h
    · intro h
      have : classPoolSlots (buildIndirectFunctionSets sites) procs needs p = 0 := by
        have := classPoolSlots_le (buildIndirectFunctionSets sites) procs needs p 0
          (fun q hq hs => by rw [h q hq hs])
        omega
      simp [this]
  · intro a b ts hts ha hb hap hna hnb hle
    have hra := reachableIndirect_of_mem sites ts a hts ha
    have hrb := reachableIndirect_of_mem sites ts b hts hb
    have hsame : sameClass (buildIndirectFunctionSets sites) b a :=
      (sameClass_iff_connected sites b a).2 (Relation.EqvGen.rel b a ⟨ts, hts, hb, ha⟩)
    have hslots : classPoolSlots (buildIndirectFunctionSets sites) procs needs a = 2 := by
      have h1 := classPoolSlots_le (buildIndirectFunctionSets sites) procs needs a 2 hle
      have h2 := classPoolSlots_ge (buildIndirectFunctionSets sites) procs needs a a hap rfl
      omega
    have hb2 : poolParamCount sites procs needs b = 2 := by
      rw [poolParamCount_of_reachable sites procs needs b hrb,
        classPoolSlots_congr _ procs needs b a hsame, hslots]
    refine ⟨?_, hb2, ?_⟩
    · rw [poolParamCount_of_reachable sites procs needs a hra, hslots]
    · unfold unusedPoolParams
      rw [hb2, hnb]

/-- C19, witness: the procedures 1 and 2 are the targets of one indirect
call site, 1 needs 2 pools and 2 needs none; both get the count 2. -/
theorem pool_parameter_count_witness :
    poolParamCount [[1, 2]] [1, 2] (fun p => if p = 1 then 2 else 0) 1 = 2 ∧
    poolParamCount [[1, 2]] [1, 2] (fun p => if p = 1 then 2 else 0) 2 = 2 ∧
    unusedPoolParams [[1, 2]] [1, 2] (fun p => if p = 1 then 2 else 0) 2 = 2 :=
  (class_members_share_pool_parameter_count [[1, 2]] [1, 2]
    (fun p => if p = 1 then 2 else 0)).2.2.2.2 1 2 [1, 2] (by simp) (by simp) (by simp)
    (by simp) rfl rfl
    (by
      intro q _ _
      show (if q = 1 then 2 else 0) ≤ 2
      split <;> omega)

end PoolAllocate
